import Mathlib

/-!
# Scanner of `sardonyx13/itl`

A shallow embedding of `scanner/token.go` and `scanner/scanner.go`, followed by
theorems about the embedded programme.

Conventions of the embedding:

* a byte buffer (`[]byte`) and a Go `string` are lists of byte values (`List Nat`);
* `rune`, `int` and `Token` are integers; offsets, which the code never makes
  negative, are natural numbers;
* every `for cond { s.next() }` loop is `whileNext cond fuel`, run with
  `len(src) + 1` units of fuel; `whileNext_exits` shows that this is enough for
  the loop to leave through its condition;
* the error callback is modelled by a log to which every call appends
  `(offset, message)`; a nil callback leaves the log alone.
-/

namespace Itl

/-! ## token.go -/

/-- Go `type Token int`. -/
abbrev Token := Int

/-- Go `string`: a sequence of bytes. -/
abbrev GoString := List Nat

/-- Bytes of an ASCII string literal. -/
def ascii (s : String) : GoString := s.data.map Char.toNat

def ILLEGAL : Token := 0
def EOF : Token := 1
def COMMENT : Token := 2
def literal_beg : Token := 3
def IDENT : Token := 4
def INT : Token := 5
def FLOAT : Token := 6
def literal_end : Token := 7
def operator_beg : Token := 8
def ADD : Token := 9
def SUB : Token := 10
def MUL : Token := 11
def QUO : Token := 12
def AND : Token := 13
def OR : Token := 14
def NOT : Token := 15
def EQL : Token := 16
def LSS : Token := 17
def GTR : Token := 18
def ASSIGN : Token := 19
def NEQ : Token := 20
def LEQ : Token := 21
def GEQ : Token := 22
def XABOVE : Token := 23
def GOINGUP : Token := 24
def TURNSUP : Token := 25
def WHEN : Token := 26
def XBELOW : Token := 27
def GOINGDOWN : Token := 28
def TURNSDOWN : Token := 29
def IF : Token := 30
def LPAREN : Token := 31
def LBRACK : Token := 32
def COMMA : Token := 33
def PERIOD : Token := 34
def RPAREN : Token := 35
def RBRACK : Token := 36
def SEMICOLON : Token := 37
def COLON : Token := 38
def operator_end : Token := 39

/-- The array `tokens`: index `i` holds the string of kind `i`; the band
markers have no entry and hold the empty string. Its length is `COLON + 1`. -/
def tokens : List GoString :=
  [ ascii "ILLEGAL", ascii "EOF", ascii "COMMENT",
    [],
    ascii "IDENT", ascii "INT", ascii "FLOAT",
    [],
    [],
    ascii "+", ascii "-", ascii "*", ascii "/",
    ascii "AND", ascii "OR", ascii "NOT",
    ascii "=", ascii "<", ascii ">", ascii ":=",
    ascii "<>", ascii "<=", ascii ">=",
    ascii "XABOVE", ascii "GOINGUP", ascii "TURNSUP", ascii "WHEN",
    ascii "XBELOW", ascii "GOINGDOWN", ascii "TURNSDOWN", ascii "IF",
    ascii "(", ascii "[", ascii ",", ascii ".",
    ascii ")", ascii "]", ascii ";", ascii ":" ]

/-- Modelled from the spec: what the source uses without declaring it, namely
the constants `keyword_beg` and `keyword_end` of `token.go` and the library
predicates `unicode.IsLetter` and `unicode.IsDigit`. The spec (section 3) says
that the keywords occupy a sub-range of the operator band, which is what the
two bounds record; the Unicode predicates are arbitrary. -/
structure Env where
  keyword_beg : Nat
  keyword_end : Nat
  unicodeIsLetter : Int → Bool
  unicodeIsDigit : Int → Bool
  beg_ge : 8 ≤ keyword_beg
  end_le : keyword_end ≤ 39

/-- The loop of `init`, from index `i` for `n` rounds: `keywords[tokens[i]] = i`.
The map is an association list whose head is the latest assignment. -/
def keywordsFrom (i : Nat) : Nat → List (GoString × Token) → List (GoString × Token)
  | 0, m => m
  | n + 1, m => keywordsFrom (i + 1) n ((tokens.getD i [], (i : Int)) :: m)

/-- The map `keywords` as `init` leaves it:
`for i := keyword_beg + 1; i < keyword_end; i++`. -/
def keywords (E : Env) : List (GoString × Token) :=
  keywordsFrom (E.keyword_beg + 1) (E.keyword_end - (E.keyword_beg + 1)) []

/-- Go `keywords[ident]` with the comma-ok form. -/
def mapGet (m : List (GoString × Token)) (ident : GoString) : Option Token :=
  (m.find? (fun e => e.1 == ident)).map (fun e => e.2)

/-- `Lookup`: the keyword token of an identifier, or `IDENT`. -/
def Lookup (E : Env) (ident : GoString) : Token :=
  match mapGet (keywords E) ident with
  | some tok => tok
  | none => IDENT

/-- Go `strconv.Itoa`: the decimal rendering of an integer, with a minus sign
in front of a negative one. -/
def Itoa (n : Int) : GoString :=
  if n < 0 then 45 :: (Nat.toDigits 10 n.natAbs).map Char.toNat
  else (Nat.toDigits 10 n.toNat).map Char.toNat

/-- The method `String`: the entry of the table, or `token(n)` when the kind is
outside the table or its entry is empty. -/
def Token.String (tok : Token) : GoString :=
  let s := if 0 ≤ tok ∧ tok < (tokens.length : Int) then tokens.getD tok.toNat [] else []
  if s = [] then ascii "token(" ++ Itoa tok ++ ascii ")" else s

def LowestPrec : Int := 0
def UnaryPrec : Int := 6
def HighestPrec : Int := 7

/-- Modelled from the spec: the operator kinds that `Precedence` names and
`token.go` does not declare. The spec (section 4.1, open question) says that
they are not part of the declared kind set; their values are arbitrary. -/
structure Undeclared where
  LOR : Token
  LAND : Token
  XOR : Token
  REM : Token
  SHL : Token
  SHR : Token
  AND_NOT : Token

/-- The method `Precedence`; a `case` with several kinds is a membership test,
and the first `case` that matches decides. -/
def Token.Precedence (U : Undeclared) (op : Token) : Int :=
  if op ∈ [U.LOR] then 1
  else if op ∈ [U.LAND] then 2
  else if op ∈ [EQL, NEQ, LSS, LEQ, GTR, GEQ] then 3
  else if op ∈ [ADD, SUB, OR, U.XOR] then 4
  else if op ∈ [MUL, QUO, U.REM, U.SHL, U.SHR, AND, U.AND_NOT] then 5
  else LowestPrec

/-- The method `IsLiteral`. -/
def Token.IsLiteral (tok : Token) : Bool := literal_beg < tok && tok < literal_end

/-- The method `IsOperator`. -/
def Token.IsOperator (tok : Token) : Bool := operator_beg < tok && tok < operator_end

/-- Undeclared operator kinds numbered after the declared ones. -/
def undeclared0 : Undeclared :=
  { LOR := 40, LAND := 41, XOR := 42, REM := 43, SHL := 44, SHR := 45, AND_NOT := 46 }

/-- The constants of all the `case` clauses of `Precedence`, in order. Go
rejects a `switch` in which two of them are equal. -/
def caseConstants (U : Undeclared) : List Token :=
  [U.LOR, U.LAND, EQL, NEQ, LSS, LEQ, GTR, GEQ, ADD, SUB, OR, U.XOR,
    MUL, QUO, U.REM, U.SHL, U.SHR, AND, U.AND_NOT]

/-! ## scanner.go -/

/-- The message handed to the error callback. `illegalCharacter ch` stands for
`fmt.Sprintf("illegal character %#U", ch)`. -/
inductive Msg where
  | illegalCharacter (ch : Int)
  | illegalNULL
  | illegalUTF8
  | illegalBOM
  deriving DecidableEq, Repr

/-- The struct `Scanner`. `err` says whether the callback is non-nil and `log`
collects the calls made to it. -/
structure Scanner where
  src : List Nat
  err : Bool
  log : List (Nat × Msg)
  ch : Int
  offset : Nat
  rdOffset : Nat
  ErrorCount : Nat
  deriving DecidableEq, Repr

/-- The constant `bom`. -/
def bom : Int := 0xFEFF

/-- The constant `utf8.RuneError`. -/
def RuneError : Int := 0xFFFD

/-- Go `utf8.DecodeRune` on a buffer that starts with a byte `>= 0x80`: the
rune and its width. The masks and shifts of the library are written with
`%` and `*`; the bit fields do not overlap, so `|` is `+`. -/
def DecodeRune (p : List Nat) : Int × Nat :=
  match p with
  | [] => (RuneError, 0)
  | p0 :: t =>
    if p0 < 0xC2 then (RuneError, 1)
    else if p0 < 0xE0 then
      match t with
      | b1 :: _ =>
        if b1 < 0x80 ∨ 0xBF < b1 then (RuneError, 1)
        else ((((p0 % 32) * 64 + b1 % 64 : Nat) : Int), 2)
      | _ => (RuneError, 1)
    else if p0 < 0xF0 then
      match t with
      | b1 :: b2 :: _ =>
        let lo := if p0 = 0xE0 then 0xA0 else 0x80
        let hi := if p0 = 0xED then 0x9F else 0xBF
        if b1 < lo ∨ hi < b1 then (RuneError, 1)
        else if b2 < 0x80 ∨ 0xBF < b2 then (RuneError, 1)
        else ((((p0 % 16) * 4096 + (b1 % 64) * 64 + b2 % 64 : Nat) : Int), 3)
      | _ => (RuneError, 1)
    else if p0 < 0xF5 then
      match t with
      | b1 :: b2 :: b3 :: _ =>
        let lo := if p0 = 0xF0 then 0x90 else 0x80
        let hi := if p0 = 0xF4 then 0x8F else 0xBF
        if b1 < lo ∨ hi < b1 then (RuneError, 1)
        else if b2 < 0x80 ∨ 0xBF < b2 then (RuneError, 1)
        else if b3 < 0x80 ∨ 0xBF < b3 then (RuneError, 1)
        else ((((p0 % 8) * 262144 + (b1 % 64) * 4096 + (b2 % 64) * 64 + b3 % 64 : Nat) : Int), 4)
      | _ => (RuneError, 1)
    else (RuneError, 1)

/-- The method `error`: call the callback when there is one, count always. -/
def Scanner.error (s : Scanner) (offs : Nat) (msg : Msg) : Scanner :=
  { s with
    log := if s.err then s.log ++ [(offs, msg)] else s.log
    ErrorCount := s.ErrorCount + 1 }

/-- The method `next`. -/
def next (s : Scanner) : Scanner :=
  if s.rdOffset < s.src.length then
    let s1 := { s with offset := s.rdOffset }
    let b := s1.src.getD s1.rdOffset 0
    if b = 0 then
      let s2 := s1.error s1.offset Msg.illegalNULL
      { s2 with rdOffset := s2.rdOffset + 1, ch := 0 }
    else if b ≥ 0x80 then
      let rw := DecodeRune (s1.src.drop s1.rdOffset)
      let s2 :=
        if rw.1 = RuneError ∧ rw.2 = 1 then s1.error s1.offset Msg.illegalUTF8
        else if rw.1 = bom ∧ s1.offset > 0 then s1.error s1.offset Msg.illegalBOM
        else s1
      { s2 with rdOffset := s2.rdOffset + rw.2, ch := rw.1 }
    else
      { s1 with rdOffset := s1.rdOffset + 1, ch := (b : Int) }
  else
    { s with offset := s.src.length, ch := -1 }

/-- The function `isLetter`. -/
def isLetter (E : Env) (ch : Int) : Bool :=
  (97 ≤ ch && ch ≤ 122) || (65 ≤ ch && ch ≤ 90) || ch == 95
    || (ch ≥ 0x80 && E.unicodeIsLetter ch)

/-- The function `isDigit`. -/
def isDigit (E : Env) (ch : Int) : Bool :=
  (48 ≤ ch && ch ≤ 57) || (ch ≥ 0x80 && E.unicodeIsDigit ch)

/-- The loop condition of `skipWhitespace`: space, tab, newline, carriage return. -/
def isSpace (ch : Int) : Bool :=
  ch == 32 || ch == 9 || ch == 10 || ch == 13

/-- The loop `for cond(s.ch) { s.next() }` with a bound on its rounds. -/
def whileNext (cond : Int → Bool) : Nat → Scanner → Scanner
  | 0, s => s
  | fuel + 1, s => if cond s.ch then whileNext cond fuel (next s) else s

/-- The method `skipWhitespace`. -/
def skipWhitespace (s : Scanner) : Scanner :=
  whileNext isSpace (s.src.length + 1) s

/-- Go `s.src[lo:hi]`. -/
def slice (src : List Nat) (lo hi : Nat) : List Nat :=
  (src.take hi).drop lo

/-- The method `scanIdentifier`. -/
def scanIdentifier (E : Env) (s : Scanner) : Scanner × GoString :=
  let offs := s.offset
  let s := whileNext (fun c => isLetter E c || isDigit E c) (s.src.length + 1) s
  (s, slice s.src offs s.offset)

/-- The method `scanNumber`. -/
def scanNumber (E : Env) (s : Scanner) (seenDecimalPoint : Bool) :
    Scanner × Token × GoString :=
  let offs := if seenDecimalPoint then s.offset - 1 else s.offset
  let s := whileNext (isDigit E) (s.src.length + 1) s
  if s.ch = 46 ∧ seenDecimalPoint = false then
    let s := next s
    let s := whileNext (isDigit E) (s.src.length + 1) s
    (s, FLOAT, slice s.src offs s.offset)
  else
    (s, if seenDecimalPoint then FLOAT else INT, slice s.src offs s.offset)

/-- The method `switch2`. -/
def switch2 (s : Scanner) (tok0 tok1 : Token) : Scanner × Token :=
  if s.ch = 61 then (next s, tok1) else (s, tok0)

/-- The method `switch3`. -/
def switch3 (s : Scanner) (tok0 tok1 tok3 : Token) : Scanner × Token :=
  if s.ch = 61 then (next s, tok1)
  else if s.ch = 62 then (next s, tok3)
  else (s, tok0)

/-- What one call of `Scan` returns, next to the scanner it leaves. -/
structure Result where
  pos : Nat
  tok : Token
  lit : GoString
  deriving DecidableEq, Repr

/-- The method `Scan`. -/
def Scan (E : Env) (s : Scanner) : Scanner × Result :=
  let s := skipWhitespace s
  let pos := s.offset
  let ch := s.ch
  if isLetter E ch then
    let r := scanIdentifier E s
    (r.1, ⟨pos, Lookup E r.2, r.2⟩)
  else if isDigit E ch then
    let r := scanNumber E s false
    (r.1, ⟨pos, r.2.1, r.2.2⟩)
  else
    let s := next s
    if ch = -1 then (s, ⟨pos, EOF, []⟩)
    else if ch = 44 then (s, ⟨pos, COMMA, []⟩)
    else if ch = 40 then (s, ⟨pos, LPAREN, []⟩)
    else if ch = 41 then (s, ⟨pos, RPAREN, []⟩)
    else if ch = 91 then (s, ⟨pos, LBRACK, []⟩)
    else if ch = 93 then (s, ⟨pos, RBRACK, []⟩)
    else if ch = 43 then (s, ⟨pos, ADD, []⟩)
    else if ch = 45 then (s, ⟨pos, SUB, []⟩)
    else if ch = 42 then (s, ⟨pos, MUL, []⟩)
    else if ch = 47 then (s, ⟨pos, QUO, []⟩)
    else if ch = 61 then (s, ⟨pos, EQL, []⟩)
    else if ch = 58 then
      if s.ch = 61 then (next s, ⟨pos, ASSIGN, []⟩) else (s, ⟨pos, ILLEGAL, []⟩)
    else if ch = 46 then
      if 48 ≤ s.ch ∧ s.ch ≤ 57 then
        let r := scanNumber E s true
        (r.1, ⟨pos, r.2.1, r.2.2⟩)
      else (s, ⟨pos, ILLEGAL, []⟩)
    else if ch = 60 then
      let r := switch3 s LSS LEQ NEQ
      (r.1, ⟨pos, r.2, []⟩)
    else if ch = 62 then
      let r := switch2 s GTR GEQ
      (r.1, ⟨pos, r.2, []⟩)
    else if ch = 59 then (s, ⟨pos, SEMICOLON, []⟩)
    else if ¬ ch = bom then (s.error pos (Msg.illegalCharacter ch), ⟨pos, ILLEGAL, []⟩)
    else (s, ⟨pos, ILLEGAL, []⟩)

/-- The method `Init`. -/
def Init (src : List Nat) (err : Bool) : Scanner :=
  let s : Scanner :=
    { src := src, err := err, log := [], ch := 32, offset := 0, rdOffset := 0,
      ErrorCount := 0 }
  let s := next s
  if s.ch = bom then next s else s

/-- The scanner after `n` calls of `Scan`. -/
def scanState (E : Env) : Nat → Scanner → Scanner
  | 0, s => s
  | n + 1, s => scanState E n (Scan E s).1

/-- The results of the first `n` calls of `Scan`, in order. -/
def scanResults (E : Env) : Nat → Scanner → List Result
  | 0, _ => []
  | n + 1, s => (Scan E s).2 :: scanResults E n (Scan E s).1

/-- An environment in which `AND` up to `IF` are the keywords and no rune
beyond ASCII is a letter or a digit. -/
def env0 : Env :=
  { keyword_beg := 12, keyword_end := 31,
    unicodeIsLetter := fun _ => false, unicodeIsDigit := fun _ => false,
    beg_ge := by decide, end_le := by decide }

/-! ## Auxiliary definitions -/

/-- What `next` finds at reading offset `rd`: the rune, its width and the
message it reports, if any. -/
def readRune (src : List Nat) (rd : Nat) : Int × Nat × Option Msg :=
  let b := src.getD rd 0
  if b = 0 then (0, 1, some Msg.illegalNULL)
  else if b ≥ 0x80 then
    let rw := DecodeRune (src.drop rd)
    (rw.1, rw.2,
      if rw.1 = RuneError ∧ rw.2 = 1 then some Msg.illegalUTF8
      else if rw.1 = bom ∧ rd > 0 then some Msg.illegalBOM
      else none)
  else ((b : Int), 1, none)

/-- The scanner after zero or one call of `error`. -/
def report (s : Scanner) (offs : Nat) : Option Msg → Scanner
  | none => s
  | some m => s.error offs m

/-- Cursor invariant of the states that `Init` and `Scan` produce. -/
structure Inv (s : Scanner) : Prop where
  rd_le : s.rdOffset ≤ s.src.length
  eof : s.ch = -1 → s.offset = s.src.length ∧ s.rdOffset = s.src.length
  live : s.ch ≠ -1 → s.offset < s.rdOffset

/-- The scanners reached from a given one by calls of `next` alone. -/
inductive Nexts : Scanner → Scanner → Prop where
  | refl (s : Scanner) : Nexts s s
  | step {s t : Scanner} : Nexts s t → Nexts s (next t)

/-- The characters for which the inner switch of `Scan` has a case of its own. -/
def handled (ch : Int) : Bool :=
  ch == -1 || ch == 44 || ch == 40 || ch == 41 || ch == 91 || ch == 93 || ch == 43
    || ch == 45 || ch == 42 || ch == 47 || ch == 61 || ch == 58 || ch == 46 || ch == 60
    || ch == 62 || ch == 59

/-- The body of `Scan` once white space has been skipped, with the local
variables `pos` and `ch` written out; `Scan_eq` shows that `Scan` is this
after `skipWhitespace`. -/
def scanToken (E : Env) (t : Scanner) : Scanner × Result :=
  if isLetter E t.ch then
    ((scanIdentifier E t).1, ⟨t.offset, Lookup E (scanIdentifier E t).2, (scanIdentifier E t).2⟩)
  else if isDigit E t.ch then
    ((scanNumber E t false).1, ⟨t.offset, (scanNumber E t false).2.1, (scanNumber E t false).2.2⟩)
  else if t.ch = -1 then (next t, ⟨t.offset, EOF, []⟩)
  else if t.ch = 44 then (next t, ⟨t.offset, COMMA, []⟩)
  else if t.ch = 40 then (next t, ⟨t.offset, LPAREN, []⟩)
  else if t.ch = 41 then (next t, ⟨t.offset, RPAREN, []⟩)
  else if t.ch = 91 then (next t, ⟨t.offset, LBRACK, []⟩)
  else if t.ch = 93 then (next t, ⟨t.offset, RBRACK, []⟩)
  else if t.ch = 43 then (next t, ⟨t.offset, ADD, []⟩)
  else if t.ch = 45 then (next t, ⟨t.offset, SUB, []⟩)
  else if t.ch = 42 then (next t, ⟨t.offset, MUL, []⟩)
  else if t.ch = 47 then (next t, ⟨t.offset, QUO, []⟩)
  else if t.ch = 61 then (next t, ⟨t.offset, EQL, []⟩)
  else if t.ch = 58 then
    if (next t).ch = 61 then (next (next t), ⟨t.offset, ASSIGN, []⟩)
    else (next t, ⟨t.offset, ILLEGAL, []⟩)
  else if t.ch = 46 then
    if 48 ≤ (next t).ch ∧ (next t).ch ≤ 57 then
      ((scanNumber E (next t) true).1,
        ⟨t.offset, (scanNumber E (next t) true).2.1, (scanNumber E (next t) true).2.2⟩)
    else (next t, ⟨t.offset, ILLEGAL, []⟩)
  else if t.ch = 60 then
    ((switch3 (next t) LSS LEQ NEQ).1, ⟨t.offset, (switch3 (next t) LSS LEQ NEQ).2, []⟩)
  else if t.ch = 62 then
    ((switch2 (next t) GTR GEQ).1, ⟨t.offset, (switch2 (next t) GTR GEQ).2, []⟩)
  else if t.ch = 59 then (next t, ⟨t.offset, SEMICOLON, []⟩)
  else if ¬ t.ch = bom then
    ((next t).error t.offset (Msg.illegalCharacter t.ch), ⟨t.offset, ILLEGAL, []⟩)
  else (next t, ⟨t.offset, ILLEGAL, []⟩)

/-- The kind of a token that is one character long whatever follows it. -/
def single (ch : Int) : Option Token :=
  if ch = -1 then some EOF
  else if ch = 44 then some COMMA
  else if ch = 40 then some LPAREN
  else if ch = 41 then some RPAREN
  else if ch = 91 then some LBRACK
  else if ch = 93 then some RBRACK
  else if ch = 43 then some ADD
  else if ch = 45 then some SUB
  else if ch = 42 then some MUL
  else if ch = 47 then some QUO
  else if ch = 61 then some EQL
  else if ch = 59 then some SEMICOLON
  else none

/-- The bytes of C5: ASCII letters and digits, `_`, the four white-space
characters and `, ( ) [ ] + - * / = ; : . < >`. -/
def cleanByte (b : Nat) : Bool :=
  (97 ≤ b && b ≤ 122) || (65 ≤ b && b ≤ 90) || (48 ≤ b && b ≤ 57) || b == 95
    || b == 32 || b == 9 || b == 10 || b == 13
    || b == 44 || b == 40 || b == 41 || b == 91 || b == 93 || b == 43 || b == 45
    || b == 42 || b == 47 || b == 61 || b == 59 || b == 58 || b == 46 || b == 60 || b == 62

/-- No error so far, and the current character is the end of input or a byte of C5. -/
def CleanSt (s : Scanner) : Prop :=
  s.ErrorCount = 0 ∧ s.log = [] ∧
    (s.ch = -1 ∨ ∃ b : Nat, cleanByte b = true ∧ s.ch = (b : Int))

/-- A map `f` of scanner states, with a map `g` of offsets, that the steps of
the scanner commute with on the states satisfying `Q`. -/
structure Sim (f : Scanner → Scanner) (g : Nat → Nat) (Q : Scanner → Prop) : Prop where
  sim_ch : ∀ s, (f s).ch = s.ch
  sim_offset : ∀ s, (f s).offset = g s.offset
  sim_next : ∀ s, Q s → next (f s) = f (next s)
  sim_error : ∀ s o m, (f s).error (g o) m = f (s.error o m)
  sim_slice : ∀ s a b, slice (f s).src (g a) (g b) = slice s.src a b
  sim_len : ∀ s, s.src.length ≤ (f s).src.length
  sim_rest : ∀ s, (f s).src.length - (f s).rdOffset ≤ s.src.length - s.rdOffset
  sim_pred : ∀ a, 1 ≤ a → g (a - 1) = g a - 1
  sim_Q : ∀ s, Q s → Q (next s)

/-- A result with its start offset mapped. -/
def Result.mapPos (g : Nat → Nat) (r : Result) : Result := ⟨g r.pos, r.tok, r.lit⟩

/-- The same scanner with a nil callback and nothing logged. -/
def mute (s : Scanner) : Scanner := { s with err := false, log := [] }

/-- What C10 says of a scanner with a callback: the counter equals the number
of calls of the callback, and every logged offset lies inside the buffer. -/
def LogOk (s : Scanner) : Prop :=
  s.ErrorCount = s.log.length ∧ ∀ e ∈ s.log, e.1 < s.src.length

/-- The UTF-8 encoding of the byte-order mark U+FEFF. -/
def utf8bom : List Nat := [0xEF, 0xBB, 0xBF]

/-- The scanner over the buffer with a byte-order mark put in front: every
offset, also the logged ones, is larger by 3. -/
def shift (s : Scanner) : Scanner :=
  { s with
    src := utf8bom ++ s.src
    offset := s.offset + 3
    rdOffset := s.rdOffset + 3
    log := s.log.map (fun e => (e.1 + 3, e.2)) }

/-- The buffer of the scanner does not begin with a byte-order mark. -/
def NoLeadingBom (s : Scanner) : Prop := ¬ (readRune s.src 0).1 = bom

/-- A character of the buffers of C9: a byte of C5, or a byte-order mark. -/
inductive Piece where
  | byte (b : Nat)
  | mark
  deriving DecidableEq, Repr

/-- The bytes that spell a piece. -/
def Piece.bytes : Piece → List Nat
  | Piece.byte b => [b]
  | Piece.mark => utf8bom

/-- The rune that `next` decodes from a piece. -/
def Piece.rune : Piece → Int
  | Piece.byte b => (b : Int)
  | Piece.mark => bom

/-- Whether the piece is a byte-order mark. -/
def Piece.isMark : Piece → Bool
  | Piece.byte _ => false
  | Piece.mark => true

/-- Whether the piece is a byte of C5 or a byte-order mark. -/
def Piece.clean : Piece → Bool
  | Piece.byte b => cleanByte b
  | Piece.mark => true

/-- The buffer spelt by a list of pieces. -/
def pieces : List Piece → List Nat
  | [] => []
  | p :: ps => p.bytes ++ pieces ps

/-- The byte offsets of the marks of `ps`, when `ps` starts at offset `o`. -/
def marksFrom (o : Nat) : List Piece → List Nat
  | [] => []
  | Piece.byte _ :: ps => marksFrom (o + 1) ps
  | Piece.mark :: ps => o :: marksFrom (o + 3) ps

/-- The byte offsets of the marks that are not at offset 0. -/
def strayOffsets : List Piece → List Nat
  | [] => []
  | p :: ps => marksFrom p.bytes.length ps

/-- Whether the three bytes at offset `o` are a byte-order mark. -/
def bomAt (src : List Nat) (o : Nat) : Bool := (src.drop o).take 3 == utf8bom

/-- The scanner stands on the first piece of `post`, having read `pre` and
that piece, and has counted one error for each mark read beyond offset 0. -/
structure At (pre post : List Piece) (s : Scanner) : Prop where
  src_eq : s.src = pieces (pre ++ post)
  off_eq : s.offset = (pieces pre).length
  ch_eq : s.ch = match post with
    | [] => -1
    | p :: _ => p.rune
  rd_eq : s.rdOffset = (pieces (pre ++ post.take 1)).length
  cnt_eq : s.ErrorCount = (strayOffsets (pre ++ post.take 1)).length

/-- The scanners reached by calls of `next` made while the current character
is not a byte-order mark. -/
inductive NextsNB : Scanner → Scanner → Prop where
  | refl (s : Scanner) : NextsNB s s
  | step {s t : Scanner} : NextsNB s t → ¬ t.ch = bom → NextsNB s (next t)

/-- The current character is the one decoded at `offset`, and `rdOffset` is
just behind it. -/
def Sync (s : Scanner) : Prop :=
  ¬ s.ch = -1 → s.offset < s.src.length ∧ s.ch = (readRune s.src s.offset).1 ∧
    s.rdOffset = s.offset + (readRune s.src s.offset).2.1

/-- The scanners reached from a given one by calls of `next` made while the
current character satisfies `c`. -/
inductive Run (c : Int → Bool) : Scanner → Scanner → Prop where
  | refl (s : Scanner) : Run c s s
  | step {s t : Scanner} : Run c s t → c t.ch = true → Run c s (next t)

/-- Every byte of the buffer is an ASCII character other than NUL. -/
def Ascii (src : List Nat) : Prop := ∀ b ∈ src, 0 < b ∧ b < 128

/-- The scanner has read `pre` and stands on the first byte of `post`. -/
structure Z (pre post : List Nat) (s : Scanner) : Prop where
  src_eq : s.src = pre ++ post
  off_eq : s.offset = pre.length
  inv : Inv s
  sync : Sync s

/-- The character on which a scanner stands when `post` is left to read. -/
def chOf : List Nat → Int
  | [] => -1
  | b :: _ => (b : Int)

/-- C1: an ASCII letter or `_`, as a byte. -/
def isLetterB (b : Nat) : Bool := (97 ≤ b && b ≤ 122) || (65 ≤ b && b ≤ 90) || b == 95

/-- C1: an ASCII digit, as a byte. -/
def isDigitB (b : Nat) : Bool := 48 ≤ b && b ≤ 57

/-- C1: space, tab, newline or carriage return, as a byte. -/
def isSpaceB (b : Nat) : Bool := b == 32 || b == 9 || b == 10 || b == 13

/-- C1: a letter or `_` followed by letters, `_` and digits. -/
def identSpelling : GoString → Bool
  | [] => false
  | b :: r => isLetterB b && r.all (fun c => isLetterB c || isDigitB c)

/-- C1: one or more digits. -/
def intSpelling (sp : GoString) : Bool := !sp.isEmpty && sp.all isDigitB

/-- C1: digits `.` digits, `.` digits or digits `.`. -/
def floatSpelling (sp : GoString) : Prop :=
  ∃ a b : GoString, sp = a ++ 46 :: b ∧ a.all isDigitB = true ∧ b.all isDigitB = true ∧
    (a ≠ [] ∨ b ≠ [])

/-- C1: the keyword kinds. -/
def keywordKinds : List Token :=
  [AND, OR, NOT, XABOVE, GOINGUP, TURNSUP, WHEN, XBELOW, GOINGDOWN, TURNSDOWN, IF]

/-- C1: the operator and delimiter kinds that the test lists. -/
def opKinds : List Token :=
  [ADD, SUB, MUL, QUO, EQL, LSS, GTR, ASSIGN, LPAREN, LBRACK, COMMA, RPAREN, RBRACK,
    SEMICOLON, NEQ, LEQ, GEQ]

/-- C1: a valid token, a kind with its spelling. -/
def ValidTok (E : Env) (k : Token) (sp : GoString) : Prop :=
  (k = IDENT ∧ identSpelling sp = true ∧ Lookup E sp = IDENT) ∨
  (k = INT ∧ intSpelling sp = true) ∨
  (k = FLOAT ∧ floatSpelling sp) ∨
  (k ∈ keywordKinds ∧ (E.keyword_beg : Int) < k ∧ k < (E.keyword_end : Int) ∧
    sp = tokens.getD k.toNat []) ∨
  (k ∈ opKinds ∧ sp = tokens.getD k.toNat [])

/-- C1: the literal text expected of `Scan`: the spelling for literal kinds
and keywords, empty for the other kinds. -/
def litOf (k : Token) (sp : GoString) : GoString :=
  if k = IDENT ∨ k = INT ∨ k = FLOAT ∨ k ∈ keywordKinds then sp else []

/-- C1: the buffer that spells a list of tokens, each given as kind, spelling
and the run of white space written after it. -/
def render : List (Token × GoString × GoString) → List Nat
  | [] => []
  | x :: r => x.2.1 ++ (x.2.2 ++ render r)

/-! ## Properties -/

theorem DecodeRune_width (p : List Nat) (hp : p ≠ []) :
    1 ≤ (DecodeRune p).2 ∧ (DecodeRune p).2 ≤ p.length := by
  unfold DecodeRune
  rcases p with _ | ⟨p0, t⟩
  · exact absurd rfl hp
  · rcases t with _ | ⟨b1, t⟩
    · simp only []; split_ifs <;> simp
    · rcases t with _ | ⟨b2, t⟩
      · simp only []; split_ifs <;> simp
      · rcases t with _ | ⟨b3, t⟩
        · simp only []; split_ifs <;> simp
        · simp only []; split_ifs <;> simp

theorem DecodeRune_nonneg (p : List Nat) : 0 ≤ (DecodeRune p).1 := by
  unfold DecodeRune
  rcases p with _ | ⟨p0, t⟩
  · simp [RuneError]
  · rcases t with _ | ⟨b1, t⟩
    · simp only []; split_ifs <;> simp [RuneError]
    · rcases t with _ | ⟨b2, t⟩
      · simp only []; split_ifs <;> simp [RuneError] <;> omega
      · rcases t with _ | ⟨b3, t⟩
        · simp only []; split_ifs <;> simp [RuneError] <;> omega
        · simp only []; split_ifs <;> simp [RuneError] <;> omega

theorem next_eq (s : Scanner) (h : s.rdOffset < s.src.length) :
    next s =
      { report { s with offset := s.rdOffset } s.rdOffset (readRune s.src s.rdOffset).2.2 with
        rdOffset := s.rdOffset + (readRune s.src s.rdOffset).2.1
        ch := (readRune s.src s.rdOffset).1 } := by
  unfold next readRune
  rw [if_pos h]
  dsimp only
  split_ifs <;> simp [report, Scanner.error]

theorem next_eof (s : Scanner) (h : ¬ s.rdOffset < s.src.length) :
    next s = { s with offset := s.src.length, ch := -1 } := by
  unfold next; rw [if_neg h]

theorem readRune_width (src : List Nat) (rd : Nat) (h : rd < src.length) :
    1 ≤ (readRune src rd).2.1 ∧ rd + (readRune src rd).2.1 ≤ src.length := by
  have hd : src.drop rd ≠ [] := by
    intro e
    have := congrArg List.length e
    simp at this; omega
  have hw := DecodeRune_width _ hd
  simp only [List.length_drop] at hw
  unfold readRune
  dsimp only
  split_ifs <;> simp <;> omega

theorem readRune_nonneg (src : List Nat) (rd : Nat) : 0 ≤ (readRune src rd).1 := by
  have := DecodeRune_nonneg (src.drop rd)
  unfold readRune
  dsimp only
  split_ifs <;> simp <;> omega

@[simp] theorem report_src (s : Scanner) (o : Nat) (m : Option Msg) : (report s o m).src = s.src := by
  cases m <;> rfl
@[simp] theorem report_err (s : Scanner) (o : Nat) (m : Option Msg) : (report s o m).err = s.err := by
  cases m <;> rfl
@[simp] theorem report_ch (s : Scanner) (o : Nat) (m : Option Msg) : (report s o m).ch = s.ch := by
  cases m <;> rfl
@[simp] theorem report_offset (s : Scanner) (o : Nat) (m : Option Msg) :
    (report s o m).offset = s.offset := by
  cases m <;> rfl
@[simp] theorem report_rdOffset (s : Scanner) (o : Nat) (m : Option Msg) :
    (report s o m).rdOffset = s.rdOffset := by
  cases m <;> rfl

@[simp] theorem next_src (s : Scanner) : (next s).src = s.src := by
  by_cases h : s.rdOffset < s.src.length
  · rw [next_eq s h]; simp
  · rw [next_eof s h]

@[simp] theorem next_err (s : Scanner) : (next s).err = s.err := by
  by_cases h : s.rdOffset < s.src.length
  · rw [next_eq s h]; simp
  · rw [next_eof s h]

theorem next_offset (s : Scanner) (h : s.rdOffset ≤ s.src.length) :
    (next s).offset = s.rdOffset := by
  by_cases h' : s.rdOffset < s.src.length
  · rw [next_eq s h']; simp
  · rw [next_eof s h']; simp; omega

theorem next_rdOffset_le (s : Scanner) : s.rdOffset ≤ (next s).rdOffset := by
  by_cases h' : s.rdOffset < s.src.length
  · rw [next_eq s h']; simp
  · rw [next_eof s h']

theorem next_inv (s : Scanner) (h : s.rdOffset ≤ s.src.length) : Inv (next s) := by
  by_cases h' : s.rdOffset < s.src.length
  · have hw := readRune_width s.src s.rdOffset h'
    have hn := readRune_nonneg s.src s.rdOffset
    rw [next_eq s h']
    constructor
    · simp; omega
    · intro hc; simp at hc; omega
    · intro _; simp; omega
  · rw [next_eof s h']
    constructor
    · simpa using h
    · intro _; simp; omega
    · intro hc; simp at hc

theorem error_inv (s : Scanner) (o : Nat) (m : Msg) (h : Inv s) : Inv (s.error o m) :=
  ⟨h.rd_le, h.eof, h.live⟩

theorem Inv.off_le {s : Scanner} (h : Inv s) : s.offset ≤ s.rdOffset := by
  by_cases hc : s.ch = -1
  · have := h.eof hc; omega
  · have := h.live hc; omega

theorem Nexts.trans {a b c : Scanner} (h1 : Nexts a b) (h2 : Nexts b c) : Nexts a c := by
  induction h2 with
  | refl => exact h1
  | step _ ih => exact Nexts.step ih

theorem Nexts.src {a b : Scanner} (h : Nexts a b) : b.src = a.src := by
  induction h with
  | refl => rfl
  | step _ ih => simpa using ih

theorem Nexts.err {a b : Scanner} (h : Nexts a b) : b.err = a.err := by
  induction h with
  | refl => rfl
  | step _ ih => simpa using ih

theorem Nexts.inv {a b : Scanner} (h : Nexts a b) (ha : Inv a) : Inv b := by
  induction h with
  | refl => exact ha
  | step _ ih => exact next_inv _ ih.rd_le

theorem Nexts.offset_le {a b : Scanner} (h : Nexts a b) (ha : Inv a) : a.offset ≤ b.offset := by
  induction h with
  | refl => exact le_rfl
  | @step t _ ih =>
    have hi := Nexts.inv ‹Nexts a t› ha
    rw [next_offset _ hi.rd_le]
    have := hi.off_le
    omega

theorem whileNext_nexts (c : Int → Bool) (f : Nat) (s : Scanner) : Nexts s (whileNext c f s) := by
  induction f generalizing s with
  | zero => exact Nexts.refl s
  | succ f ih =>
    unfold whileNext
    split_ifs
    · exact Nexts.trans (Nexts.step (Nexts.refl s)) (ih (next s))
    · exact Nexts.refl s

theorem whileNext_of_cond (c : Int → Bool) (f : Nat) (s : Scanner) (h : c s.ch = true) :
    whileNext c (f + 1) s = whileNext c f (next s) := by
  rw [whileNext, if_pos h]

theorem whileNext_of_not (c : Int → Bool) (f : Nat) (s : Scanner) (h : c s.ch = false) :
    whileNext c f s = s := by
  cases f with
  | zero => rfl
  | succ f => rw [whileNext, if_neg (by simp [h])]

/-- A loop whose condition fails at the end-of-input sentinel leaves through
its condition as soon as its fuel exceeds the bytes left to read. -/
theorem whileNext_exits (c : Int → Bool) (hc : c (-1) = false) (f : Nat) (s : Scanner)
    (hf : s.src.length - s.rdOffset + 1 ≤ f) : c (whileNext c f s).ch = false := by
  induction f generalizing s with
  | zero => omega
  | succ f ih =>
    by_cases h : c s.ch = true
    · rw [whileNext_of_cond c f s h]
      by_cases h' : s.rdOffset < s.src.length
      · apply ih
        have hw := readRune_width s.src s.rdOffset h'
        rw [next_eq s h']; simp; omega
      · rw [whileNext_of_not]
        · rw [next_eof s h']; exact hc
        · rw [next_eof s h']; exact hc
    · rw [whileNext_of_not c _ s (by simpa using h)]; simpa using h

/-- More fuel than the bytes left to read does not change what a loop computes. -/
theorem whileNext_fuel (c : Int → Bool) (hc : c (-1) = false) (f g : Nat) (s : Scanner)
    (hf : s.src.length - s.rdOffset + 1 ≤ f) (hg : f ≤ g) :
    whileNext c g s = whileNext c f s := by
  induction f generalizing s g with
  | zero => omega
  | succ f ih =>
    obtain ⟨g, rfl⟩ : ∃ g', g = g' + 1 := ⟨g - 1, by omega⟩
    by_cases h : c s.ch = true
    · rw [whileNext_of_cond c f s h, whileNext_of_cond c g s h]
      by_cases h' : s.rdOffset < s.src.length
      · apply ih
        · have hw := readRune_width s.src s.rdOffset h'
          rw [next_eq s h']; simp; omega
        · omega
      · have e : c (next s).ch = false := by rw [next_eof s h']; exact hc
        rw [whileNext_of_not c _ _ e, whileNext_of_not c _ _ e]
    · have e : c s.ch = false := by simpa using h
      rw [whileNext_of_not c _ _ e, whileNext_of_not c _ _ e]

@[simp] theorem whileNext_src (c : Int → Bool) (f : Nat) (s : Scanner) :
    (whileNext c f s).src = s.src := (whileNext_nexts c f s).src

@[simp] theorem whileNext_err (c : Int → Bool) (f : Nat) (s : Scanner) :
    (whileNext c f s).err = s.err := (whileNext_nexts c f s).err

@[simp] theorem skipWhitespace_src (s : Scanner) : (skipWhitespace s).src = s.src :=
  whileNext_src _ _ _

theorem skipWhitespace_nexts (s : Scanner) : Nexts s (skipWhitespace s) :=
  whileNext_nexts _ _ _

theorem scanNumber_fst (E : Env) (s : Scanner) (b : Bool) :
    (scanNumber E s b).1 =
      if (whileNext (isDigit E) (s.src.length + 1) s).ch = 46 ∧ b = false then
        whileNext (isDigit E) ((next (whileNext (isDigit E) (s.src.length + 1) s)).src.length + 1)
          (next (whileNext (isDigit E) (s.src.length + 1) s))
      else whileNext (isDigit E) (s.src.length + 1) s := by
  unfold scanNumber
  dsimp only
  split_ifs <;> rfl

theorem scanNumber_nexts (E : Env) (s : Scanner) (b : Bool) : Nexts s (scanNumber E s b).1 := by
  rw [scanNumber_fst]
  split_ifs
  · exact ((whileNext_nexts _ _ _).trans (Nexts.step (Nexts.refl _))).trans (whileNext_nexts _ _ _)
  · exact whileNext_nexts _ _ _

theorem scanNumber_nexts_of_digit (E : Env) (s : Scanner) (h : isDigit E s.ch = true) :
    Nexts (next s) (scanNumber E s false).1 := by
  rw [scanNumber_fst, whileNext_of_cond _ _ _ h]
  split_ifs
  · exact ((whileNext_nexts _ _ _).trans (Nexts.step (Nexts.refl _))).trans (whileNext_nexts _ _ _)
  · exact whileNext_nexts _ _ _

theorem scanIdentifier_nexts_of_letter (E : Env) (s : Scanner) (h : isLetter E s.ch = true) :
    Nexts (next s) (scanIdentifier E s).1 := by
  unfold scanIdentifier
  dsimp only
  rw [whileNext_of_cond _ _ _ (by simp [h])]
  exact whileNext_nexts _ _ _

theorem switch2_nexts (s : Scanner) (a b : Token) : Nexts s (switch2 s a b).1 := by
  unfold switch2; split_ifs
  · exact Nexts.step (Nexts.refl _)
  · exact Nexts.refl _

theorem switch3_nexts (s : Scanner) (a b c : Token) : Nexts s (switch3 s a b c).1 := by
  unfold switch3; split_ifs
  · exact Nexts.step (Nexts.refl _)
  · exact Nexts.step (Nexts.refl _)
  · exact Nexts.refl _

theorem Scan_eq (E : Env) (s : Scanner) : Scan E s = scanToken E (skipWhitespace s) := rfl

/-- Case analysis on what `Scan` does after white space. -/
theorem scanToken_cases (E : Env) (t : Scanner) (P : Scanner × Result → Prop)
    (hLetter : isLetter E t.ch = true →
      P ((scanIdentifier E t).1,
        ⟨t.offset, Lookup E (scanIdentifier E t).2, (scanIdentifier E t).2⟩))
    (hDigit : isLetter E t.ch = false → isDigit E t.ch = true →
      P ((scanNumber E t false).1,
        ⟨t.offset, (scanNumber E t false).2.1, (scanNumber E t false).2.2⟩))
    (hSingle : ∀ tok, isLetter E t.ch = false → isDigit E t.ch = false →
      single t.ch = some tok → P (next t, ⟨t.offset, tok, []⟩))
    (hAssign : isLetter E t.ch = false → isDigit E t.ch = false → t.ch = 58 →
      (next t).ch = 61 → P (next (next t), ⟨t.offset, ASSIGN, []⟩))
    (hColon : isLetter E t.ch = false → isDigit E t.ch = false → t.ch = 58 →
      ¬ (next t).ch = 61 → P (next t, ⟨t.offset, ILLEGAL, []⟩))
    (hDotNum : isLetter E t.ch = false → isDigit E t.ch = false → t.ch = 46 →
      48 ≤ (next t).ch ∧ (next t).ch ≤ 57 →
      P ((scanNumber E (next t) true).1,
        ⟨t.offset, (scanNumber E (next t) true).2.1, (scanNumber E (next t) true).2.2⟩))
    (hDot : isLetter E t.ch = false → isDigit E t.ch = false → t.ch = 46 →
      ¬ (48 ≤ (next t).ch ∧ (next t).ch ≤ 57) → P (next t, ⟨t.offset, ILLEGAL, []⟩))
    (hLss : isLetter E t.ch = false → isDigit E t.ch = false → t.ch = 60 →
      P ((switch3 (next t) LSS LEQ NEQ).1, ⟨t.offset, (switch3 (next t) LSS LEQ NEQ).2, []⟩))
    (hGtr : isLetter E t.ch = false → isDigit E t.ch = false → t.ch = 62 →
      P ((switch2 (next t) GTR GEQ).1, ⟨t.offset, (switch2 (next t) GTR GEQ).2, []⟩))
    (hBom : isLetter E t.ch = false → isDigit E t.ch = false → t.ch = bom →
      P (next t, ⟨t.offset, ILLEGAL, []⟩))
    (hIllegal : isLetter E t.ch = false → isDigit E t.ch = false → handled t.ch = false →
      ¬ t.ch = bom →
      P ((next t).error t.offset (Msg.illegalCharacter t.ch), ⟨t.offset, ILLEGAL, []⟩)) :
    P (scanToken E t) := by
  unfold scanToken
  by_cases h1 : isLetter E t.ch = true
  · rw [if_pos h1]; exact hLetter h1
  rw [if_neg h1]
  have h1' : isLetter E t.ch = false := by simpa using h1
  by_cases h2 : isDigit E t.ch = true
  · rw [if_pos h2]; exact hDigit h1' h2
  rw [if_neg h2]
  have h2' : isDigit E t.ch = false := by simpa using h2
  by_cases c1 : t.ch = -1
  · rw [if_pos c1]; exact hSingle _ h1' h2' (by rw [c1]; rfl)
  rw [if_neg c1]
  by_cases c2 : t.ch = 44
  · rw [if_pos c2]; exact hSingle _ h1' h2' (by rw [c2]; rfl)
  rw [if_neg c2]
  by_cases c3 : t.ch = 40
  · rw [if_pos c3]; exact hSingle _ h1' h2' (by rw [c3]; rfl)
  rw [if_neg c3]
  by_cases c4 : t.ch = 41
  · rw [if_pos c4]; exact hSingle _ h1' h2' (by rw [c4]; rfl)
  rw [if_neg c4]
  by_cases c5 : t.ch = 91
  · rw [if_pos c5]; exact hSingle _ h1' h2' (by rw [c5]; rfl)
  rw [if_neg c5]
  by_cases c6 : t.ch = 93
  · rw [if_pos c6]; exact hSingle _ h1' h2' (by rw [c6]; rfl)
  rw [if_neg c6]
  by_cases c7 : t.ch = 43
  · rw [if_pos c7]; exact hSingle _ h1' h2' (by rw [c7]; rfl)
  rw [if_neg c7]
  by_cases c8 : t.ch = 45
  · rw [if_pos c8]; exact hSingle _ h1' h2' (by rw [c8]; rfl)
  rw [if_neg c8]
  by_cases c9 : t.ch = 42
  · rw [if_pos c9]; exact hSingle _ h1' h2' (by rw [c9]; rfl)
  rw [if_neg c9]
  by_cases c10 : t.ch = 47
  · rw [if_pos c10]; exact hSingle _ h1' h2' (by rw [c10]; rfl)
  rw [if_neg c10]
  by_cases c11 : t.ch = 61
  · rw [if_pos c11]; exact hSingle _ h1' h2' (by rw [c11]; rfl)
  rw [if_neg c11]
  by_cases c12 : t.ch = 58
  · rw [if_pos c12]
    by_cases d : (next t).ch = 61
    · rw [if_pos d]; exact hAssign h1' h2' c12 d
    · rw [if_neg d]; exact hColon h1' h2' c12 d
  rw [if_neg c12]
  by_cases c13 : t.ch = 46
  · rw [if_pos c13]
    by_cases d : 48 ≤ (next t).ch ∧ (next t).ch ≤ 57
    · rw [if_pos d]; exact hDotNum h1' h2' c13 d
    · rw [if_neg d]; exact hDot h1' h2' c13 d
  rw [if_neg c13]
  by_cases c14 : t.ch = 60
  · rw [if_pos c14]; exact hLss h1' h2' c14
  rw [if_neg c14]
  by_cases c15 : t.ch = 62
  · rw [if_pos c15]; exact hGtr h1' h2' c15
  rw [if_neg c15]
  by_cases c16 : t.ch = 59
  · rw [if_pos c16]; exact hSingle _ h1' h2' (by rw [c16]; rfl)
  rw [if_neg c16]
  by_cases c17 : t.ch = bom
  · rw [if_neg (not_not.mpr c17)]; exact hBom h1' h2' c17
  · rw [if_pos c17]
    refine hIllegal h1' h2' ?_ c17
    simp [handled, c1, c2, c3, c4, c5, c6, c7, c8, c9, c10, c11, c12, c13, c14, c15, c16]

theorem single_eq_some {ch : Int} {tok : Token} (h : single ch = some tok) :
    (ch = -1 ∧ tok = EOF) ∨
      (ch = 44 ∧ tok = COMMA) ∨
      (ch = 40 ∧ tok = LPAREN) ∨
      (ch = 41 ∧ tok = RPAREN) ∨
      (ch = 91 ∧ tok = LBRACK) ∨
      (ch = 93 ∧ tok = RBRACK) ∨
      (ch = 43 ∧ tok = ADD) ∨
      (ch = 45 ∧ tok = SUB) ∨
      (ch = 42 ∧ tok = MUL) ∨
      (ch = 47 ∧ tok = QUO) ∨
      (ch = 61 ∧ tok = EQL) ∨
      (ch = 59 ∧ tok = SEMICOLON) := by
  unfold single at h
  by_cases c : ch = -1
  · rw [if_pos c] at h
    exact Or.inl ⟨c, (Option.some.inj h).symm⟩
  rw [if_neg c] at h
  clear c
  by_cases c : ch = 44
  · rw [if_pos c] at h
    exact Or.inr (Or.inl ⟨c, (Option.some.inj h).symm⟩)
  rw [if_neg c] at h
  clear c
  by_cases c : ch = 40
  · rw [if_pos c] at h
    exact Or.inr (Or.inr (Or.inl ⟨c, (Option.some.inj h).symm⟩))
  rw [if_neg c] at h
  clear c
  by_cases c : ch = 41
  · rw [if_pos c] at h
    exact Or.inr (Or.inr (Or.inr (Or.inl ⟨c, (Option.some.inj h).symm⟩)))
  rw [if_neg c] at h
  clear c
  by_cases c : ch = 91
  · rw [if_pos c] at h
    exact Or.inr (Or.inr (Or.inr (Or.inr (Or.inl ⟨c, (Option.some.inj h).symm⟩))))
  rw [if_neg c] at h
  clear c
  by_cases c : ch = 93
  · rw [if_pos c] at h
    exact Or.inr (Or.inr (Or.inr (Or.inr (Or.inr (Or.inl ⟨c, (Option.some.inj h).symm⟩)))))
  rw [if_neg c] at h
  clear c
  by_cases c : ch = 43
  · rw [if_pos c] at h
    exact Or.inr (Or.inr (Or.inr (Or.inr (Or.inr (Or.inr (Or.inl ⟨c, (Option.some.inj h).symm⟩))))))
  rw [if_neg c] at h
  clear c
  by_cases c : ch = 45
  · rw [if_pos c] at h
    exact Or.inr (Or.inr (Or.inr (Or.inr (Or.inr (Or.inr (Or.inr (Or.inl ⟨c, (Option.some.inj h).symm⟩)))))))
  rw [if_neg c] at h
  clear c
  by_cases c : ch = 42
  · rw [if_pos c] at h
    exact Or.inr (Or.inr (Or.inr (Or.inr (Or.inr (Or.inr (Or.inr (Or.inr (Or.inl ⟨c, (Option.some.inj h).symm⟩))))))))
  rw [if_neg c] at h
  clear c
  by_cases c : ch = 47
  · rw [if_pos c] at h
    exact Or.inr (Or.inr (Or.inr (Or.inr (Or.inr (Or.inr (Or.inr (Or.inr (Or.inr (Or.inl ⟨c, (Option.some.inj h).symm⟩)))))))))
  rw [if_neg c] at h
  clear c
  by_cases c : ch = 61
  · rw [if_pos c] at h
    exact Or.inr (Or.inr (Or.inr (Or.inr (Or.inr (Or.inr (Or.inr (Or.inr (Or.inr (Or.inr (Or.inl ⟨c, (Option.some.inj h).symm⟩))))))))))
  rw [if_neg c] at h
  clear c
  by_cases c : ch = 59
  · rw [if_pos c] at h
    exact Or.inr (Or.inr (Or.inr (Or.inr (Or.inr (Or.inr (Or.inr (Or.inr (Or.inr (Or.inr (Or.inr (⟨c, (Option.some.inj h).symm⟩)))))))))))
  rw [if_neg c] at h
  clear c
  cases h

theorem single_handled {ch : Int} {tok : Token} (h : single ch = some tok) :
    handled ch = true := by
  rcases single_eq_some h with h | h | h | h | h | h | h | h | h | h | h | h <;>
    (rw [h.1]; rfl)

theorem scanToken_letter (E : Env) (t : Scanner) (h : isLetter E t.ch = true) :
    scanToken E t = ((scanIdentifier E t).1,
      ⟨t.offset, Lookup E (scanIdentifier E t).2, (scanIdentifier E t).2⟩) := by
  apply scanToken_cases E t (fun r => r = _) <;> intros <;>
    first | (exfalso; simp_all; done) | rfl

theorem scanToken_digit (E : Env) (t : Scanner) (h1 : isLetter E t.ch = false)
    (h2 : isDigit E t.ch = true) :
    scanToken E t = ((scanNumber E t false).1,
      ⟨t.offset, (scanNumber E t false).2.1, (scanNumber E t false).2.2⟩) := by
  apply scanToken_cases E t (fun r => r = _) <;> intros <;>
    first | (exfalso; simp_all; done) | rfl

theorem scanToken_single (E : Env) (t : Scanner) (tok : Token) (h1 : isLetter E t.ch = false)
    (h2 : isDigit E t.ch = false) (h : single t.ch = some tok) :
    scanToken E t = (next t, ⟨t.offset, tok, []⟩) := by
  apply scanToken_cases E t (fun r => r = _)
  case hLetter => intro a; rw [h1] at a; cases a
  case hDigit => intro _ a; rw [h2] at a; cases a
  case hSingle => intro tok' _ _ a; rw [h] at a; cases a; rfl
  case hAssign => intro _ _ a _; rw [a] at h; cases h
  case hColon => intro _ _ a _; rw [a] at h; cases h
  case hDotNum => intro _ _ a _; rw [a] at h; cases h
  case hDot => intro _ _ a _; rw [a] at h; cases h
  case hLss => intro _ _ a; rw [a] at h; cases h
  case hGtr => intro _ _ a; rw [a] at h; cases h
  case hBom => intro _ _ a; rw [a] at h; cases h
  case hIllegal => intro _ _ a _; rw [single_handled h] at a; cases a

theorem scanToken_assign (E : Env) (t : Scanner) (h1 : isLetter E t.ch = false)
    (h2 : isDigit E t.ch = false) (h : t.ch = 58) (h' : (next t).ch = 61) :
    scanToken E t = (next (next t), ⟨t.offset, ASSIGN, []⟩) := by
  apply scanToken_cases E t (fun r => r = _) <;> intros <;>
    first | (exfalso; simp_all [single, handled, bom]; done) | rfl

theorem scanToken_colon (E : Env) (t : Scanner) (h1 : isLetter E t.ch = false)
    (h2 : isDigit E t.ch = false) (h : t.ch = 58) (h' : ¬ (next t).ch = 61) :
    scanToken E t = (next t, ⟨t.offset, ILLEGAL, []⟩) := by
  apply scanToken_cases E t (fun r => r = _) <;> intros <;>
    first | (exfalso; simp_all [single, handled, bom]; done) | rfl

theorem scanToken_dotnum (E : Env) (t : Scanner) (h1 : isLetter E t.ch = false)
    (h2 : isDigit E t.ch = false) (h : t.ch = 46)
    (h' : 48 ≤ (next t).ch ∧ (next t).ch ≤ 57) :
    scanToken E t = ((scanNumber E (next t) true).1,
      ⟨t.offset, (scanNumber E (next t) true).2.1, (scanNumber E (next t) true).2.2⟩) := by
  apply scanToken_cases E t (fun r => r = _) <;> intros <;>
    first | (exfalso; simp_all [single, handled, bom]; done) | rfl

theorem scanToken_dot (E : Env) (t : Scanner) (h1 : isLetter E t.ch = false)
    (h2 : isDigit E t.ch = false) (h : t.ch = 46)
    (h' : ¬ (48 ≤ (next t).ch ∧ (next t).ch ≤ 57)) :
    scanToken E t = (next t, ⟨t.offset, ILLEGAL, []⟩) := by
  apply scanToken_cases E t (fun r => r = _) <;> intros <;>
    first | (exfalso; simp_all [single, handled, bom]; done) | (exfalso; omega) | rfl

theorem scanToken_lss (E : Env) (t : Scanner) (h1 : isLetter E t.ch = false)
    (h2 : isDigit E t.ch = false) (h : t.ch = 60) :
    scanToken E t =
      ((switch3 (next t) LSS LEQ NEQ).1, ⟨t.offset, (switch3 (next t) LSS LEQ NEQ).2, []⟩) := by
  apply scanToken_cases E t (fun r => r = _) <;> intros <;>
    first | (exfalso; simp_all [single, handled, bom]; done) | rfl

theorem scanToken_gtr (E : Env) (t : Scanner) (h1 : isLetter E t.ch = false)
    (h2 : isDigit E t.ch = false) (h : t.ch = 62) :
    scanToken E t =
      ((switch2 (next t) GTR GEQ).1, ⟨t.offset, (switch2 (next t) GTR GEQ).2, []⟩) := by
  apply scanToken_cases E t (fun r => r = _) <;> intros <;>
    first | (exfalso; simp_all [single, handled, bom]; done) | rfl

theorem scanToken_bom (E : Env) (t : Scanner) (h1 : isLetter E t.ch = false)
    (h2 : isDigit E t.ch = false) (h : t.ch = bom) :
    scanToken E t = (next t, ⟨t.offset, ILLEGAL, []⟩) := by
  apply scanToken_cases E t (fun r => r = _)
  case hLetter => intro a; rw [h1] at a; cases a
  case hDigit => intro _ a; rw [h2] at a; cases a
  case hSingle => intro tok' _ _ a; rw [h] at a; cases a
  case hAssign => intro _ _ a _; exact absurd (h.symm.trans a) (by decide)
  case hColon => intro _ _ a _; exact absurd (h.symm.trans a) (by decide)
  case hDotNum => intro _ _ a _; exact absurd (h.symm.trans a) (by decide)
  case hDot => intro _ _ a _; exact absurd (h.symm.trans a) (by decide)
  case hLss => intro _ _ a; exact absurd (h.symm.trans a) (by decide)
  case hGtr => intro _ _ a; exact absurd (h.symm.trans a) (by decide)
  case hBom => intros; rfl
  case hIllegal => intro _ _ _ a; exact absurd h a

theorem scanToken_illegal (E : Env) (t : Scanner) (h1 : isLetter E t.ch = false)
    (h2 : isDigit E t.ch = false) (h : handled t.ch = false) (h' : ¬ t.ch = bom) :
    scanToken E t =
      ((next t).error t.offset (Msg.illegalCharacter t.ch), ⟨t.offset, ILLEGAL, []⟩) := by
  apply scanToken_cases E t (fun r => r = _)
  case hLetter => intro a; rw [h1] at a; cases a
  case hDigit => intro _ a; rw [h2] at a; cases a
  case hSingle => intro tok' _ _ a; rw [single_handled a] at h; cases h
  case hAssign => intro _ _ a _; rw [a] at h; cases h
  case hColon => intro _ _ a _; rw [a] at h; cases h
  case hDotNum => intro _ _ a _; rw [a] at h; cases h
  case hDot => intro _ _ a _; rw [a] at h; cases h
  case hLss => intro _ _ a; rw [a] at h; cases h
  case hGtr => intro _ _ a; rw [a] at h; cases h
  case hBom => intro _ _ a; exact absurd a h'
  case hIllegal => intros; rfl

theorem isLetter_eof (E : Env) : isLetter E (-1) = false := by
  simp [isLetter]

theorem isDigit_eof (E : Env) : isDigit E (-1) = false := by
  simp [isDigit]

theorem isSpace_eof : isSpace (-1) = false := by decide

theorem keywordsFrom_mem (i n : Nat) (m : List (GoString × Token)) (e : GoString × Token)
    (h : e ∈ keywordsFrom i n m) : e ∈ m ∨ ((i : Int) ≤ e.2 ∧ e.2 < (i : Int) + n) := by
  induction n generalizing i m with
  | zero => exact Or.inl h
  | succ n ih =>
    rw [keywordsFrom] at h
    rcases ih _ _ h with h' | h'
    · rcases List.mem_cons.mp h' with rfl | h''
      · right; constructor <;> simp
      · exact Or.inl h''
    · right
      obtain ⟨h1, h2⟩ := h'
      generalize e.2 = z at h1 h2 ⊢
      delta Token at *
      push_cast at h1 h2 ⊢
      constructor <;> omega

theorem mapGet_mem {m : List (GoString × Token)} {x : GoString} {tok : Token}
    (h : mapGet m x = some tok) : ∃ e ∈ m, e.2 = tok := by
  unfold mapGet at h
  cases hf : m.find? (fun e => e.1 == x) with
  | none => rw [hf] at h; cases h
  | some e =>
    rw [hf] at h
    exact ⟨e, List.mem_of_find?_eq_some hf, Option.some.inj h⟩

/-- `Lookup` answers `IDENT` or a kind strictly between the two keyword bounds. -/
theorem Lookup_range (E : Env) (x : GoString) :
    Lookup E x = IDENT ∨
      ((E.keyword_beg : Int) < Lookup E x ∧ Lookup E x < (E.keyword_end : Int)) := by
  unfold Lookup
  cases h : mapGet (keywords E) x with
  | none => exact Or.inl rfl
  | some tok =>
    have hb := E.beg_ge
    show tok = IDENT ∨ ((E.keyword_beg : Int) < tok ∧ tok < (E.keyword_end : Int))
    right
    obtain ⟨e, he, rfl⟩ := mapGet_mem h
    rcases keywordsFrom_mem _ _ _ _ he with h' | h'
    · cases h'
    · obtain ⟨h1, h2⟩ := h'
      generalize e.2 = z at h1 h2 ⊢
      delta Token at *
      push_cast at h1 h2
      constructor <;> omega

theorem Lookup_ne_special (E : Env) (x : GoString) :
    Lookup E x ≠ EOF ∧ Lookup E x ≠ ILLEGAL := by
  have hb := E.beg_ge
  rcases Lookup_range E x with h | h
  · rw [h]; exact ⟨by decide, by decide⟩
  · obtain ⟨h1, h2⟩ := h
    generalize Lookup E x = z at h1 h2 ⊢
    delta Token at *
    constructor
    · intro e; rw [e] at h1; simp only [EOF] at h1; omega
    · intro e; rw [e] at h1; simp only [ILLEGAL] at h1; omega

theorem scanNumber_tok (E : Env) (s : Scanner) (b : Bool) :
    (scanNumber E s b).2.1 = INT ∨ (scanNumber E s b).2.1 = FLOAT := by
  unfold scanNumber
  dsimp only
  split_ifs <;> simp

theorem switch2_tok (s : Scanner) (a b : Token) :
    (switch2 s a b).2 = a ∨ (switch2 s a b).2 = b := by
  unfold switch2; split_ifs <;> simp

theorem switch3_tok (s : Scanner) (a b c : Token) :
    (switch3 s a b c).2 = a ∨ (switch3 s a b c).2 = b ∨ (switch3 s a b c).2 = c := by
  unfold switch3; split_ifs <;> simp

@[simp] theorem error_src (s : Scanner) (o : Nat) (m : Msg) : (s.error o m).src = s.src := rfl
@[simp] theorem error_err (s : Scanner) (o : Nat) (m : Msg) : (s.error o m).err = s.err := rfl
@[simp] theorem error_ch (s : Scanner) (o : Nat) (m : Msg) : (s.error o m).ch = s.ch := rfl
@[simp] theorem error_offset (s : Scanner) (o : Nat) (m : Msg) :
    (s.error o m).offset = s.offset := rfl
@[simp] theorem error_rdOffset (s : Scanner) (o : Nat) (m : Msg) :
    (s.error o m).rdOffset = s.rdOffset := rfl
@[simp] theorem error_ErrorCount (s : Scanner) (o : Nat) (m : Msg) :
    (s.error o m).ErrorCount = s.ErrorCount + 1 := rfl

/-- After white space `Scan` calls `next` and then either calls nothing but
`next`, or reports the character it found, which is not the end of input. -/
theorem scanToken_shape (E : Env) (t : Scanner) :
    Nexts (next t) (scanToken E t).1 ∨
      ((scanToken E t).1 = (next t).error t.offset (Msg.illegalCharacter t.ch) ∧
        (scanToken E t).2 = ⟨t.offset, ILLEGAL, []⟩ ∧
        isLetter E t.ch = false ∧ isDigit E t.ch = false ∧
        handled t.ch = false ∧ ¬ t.ch = bom) := by
  apply scanToken_cases E t (fun r => Nexts (next t) r.1 ∨
      (r.1 = (next t).error t.offset (Msg.illegalCharacter t.ch) ∧
        r.2 = ⟨t.offset, ILLEGAL, []⟩ ∧
        isLetter E t.ch = false ∧ isDigit E t.ch = false ∧
        handled t.ch = false ∧ ¬ t.ch = bom))
  case hLetter => intro h; exact Or.inl (scanIdentifier_nexts_of_letter E t h)
  case hDigit => intro _ h; exact Or.inl (scanNumber_nexts_of_digit E t h)
  case hSingle => intros; exact Or.inl (Nexts.refl _)
  case hAssign => intros; exact Or.inl (Nexts.step (Nexts.refl _))
  case hColon => intros; exact Or.inl (Nexts.refl _)
  case hDotNum => intros; exact Or.inl (scanNumber_nexts E _ true)
  case hDot => intros; exact Or.inl (Nexts.refl _)
  case hLss => intros; exact Or.inl (switch3_nexts _ _ _ _)
  case hGtr => intros; exact Or.inl (switch2_nexts _ _ _)
  case hBom => intros; exact Or.inl (Nexts.refl _)
  case hIllegal => intro h1 h2 h3 h4; exact Or.inr ⟨rfl, rfl, h1, h2, h3, h4⟩

theorem scanToken_pos (E : Env) (t : Scanner) : (scanToken E t).2.pos = t.offset := by
  apply scanToken_cases E t (fun r => r.2.pos = t.offset) <;> intros <;> rfl

/-- `Scan` answers `EOF` exactly at the end-of-input sentinel. -/
theorem scanToken_tok_eof (E : Env) (t : Scanner) :
    (scanToken E t).2.tok = EOF ↔ t.ch = -1 := by
  apply scanToken_cases E t (fun r => r.2.tok = EOF ↔ t.ch = -1)
  case hLetter =>
    intro h
    constructor
    · intro e; exact absurd e (Lookup_ne_special E _).1
    · intro e; rw [e, isLetter_eof] at h; cases h
  case hDigit =>
    intro _ h
    constructor
    · intro e
      rcases scanNumber_tok E t false with h' | h' <;> rw [h'] at e <;> cases e
    · intro e; rw [e, isDigit_eof] at h; cases h
  case hSingle =>
    intro tok _ _ h
    rcases single_eq_some h with h | h | h | h | h | h | h | h | h | h | h | h <;>
      obtain ⟨h1, h2⟩ := h <;> rw [h1, h2] <;>
      first | exact ⟨fun _ => rfl, fun _ => rfl⟩ | (constructor <;> intro e <;> cases e)
  case hAssign => intro _ _ h _; rw [h]; constructor <;> intro e <;> cases e
  case hColon => intro _ _ h _; rw [h]; constructor <;> intro e <;> cases e
  case hDotNum =>
    intro _ _ h _
    rw [h]
    constructor
    · intro e
      rcases scanNumber_tok E (next t) true with h' | h' <;> rw [h'] at e <;> cases e
    · intro e; cases e
  case hDot => intro _ _ h _; rw [h]; constructor <;> intro e <;> cases e
  case hLss =>
    intro _ _ h
    rw [h]
    constructor
    · intro e
      rcases switch3_tok (next t) LSS LEQ NEQ with h' | h' | h' <;> rw [h'] at e <;> cases e
    · intro e; cases e
  case hGtr =>
    intro _ _ h
    rw [h]
    constructor
    · intro e
      rcases switch2_tok (next t) GTR GEQ with h' | h' <;> rw [h'] at e <;> cases e
    · intro e; cases e
  case hBom => intro _ _ h; rw [h]; constructor <;> intro e <;> cases e
  case hIllegal =>
    intro _ _ h _
    constructor
    · intro e; cases e
    · intro e; rw [e] at h; cases h

theorem scanToken_src (E : Env) (t : Scanner) : (scanToken E t).1.src = t.src := by
  rcases scanToken_shape E t with h | h
  · rw [h.src, next_src]
  · rw [h.1, error_src, next_src]

theorem scanToken_err (E : Env) (t : Scanner) : (scanToken E t).1.err = t.err := by
  rcases scanToken_shape E t with h | h
  · rw [h.err, next_err]
  · rw [h.1, error_err, next_err]

theorem scanToken_inv (E : Env) (t : Scanner) (ht : Inv t) : Inv (scanToken E t).1 := by
  rcases scanToken_shape E t with h | h
  · exact h.inv (next_inv t ht.rd_le)
  · rw [h.1]; exact error_inv _ _ _ (next_inv t ht.rd_le)

/-- Every call makes progress: the cursor ends at or beyond the reading offset
it had after white space. -/
theorem scanToken_offset (E : Env) (t : Scanner) (ht : Inv t) :
    t.rdOffset ≤ (scanToken E t).1.offset := by
  have hn := next_offset t ht.rd_le
  rcases scanToken_shape E t with h | h
  · have := h.offset_le (next_inv t ht.rd_le); omega
  · rw [h.1, error_offset]; omega

theorem Init_src (src : List Nat) (err : Bool) : (Init src err).src = src := by
  unfold Init; dsimp only; split_ifs <;> simp

theorem Init_err (src : List Nat) (err : Bool) : (Init src err).err = err := by
  unfold Init; dsimp only; split_ifs <;> simp

theorem Init_inv (src : List Nat) (err : Bool) : Inv (Init src err) := by
  unfold Init; dsimp only; split_ifs
  · exact next_inv _ (next_inv _ (Nat.zero_le _)).rd_le
  · exact next_inv _ (Nat.zero_le _)

theorem skipWhitespace_inv (s : Scanner) (h : Inv s) : Inv (skipWhitespace s) :=
  (skipWhitespace_nexts s).inv h

theorem skipWhitespace_offset (s : Scanner) (h : Inv s) :
    s.offset ≤ (skipWhitespace s).offset :=
  (skipWhitespace_nexts s).offset_le h

theorem skipWhitespace_of_eof (s : Scanner) (h : s.ch = -1) : skipWhitespace s = s := by
  unfold skipWhitespace
  exact whileNext_of_not _ _ _ (by rw [h]; exact isSpace_eof)

theorem skipWhitespace_exits (s : Scanner) : isSpace (skipWhitespace s).ch = false :=
  whileNext_exits _ isSpace_eof _ _ (by omega)

theorem next_of_eof (s : Scanner) (h : Inv s) (hc : s.ch = -1) : next s = s := by
  have := h.eof hc
  rw [next_eof s (by omega)]
  cases s
  simp_all

theorem Scan_src (E : Env) (s : Scanner) : (Scan E s).1.src = s.src := by
  rw [Scan_eq, scanToken_src, skipWhitespace_src]

theorem Scan_inv (E : Env) (s : Scanner) (h : Inv s) : Inv (Scan E s).1 := by
  rw [Scan_eq]; exact scanToken_inv E _ (skipWhitespace_inv s h)

theorem Scan_pos (E : Env) (s : Scanner) : (Scan E s).2.pos = (skipWhitespace s).offset := by
  rw [Scan_eq, scanToken_pos]

theorem Scan_tok_eof (E : Env) (s : Scanner) :
    (Scan E s).2.tok = EOF ↔ (skipWhitespace s).ch = -1 := by
  rw [Scan_eq, scanToken_tok_eof]

/-- At the end of input `Scan` answers `(len(src), EOF, "")` and changes nothing. -/
theorem Scan_of_eof (E : Env) (s : Scanner) (h : Inv s) (hc : s.ch = -1) :
    Scan E s = (s, ⟨s.src.length, EOF, []⟩) := by
  rw [Scan_eq, skipWhitespace_of_eof s hc,
    scanToken_single E s EOF (by rw [hc]; exact isLetter_eof E) (by rw [hc]; exact isDigit_eof E)
      (by rw [hc]; rfl),
    next_of_eof s h hc, (h.eof hc).1]

/-- The state after a call that answered `EOF` is at the end of input. -/
theorem Scan_eof_state (E : Env) (s : Scanner) (h : Inv s)
    (ht : (Scan E s).2.tok = EOF) :
    (Scan E s).1 = skipWhitespace s ∧ (Scan E s).1.ch = -1 ∧
      (skipWhitespace s).offset = s.src.length := by
  have hc := (Scan_tok_eof E s).mp ht
  have hi := skipWhitespace_inv s h
  have e : Scan E s = (skipWhitespace s, ⟨(skipWhitespace s).src.length, EOF, []⟩) := by
    rw [Scan_eq]
    have := Scan_of_eof E (skipWhitespace s) hi hc
    rw [Scan_eq, skipWhitespace_of_eof _ hc] at this
    exact this
  rw [e]
  refine ⟨rfl, hc, ?_⟩
  have := (hi.eof hc).1
  rw [skipWhitespace_src] at this
  exact this

/-- A call that does not answer `EOF` moves the cursor beyond the start of
its token. -/
theorem Scan_progress (E : Env) (s : Scanner) (h : Inv s)
    (ht : (Scan E s).2.tok ≠ EOF) : (Scan E s).2.pos < (Scan E s).1.offset := by
  have hc : (skipWhitespace s).ch ≠ -1 := fun e => ht ((Scan_tok_eof E s).mpr e)
  have hi := skipWhitespace_inv s h
  have h1 := hi.live hc
  have h2 := scanToken_offset E _ hi
  rw [Scan_pos, Scan_eq]
  omega

theorem Scan_offset_le (E : Env) (s : Scanner) (h : Inv s) :
    s.offset ≤ (Scan E s).2.pos ∧ (Scan E s).2.pos ≤ (Scan E s).1.offset := by
  have hi := skipWhitespace_inv s h
  have h1 := skipWhitespace_offset s h
  have h2 := scanToken_offset E _ hi
  have h3 := hi.off_le
  rw [Scan_pos, Scan_eq]
  omega

theorem Inv.offset_le_length {s : Scanner} (h : Inv s) : s.offset ≤ s.src.length := by
  have := h.off_le
  have := h.rd_le
  omega

theorem scanState_succ (E : Env) (n : Nat) (s : Scanner) :
    scanState E (n + 1) s = (Scan E (scanState E n s)).1 := by
  induction n generalizing s with
  | zero => rfl
  | succ n ih => rw [scanState, ih (Scan E s).1]; rfl

theorem scanState_add (E : Env) (n m : Nat) (s : Scanner) :
    scanState E (n + m) s = scanState E m (scanState E n s) := by
  induction n generalizing s with
  | zero => simp [scanState]
  | succ n ih => rw [Nat.succ_add, scanState, ih]; rfl

theorem scanState_inv (E : Env) (n : Nat) (s : Scanner) (h : Inv s) : Inv (scanState E n s) := by
  induction n generalizing s with
  | zero => exact h
  | succ n ih => exact ih _ (Scan_inv E s h)

theorem scanState_src (E : Env) (n : Nat) (s : Scanner) : (scanState E n s).src = s.src := by
  induction n generalizing s with
  | zero => rfl
  | succ n ih => rw [scanState, ih, Scan_src]

theorem scanState_of_eof (E : Env) (n : Nat) (s : Scanner) (h : Inv s) (hc : s.ch = -1) :
    scanState E n s = s := by
  induction n with
  | zero => rfl
  | succ n ih => rw [scanState, Scan_of_eof E s h hc]; exact ih

theorem scanResults_add (E : Env) (n m : Nat) (s : Scanner) :
    scanResults E (n + m) s = scanResults E n s ++ scanResults E m (scanState E n s) := by
  induction n generalizing s with
  | zero => simp [scanResults, scanState]
  | succ n ih => rw [Nat.succ_add, scanResults, ih]; rfl

theorem scanResults_length (E : Env) (n : Nat) (s : Scanner) :
    (scanResults E n s).length = n := by
  induction n generalizing s with
  | zero => rfl
  | succ n ih => rw [scanResults, List.length_cons, ih]

theorem scanResults_of_eof (E : Env) (n : Nat) (s : Scanner) (h : Inv s) (hc : s.ch = -1) :
    scanResults E n s = List.replicate n ⟨s.src.length, EOF, []⟩ := by
  induction n with
  | zero => rfl
  | succ n ih => rw [scanResults, Scan_of_eof E s h hc, List.replicate_succ]; exact congrArg _ ih

/-- After `n` calls the scanner is at the end of input or at least `n` bytes in. -/
theorem scanState_eof_or_offset (E : Env) (n : Nat) (s : Scanner) (h : Inv s) :
    (scanState E n s).ch = -1 ∨ n ≤ (scanState E n s).offset := by
  induction n with
  | zero => exact Or.inr (Nat.zero_le _)
  | succ n ih =>
    have hi := scanState_inv E n s h
    rw [scanState_succ]
    rcases ih with hc | hn
    · left; rw [Scan_of_eof E _ hi hc]; exact hc
    · by_cases ht : (Scan E (scanState E n s)).2.tok = EOF
      · exact Or.inl (Scan_eof_state E _ hi ht).2.1
      · right
        have h1 := Scan_progress E _ hi ht
        have h2 := (Scan_offset_le E _ hi).1
        omega

theorem scanState_eof (E : Env) (k : Nat) (s : Scanner) (h : Inv s) :
    (scanState E (s.src.length + k) s).ch = -1 := by
  have hi := scanState_inv E (s.src.length + k) s h
  rcases scanState_eof_or_offset E (s.src.length + k) s h with hc | hn
  · exact hc
  · by_contra hc
    have h1 := hi.live hc
    have h2 := hi.rd_le
    rw [scanState_src] at h2
    omega

/-- C2. Bounded termination: each of the three loops of `Scan` (white space,
identifier, digits), run from any scanner state with `len(src) + 1` units of
fuel, leaves through its own condition, and no additional fuel changes its
result; and after `Init` on a buffer of length `N` the call number `N + 1`,
like every later one, answers `(N, EOF, "")`, so that the first `N + 1 + k`
calls hold at most `N` answers other than `EOF`. -/
theorem Scan_bounded_termination (E : Env) (src : List Nat) (err : Bool) (s : Scanner)
    (k : Nat) :
    (isSpace (skipWhitespace s).ch = false ∧
      whileNext isSpace (s.src.length + 1 + k) s = skipWhitespace s) ∧
    (isLetter E (scanIdentifier E s).1.ch = false ∧
      isDigit E (scanIdentifier E s).1.ch = false ∧
      whileNext (fun c => isLetter E c || isDigit E c) (s.src.length + 1 + k) s =
        (scanIdentifier E s).1) ∧
    (isDigit E (whileNext (isDigit E) (s.src.length + 1) s).ch = false ∧
      whileNext (isDigit E) (s.src.length + 1 + k) s =
        whileNext (isDigit E) (s.src.length + 1) s) ∧
    (Scan E (scanState E (src.length + k) (Init src err))).2 = ⟨src.length, EOF, []⟩ ∧
    ((scanResults E (src.length + 1 + k) (Init src err)).filter
      (fun r => decide (r.tok ≠ EOF))).length ≤ src.length := by
  have hid : (fun c => isLetter E c || isDigit E c) (-1) = false := by
    show (isLetter E (-1) || isDigit E (-1)) = false
    rw [isLetter_eof, isDigit_eof]; rfl
  refine ⟨⟨skipWhitespace_exits s, ?_⟩, ⟨?_, ?_, ?_⟩, ⟨?_, ?_⟩, ?_, ?_⟩
  · exact whileNext_fuel _ isSpace_eof _ _ _ (by omega) (by omega)
  · have := whileNext_exits (fun c => isLetter E c || isDigit E c) hid (s.src.length + 1) s (by omega)
    have h' : (isLetter E (scanIdentifier E s).1.ch || isDigit E (scanIdentifier E s).1.ch)
        = false := this
    rw [Bool.or_eq_false_iff] at h'
    exact h'.1
  · have := whileNext_exits (fun c => isLetter E c || isDigit E c) hid (s.src.length + 1) s (by omega)
    have h' : (isLetter E (scanIdentifier E s).1.ch || isDigit E (scanIdentifier E s).1.ch)
        = false := this
    rw [Bool.or_eq_false_iff] at h'
    exact h'.2
  · exact whileNext_fuel (fun c => isLetter E c || isDigit E c) hid _ _ _ (by omega) (by omega)
  · exact whileNext_exits _ (isDigit_eof E) _ _ (by omega)
  · exact whileNext_fuel _ (isDigit_eof E) _ _ _ (by omega) (by omega)
  · have hi := scanState_inv E (src.length + k) _ (Init_inv src err)
    have hc := scanState_eof E k _ (Init_inv src err)
    rw [Init_src] at hc
    rw [Scan_of_eof E _ hi hc, scanState_src, Init_src]
  · have hi := scanState_inv E (src.length + 0) _ (Init_inv src err)
    have hc := scanState_eof E 0 _ (Init_inv src err)
    rw [Init_src] at hc
    rw [show src.length + 1 + k = (src.length + 0) + (1 + k) by omega, scanResults_add,
      scanResults_of_eof E _ _ hi hc, List.filter_append, List.length_append]
    have h1 : (List.filter (fun r => decide (r.tok ≠ EOF))
        (List.replicate (1 + k)
          (⟨(scanState E (src.length + 0) (Init src err)).src.length, EOF, []⟩ : Result))) = [] := by
      rw [List.filter_eq_nil_iff]
      intro a ha
      rw [(List.mem_replicate.mp ha).2]
      simp
    rw [h1]
    have h2 := List.length_filter_le (fun r : Result => decide (r.tok ≠ EOF))
      (scanResults E (src.length + 0) (Init src err))
    rw [scanResults_length] at h2
    simpa using h2

/-- C3. End of input is absorbing: once a call of `Scan` has answered `EOF`,
every later call answers `(len(src), EOF, "")` and leaves the scanner as it
found it, field for field; and a call answers `EOF` only when the cursor left
by white-space skipping stands at offset `len(src)`, which is then the start
offset it returns. -/
theorem Scan_eof_absorbing (E : Env) (src : List Nat) (err : Bool) (n k : Nat)
    (h : (Scan E (scanState E n (Init src err))).2.tok = EOF) :
    Scan E (scanState E (n + 1 + k) (Init src err)) =
        (scanState E (n + 1 + k) (Init src err), ⟨src.length, EOF, []⟩) ∧
      scanState E (n + 1 + k) (Init src err) = scanState E (n + 1) (Init src err) ∧
      (skipWhitespace (scanState E n (Init src err))).offset = src.length ∧
      (skipWhitespace (scanState E n (Init src err))).ch = -1 ∧
      (Scan E (scanState E n (Init src err))).2 = ⟨src.length, EOF, []⟩ := by
  have hi := scanState_inv E n _ (Init_inv src err)
  have hs := Scan_eof_state E _ hi h
  have hi1 := scanState_inv E (n + 1) _ (Init_inv src err)
  have hc1 : (scanState E (n + 1) (Init src err)).ch = -1 := by
    rw [scanState_succ]; exact hs.2.1
  have e1 : scanState E (n + 1 + k) (Init src err) = scanState E (n + 1) (Init src err) := by
    rw [scanState_add, scanState_of_eof E k _ hi1 hc1]
  have hlen : (scanState E n (Init src err)).src.length = src.length := by
    rw [scanState_src, Init_src]
  refine ⟨?_, e1, ?_, (Scan_tok_eof E _).mp h, ?_⟩
  · rw [e1, Scan_of_eof E _ hi1 hc1, scanState_src, Init_src]
  · rw [hs.2.2, hlen]
  · have hw := skipWhitespace_inv _ hi
    have hc := (Scan_tok_eof E _).mp h
    have := Scan_of_eof E _ hw hc
    rw [Scan_eq, skipWhitespace_of_eof _ hc] at this
    rw [Scan_eq, this, skipWhitespace_src, hlen]

theorem Scan_eof_absorbing_witness :
    (Scan env0 (scanState env0 1 (Init (ascii "a ") false))).2.tok = EOF ∧
    (Scan env0 (scanState env0 (1 + 1 + 2) (Init (ascii "a ") false)) =
        (scanState env0 (1 + 1 + 2) (Init (ascii "a ") false), ⟨(ascii "a ").length, EOF, []⟩) ∧
      scanState env0 (1 + 1 + 2) (Init (ascii "a ") false) =
        scanState env0 (1 + 1) (Init (ascii "a ") false) ∧
      (skipWhitespace (scanState env0 1 (Init (ascii "a ") false))).offset =
        (ascii "a ").length ∧
      (skipWhitespace (scanState env0 1 (Init (ascii "a ") false))).ch = -1 ∧
      (Scan env0 (scanState env0 1 (Init (ascii "a ") false))).2 =
        ⟨(ascii "a ").length, EOF, []⟩) :=
  ⟨by decide, Scan_eof_absorbing env0 (ascii "a ") false 1 2 (by decide)⟩

/-- C4. Start offsets are monotone: of two successive calls of `Scan` the
second starts no earlier than the first and no later than `len(src)`; and
when the first answered a kind other than `EOF` the second starts strictly
later, at or beyond the cursor the first call left, which is itself beyond
the start of the first token. -/
theorem Scan_pos_monotone (E : Env) (src : List Nat) (err : Bool) (n : Nat) :
    (Scan E (scanState E n (Init src err))).2.pos ≤
        (Scan E (scanState E (n + 1) (Init src err))).2.pos ∧
      (Scan E (scanState E (n + 1) (Init src err))).2.pos ≤ src.length ∧
      ((Scan E (scanState E n (Init src err))).2.tok ≠ EOF →
        (Scan E (scanState E n (Init src err))).2.pos <
            (scanState E (n + 1) (Init src err)).offset ∧
          (Scan E (scanState E n (Init src err))).2.pos <
            (Scan E (scanState E (n + 1) (Init src err))).2.pos) := by
  have hi := scanState_inv E n _ (Init_inv src err)
  have hi1 := scanState_inv E (n + 1) _ (Init_inv src err)
  have h1 := Scan_offset_le E _ hi
  have h2 := Scan_offset_le E _ hi1
  have h3 := (skipWhitespace_inv _ hi1).offset_le_length
  rw [skipWhitespace_src, scanState_src, Init_src, ← Scan_pos E] at h3
  rw [← scanState_succ] at h1
  refine ⟨by omega, h3, fun ht => ?_⟩
  have h4 := Scan_progress E _ hi ht
  rw [← scanState_succ] at h4
  exact ⟨h4, by omega⟩

theorem Scan_pos_monotone_witness :
    (Scan env0 (scanState env0 0 (Init (ascii "ab  +") false))).2.tok ≠ EOF ∧
    (Scan env0 (scanState env0 0 (Init (ascii "ab  +") false))).2.pos <
      (Scan env0 (scanState env0 (0 + 1) (Init (ascii "ab  +") false))).2.pos :=
  ⟨by decide,
    ((Scan_pos_monotone env0 (ascii "ab  +") false 0).2.2 (by decide)).2⟩

theorem cleanByte_lt {b : Nat} (h : cleanByte b = true) : 0 < b ∧ b < 128 := by
  simp [cleanByte] at h
  omega

theorem cleanByte_cases (E : Env) {b : Nat} (h : cleanByte b = true) :
    isLetter E (b : Int) = true ∨ isDigit E (b : Int) = true ∨ isSpace (b : Int) = true ∨
      handled (b : Int) = true := by
  have hb := cleanByte_lt h
  obtain ⟨h0, h1⟩ := hb
  interval_cases b <;>
    first
    | exact absurd h (by decide)
    | exact Or.inl rfl
    | exact Or.inr (Or.inl rfl)
    | exact Or.inr (Or.inr (Or.inl rfl))
    | exact Or.inr (Or.inr (Or.inr rfl))

theorem readRune_ascii (src : List Nat) (rd : Nat) (h0 : 0 < src.getD rd 0)
    (h1 : src.getD rd 0 < 128) : readRune src rd = (((src.getD rd 0 : Nat) : Int), 1, none) := by
  unfold readRune
  dsimp only
  rw [if_neg (by omega), if_neg (by omega)]

theorem getD_mem (src : List Nat) (rd : Nat) (h : rd < src.length) : src.getD rd 0 ∈ src := by
  rw [List.getD_eq_getElem _ _ h]
  exact List.getElem_mem h

theorem next_clean (s : Scanner) (hs : ∀ b ∈ s.src, cleanByte b = true)
    (h : s.ErrorCount = 0 ∧ s.log = []) : CleanSt (next s) := by
  by_cases hr : s.rdOffset < s.src.length
  · have hb := cleanByte_lt (hs _ (getD_mem s.src s.rdOffset hr))
    rw [next_eq s hr, readRune_ascii _ _ hb.1 hb.2]
    exact ⟨h.1, h.2, Or.inr ⟨_, hs _ (getD_mem s.src s.rdOffset hr), rfl⟩⟩
  · rw [next_eof s hr]
    exact ⟨h.1, h.2, Or.inl rfl⟩

theorem Nexts.clean {a b : Scanner} (h : Nexts a b) (hs : ∀ x ∈ a.src, cleanByte x = true)
    (ha : CleanSt a) : CleanSt b := by
  induction h with
  | refl => exact ha
  | @step t ht ih =>
    exact next_clean t (by rw [ht.src]; exact hs) ⟨ih.1, ih.2.1⟩

theorem Scan_clean (E : Env) (s : Scanner) (hs : ∀ x ∈ s.src, cleanByte x = true)
    (h : CleanSt s) : CleanSt (Scan E s).1 := by
  have ht : CleanSt (skipWhitespace s) := (skipWhitespace_nexts s).clean hs h
  have hsp := skipWhitespace_exits s
  have hs' : ∀ x ∈ (skipWhitespace s).src, cleanByte x = true := by
    rw [skipWhitespace_src]; exact hs
  have hn : CleanSt (next (skipWhitespace s)) := next_clean _ hs' ⟨ht.1, ht.2.1⟩
  rw [Scan_eq]
  rcases scanToken_shape E (skipWhitespace s) with h' | h'
  · exact h'.clean (by rw [next_src]; exact hs') hn
  · exfalso
    obtain ⟨_, _, h1, h2, h3, _⟩ := h'
    rcases ht.2.2 with hc | ⟨b, hb, hc⟩
    · rw [hc] at h3; cases h3
    · rw [hc] at h1 h2 h3 hsp
      rcases cleanByte_cases E hb with c | c | c | c
      · rw [h1] at c; cases c
      · rw [h2] at c; cases c
      · rw [hsp] at c; cases c
      · rw [h3] at c; cases c

theorem Init_clean (src : List Nat) (err : Bool) (hs : ∀ x ∈ src, cleanByte x = true) :
    CleanSt (Init src err) := by
  have h1 : CleanSt (next ⟨src, err, [], 32, 0, 0, 0⟩) := next_clean _ hs ⟨rfl, rfl⟩
  unfold Init; dsimp only; split_ifs
  · exact next_clean _ (by rw [next_src]; exact hs) ⟨h1.1, h1.2.1⟩
  · exact h1

/-- C5. No errors on clean input: when every byte of the buffer is an ASCII
letter or digit, `_`, a white-space character or one of
`, ( ) [ ] + - * / = ; : . < >`, then `ErrorCount` is 0 right after `Init` and
after any number of calls of `Scan`, and the callback has never been called
(its log is empty). -/
theorem clean_input_no_errors (E : Env) (src : List Nat) (err : Bool) (n : Nat)
    (hs : ∀ b ∈ src, cleanByte b = true) :
    (Init src err).ErrorCount = 0 ∧ (Init src err).log = [] ∧
      (scanState E n (Init src err)).ErrorCount = 0 ∧
      (scanState E n (Init src err)).log = [] := by
  have h0 := Init_clean src err hs
  have hn : CleanSt (scanState E n (Init src err)) := by
    induction n with
    | zero => exact h0
    | succ n ih =>
      rw [scanState_succ]
      exact Scan_clean E _ (by rw [scanState_src, Init_src]; exact hs) ih
  exact ⟨h0.1, h0.2.1, hn.1, hn.2.1⟩

theorem clean_input_no_errors_witness :
    (∀ b ∈ ascii "x := .5;", cleanByte b = true) ∧
    ((Init (ascii "x := .5;") true).ErrorCount = 0 ∧ (Init (ascii "x := .5;") true).log = [] ∧
      (scanState env0 5 (Init (ascii "x := .5;") true)).ErrorCount = 0 ∧
      (scanState env0 5 (Init (ascii "x := .5;") true)).log = []) :=
  ⟨by decide, clean_input_no_errors env0 (ascii "x := .5;") true 5 (by decide)⟩

/-- C6. On the one-byte buffer `":"` the first call of `Scan` answers
`ILLEGAL`, the second `EOF`, and `ErrorCount` is still 0 and the callback has
not been called: the `':'` case of the switch leaves `tok` at `ILLEGAL` without
calling `error`, unlike the default case. The same holds for a lone `'.'`. -/
theorem illegal_colon_not_counted (E : Env) :
    scanResults E 2 (Init (ascii ":") true) = [⟨0, ILLEGAL, []⟩, ⟨1, EOF, []⟩] ∧
      (scanState E 2 (Init (ascii ":") true)).ErrorCount = 0 ∧
      (scanState E 2 (Init (ascii ":") true)).log = [] ∧
      scanResults E 2 (Init (ascii ".") true) = [⟨0, ILLEGAL, []⟩, ⟨1, EOF, []⟩] ∧
      (scanState E 2 (Init (ascii ".") true)).ErrorCount = 0 ∧
      (scanState E 2 (Init (ascii ".") true)).log = [] :=
  ⟨rfl, rfl, rfl, rfl, rfl, rfl⟩

/-- C7. On the one-byte buffer `[0x00]` scanning to `EOF` ends with
`ErrorCount = 2` and two calls of the callback for the single NUL byte: `next`
reports `illegal character NULL` when it reads the byte, and the default case
of `Scan` reports `illegal character` for the same byte at the same offset. -/
theorem nul_counted_twice (E : Env) :
    scanResults E 2 (Init [0] true) = [⟨0, ILLEGAL, []⟩, ⟨1, EOF, []⟩] ∧
      (Init [0] true).ErrorCount = 1 ∧
      (scanState E 2 (Init [0] true)).ErrorCount = 2 ∧
      (scanState E 2 (Init [0] true)).log =
        [(0, Msg.illegalNULL), (0, Msg.illegalCharacter 0)] :=
  ⟨rfl, rfl, rfl, rfl⟩

theorem sim_nexts {f : Scanner → Scanner} {g : Nat → Nat} {Q : Scanner → Prop}
    (S : Sim f g Q) {a b : Scanner} (h : Nexts a b) (ha : Q a) : Q b := by
  induction h with
  | refl => exact ha
  | step _ ih => exact S.sim_Q _ ih

theorem sim_whileNext_any {f : Scanner → Scanner} {g : Nat → Nat} {Q : Scanner → Prop}
    (S : Sim f g Q) (c : Int → Bool) (fuel : Nat) (s : Scanner) (hq : Q s) :
    whileNext c fuel (f s) = f (whileNext c fuel s) := by
  induction fuel generalizing s with
  | zero => rfl
  | succ n ih =>
    by_cases h : c s.ch = true
    · rw [whileNext_of_cond c n s h, whileNext_of_cond c n (f s) (by rw [S.sim_ch]; exact h),
        S.sim_next s hq, ih _ (S.sim_Q s hq)]
    · have h' : c s.ch = false := by simpa using h
      rw [whileNext_of_not c _ s h', whileNext_of_not c _ (f s) (by rw [S.sim_ch]; exact h')]

theorem sim_whileNext {f : Scanner → Scanner} {g : Nat → Nat} {Q : Scanner → Prop}
    (S : Sim f g Q) (c : Int → Bool) (hc : c (-1) = false) (s : Scanner) (hq : Q s) :
    whileNext c ((f s).src.length + 1) (f s) = f (whileNext c (s.src.length + 1) s) := by
  have h1 := S.sim_len s
  have h2 := S.sim_rest s
  rw [whileNext_fuel c hc (s.src.length + 1) ((f s).src.length + 1) (f s) (by omega)
    (by omega)]
  exact sim_whileNext_any S c _ s hq

theorem sim_skipWhitespace {f : Scanner → Scanner} {g : Nat → Nat} {Q : Scanner → Prop}
    (S : Sim f g Q) (s : Scanner) (hq : Q s) :
    skipWhitespace (f s) = f (skipWhitespace s) :=
  sim_whileNext S isSpace isSpace_eof s hq

theorem sim_scanIdentifier {f : Scanner → Scanner} {g : Nat → Nat} {Q : Scanner → Prop}
    (S : Sim f g Q) (E : Env) (s : Scanner) (hq : Q s) :
    scanIdentifier E (f s) = (f (scanIdentifier E s).1, (scanIdentifier E s).2) := by
  have hid : (fun c => isLetter E c || isDigit E c) (-1) = false := by
    show (isLetter E (-1) || isDigit E (-1)) = false
    rw [isLetter_eof, isDigit_eof]; rfl
  unfold scanIdentifier
  dsimp only
  rw [sim_whileNext S (fun c => isLetter E c || isDigit E c) hid s hq, S.sim_offset, S.sim_offset, S.sim_slice]

theorem sim_scanNumber {f : Scanner → Scanner} {g : Nat → Nat} {Q : Scanner → Prop}
    (S : Sim f g Q) (E : Env) (s : Scanner) (hq : Q s) (b : Bool)
    (hb : b = true → 1 ≤ s.offset) :
    scanNumber E (f s) b =
      (f (scanNumber E s b).1, (scanNumber E s b).2.1, (scanNumber E s b).2.2) := by
  have ho : (if b = true then (f s).offset - 1 else (f s).offset) =
      g (if b = true then s.offset - 1 else s.offset) := by
    by_cases h : b = true
    · rw [if_pos h, if_pos h, S.sim_offset, S.sim_pred _ (hb h)]
    · rw [if_neg h, if_neg h, S.sim_offset]
  have hq1 : Q (whileNext (isDigit E) (s.src.length + 1) s) :=
    sim_nexts S (whileNext_nexts _ _ _) hq
  unfold scanNumber
  dsimp only
  rw [ho, sim_whileNext S (isDigit E) (isDigit_eof E) s hq, S.sim_ch]
  by_cases h1 : (whileNext (isDigit E) (s.src.length + 1) s).ch = 46 ∧ b = false
  · rw [if_pos h1, if_pos h1, S.sim_next _ hq1,
      sim_whileNext S (isDigit E) (isDigit_eof E) _ (S.sim_Q _ hq1), S.sim_offset, S.sim_slice]
  · rw [if_neg h1, if_neg h1, S.sim_offset, S.sim_slice]

theorem sim_switch2 {f : Scanner → Scanner} {g : Nat → Nat} {Q : Scanner → Prop}
    (S : Sim f g Q) (s : Scanner) (hq : Q s) (a b : Token) :
    switch2 (f s) a b = (f (switch2 s a b).1, (switch2 s a b).2) := by
  unfold switch2
  rw [S.sim_ch]
  split_ifs
  · rw [S.sim_next s hq]
  · rfl

theorem sim_switch3 {f : Scanner → Scanner} {g : Nat → Nat} {Q : Scanner → Prop}
    (S : Sim f g Q) (s : Scanner) (hq : Q s) (a b c : Token) :
    switch3 (f s) a b c = (f (switch3 s a b c).1, (switch3 s a b c).2) := by
  unfold switch3
  rw [S.sim_ch]
  split_ifs
  · rw [S.sim_next s hq]
  · rw [S.sim_next s hq]
  · rfl

theorem sim_scanToken {f : Scanner → Scanner} {g : Nat → Nat} {Q : Scanner → Prop}
    (S : Sim f g Q) (E : Env) (t : Scanner) (hq : Q t) (hi : Inv t) :
    scanToken E (f t) = (f (scanToken E t).1, (scanToken E t).2.mapPos g) := by
  have hqn : Q (next t) := S.sim_Q t hq
  apply scanToken_cases E t (fun r => scanToken E (f t) = (f r.1, r.2.mapPos g))
  case hLetter =>
    intro h
    rw [scanToken_letter E (f t) (by rw [S.sim_ch]; exact h), sim_scanIdentifier S E t hq,
      S.sim_offset]
    rfl
  case hDigit =>
    intro h1 h2
    rw [scanToken_digit E (f t) (by rw [S.sim_ch]; exact h1) (by rw [S.sim_ch]; exact h2),
      sim_scanNumber S E t hq false (fun h => by cases h), S.sim_offset]
    rfl
  case hSingle =>
    intro tok h1 h2 h
    rw [scanToken_single E (f t) tok (by rw [S.sim_ch]; exact h1) (by rw [S.sim_ch]; exact h2)
      (by rw [S.sim_ch]; exact h), S.sim_next t hq, S.sim_offset]
    rfl
  case hAssign =>
    intro h1 h2 h h'
    rw [scanToken_assign E (f t) (by rw [S.sim_ch]; exact h1) (by rw [S.sim_ch]; exact h2)
      (by rw [S.sim_ch]; exact h) (by rw [S.sim_next t hq, S.sim_ch]; exact h'),
      S.sim_next t hq, S.sim_next _ hqn, S.sim_offset]
    rfl
  case hColon =>
    intro h1 h2 h h'
    rw [scanToken_colon E (f t) (by rw [S.sim_ch]; exact h1) (by rw [S.sim_ch]; exact h2)
      (by rw [S.sim_ch]; exact h) (by rw [S.sim_next t hq, S.sim_ch]; exact h'),
      S.sim_next t hq, S.sim_offset]
    rfl
  case hDotNum =>
    intro h1 h2 h h'
    have ho : 1 ≤ (next t).offset := by
      rw [next_offset t hi.rd_le]
      have := hi.live (by rw [h]; decide)
      omega
    rw [scanToken_dotnum E (f t) (by rw [S.sim_ch]; exact h1) (by rw [S.sim_ch]; exact h2)
      (by rw [S.sim_ch]; exact h) (by rw [S.sim_next t hq, S.sim_ch]; exact h'),
      S.sim_next t hq, sim_scanNumber S E _ hqn true (fun _ => ho), S.sim_offset]
    rfl
  case hDot =>
    intro h1 h2 h h'
    rw [scanToken_dot E (f t) (by rw [S.sim_ch]; exact h1) (by rw [S.sim_ch]; exact h2)
      (by rw [S.sim_ch]; exact h) (by rw [S.sim_next t hq, S.sim_ch]; exact h'),
      S.sim_next t hq, S.sim_offset]
    rfl
  case hLss =>
    intro h1 h2 h
    rw [scanToken_lss E (f t) (by rw [S.sim_ch]; exact h1) (by rw [S.sim_ch]; exact h2)
      (by rw [S.sim_ch]; exact h), S.sim_next t hq, sim_switch3 S _ hqn, S.sim_offset]
    rfl
  case hGtr =>
    intro h1 h2 h
    rw [scanToken_gtr E (f t) (by rw [S.sim_ch]; exact h1) (by rw [S.sim_ch]; exact h2)
      (by rw [S.sim_ch]; exact h), S.sim_next t hq, sim_switch2 S _ hqn, S.sim_offset]
    rfl
  case hBom =>
    intro h1 h2 h
    rw [scanToken_bom E (f t) (by rw [S.sim_ch]; exact h1) (by rw [S.sim_ch]; exact h2)
      (by rw [S.sim_ch]; exact h), S.sim_next t hq, S.sim_offset]
    rfl
  case hIllegal =>
    intro h1 h2 h h'
    rw [scanToken_illegal E (f t) (by rw [S.sim_ch]; exact h1) (by rw [S.sim_ch]; exact h2)
      (by rw [S.sim_ch]; exact h) (by rw [S.sim_ch]; exact h'),
      S.sim_next t hq, S.sim_offset, S.sim_ch, S.sim_error]
    rfl

theorem sim_Scan {f : Scanner → Scanner} {g : Nat → Nat} {Q : Scanner → Prop}
    (S : Sim f g Q) (E : Env) (s : Scanner) (hq : Q s) (hi : Inv s) :
    Scan E (f s) = (f (Scan E s).1, (Scan E s).2.mapPos g) := by
  rw [Scan_eq, Scan_eq, sim_skipWhitespace S s hq,
    sim_scanToken S E _ (sim_nexts S (skipWhitespace_nexts s) hq) (skipWhitespace_inv s hi)]

theorem sim_Q_Scan {f : Scanner → Scanner} {g : Nat → Nat} {Q : Scanner → Prop}
    (S : Sim f g Q) (hQe : ∀ s o m, Q s → Q (s.error o m)) (E : Env) (s : Scanner) (hq : Q s) :
    Q (Scan E s).1 := by
  have h1 : Q (next (skipWhitespace s)) :=
    S.sim_Q _ (sim_nexts S (skipWhitespace_nexts s) hq)
  rw [Scan_eq]
  rcases scanToken_shape E (skipWhitespace s) with h | h
  · exact sim_nexts S h h1
  · rw [h.1]; exact hQe _ _ _ h1

theorem sim_scanState {f : Scanner → Scanner} {g : Nat → Nat} {Q : Scanner → Prop}
    (S : Sim f g Q) (hQe : ∀ s o m, Q s → Q (s.error o m)) (E : Env) (n : Nat) (s : Scanner)
    (hq : Q s) (hi : Inv s) :
    scanState E n (f s) = f (scanState E n s) ∧
      scanResults E n (f s) = (scanResults E n s).map (Result.mapPos g) := by
  induction n generalizing s with
  | zero => exact ⟨rfl, rfl⟩
  | succ n ih =>
    have h := ih (Scan E s).1 (sim_Q_Scan S hQe E s hq) (Scan_inv E s hi)
    rw [scanState, scanResults, sim_Scan S E s hq hi]
    exact ⟨h.1, by rw [scanResults, List.map_cons, h.2]⟩

theorem next_mute (s : Scanner) : next (mute s) = mute (next s) := by
  have e1 : (mute s).src = s.src := rfl
  have e2 : (mute s).rdOffset = s.rdOffset := rfl
  by_cases h : s.rdOffset < s.src.length
  · rw [next_eq s h, next_eq (mute s) h, e1, e2]
    generalize readRune s.src s.rdOffset = r
    obtain ⟨r1, r2, r3⟩ := r
    cases r3 <;> rfl
  · rw [next_eof s h, next_eof (mute s) h]
    rfl

theorem sim_mute : Sim mute id (fun _ => True) where
  sim_ch := fun _ => rfl
  sim_offset := fun _ => rfl
  sim_next := fun s _ => next_mute s
  sim_error := fun _ _ _ => rfl
  sim_slice := fun _ _ _ => rfl
  sim_len := fun _ => le_rfl
  sim_rest := fun _ => le_rfl
  sim_pred := fun _ _ => rfl
  sim_Q := fun _ _ => trivial

theorem Init_mute (src : List Nat) : Init src false = mute (Init src true) := by
  unfold Init
  dsimp only
  rw [show (⟨src, false, [], 32, 0, 0, 0⟩ : Scanner) = mute ⟨src, true, [], 32, 0, 0, 0⟩ from rfl,
    next_mute]
  split_ifs with h1 h2 h2
  · rw [next_mute]
  · exact absurd h1 h2
  · exact absurd h2 h1
  · rfl

theorem next_logOk (s : Scanner) (he : s.err = true) (h : LogOk s) : LogOk (next s) := by
  by_cases hr : s.rdOffset < s.src.length
  · rw [next_eq s hr]
    cases (readRune s.src s.rdOffset).2.2 with
    | none => exact h
    | some m =>
      constructor
      · simp [report, Scanner.error, he, h.1]
      · intro e
        simp only [report, Scanner.error, he, if_true, List.mem_append, List.mem_singleton]
        rintro (h' | rfl)
        · exact h.2 e h'
        · exact hr
  · rw [next_eof s hr]
    exact h

theorem Nexts.logOk {a b : Scanner} (h : Nexts a b) (he : a.err = true) (ha : LogOk a) :
    LogOk b := by
  induction h with
  | refl => exact ha
  | @step t ht ih => exact next_logOk t (by rw [ht.err]; exact he) ih

theorem Scan_logOk (E : Env) (s : Scanner) (he : s.err = true) (hi : Inv s) (h : LogOk s) :
    LogOk (Scan E s).1 := by
  have hn := skipWhitespace_nexts s
  have ht : LogOk (skipWhitespace s) := hn.logOk he h
  have het : (skipWhitespace s).err = true := by rw [hn.err]; exact he
  have hit := skipWhitespace_inv s hi
  have h1 : LogOk (next (skipWhitespace s)) := next_logOk _ het ht
  rw [Scan_eq]
  rcases scanToken_shape E (skipWhitespace s) with h' | h'
  · exact h'.logOk (by rw [next_err]; exact het) h1
  · rw [h'.1]
    have hc : (skipWhitespace s).ch ≠ -1 := by
      intro e
      have := h'.2.2.2.2.1
      rw [e] at this
      cases this
    have hlt : (skipWhitespace s).offset < (skipWhitespace s).src.length := by
      have := hit.live hc
      have := hit.rd_le
      omega
    constructor
    · simp [Scanner.error, het, h1.1]
    · intro e
      simp only [Scanner.error, next_err, het, if_true, List.mem_append, List.mem_singleton,
        next_src]
      rintro (h'' | rfl)
      · have := h1.2 e h''
        rw [next_src] at this
        exact this
      · exact hlt

theorem Init_logOk (src : List Nat) : LogOk (Init src true) := by
  have h0 : LogOk ⟨src, true, [], 32, 0, 0, 0⟩ := ⟨rfl, fun e he => by cases he⟩
  have h1 := next_logOk _ rfl h0
  unfold Init; dsimp only; split_ifs
  · exact next_logOk _ (by rw [next_err]) h1
  · exact h1

theorem Scan_err (E : Env) (s : Scanner) : (Scan E s).1.err = s.err := by
  rw [Scan_eq, scanToken_err, (skipWhitespace_nexts s).err]

theorem scanState_err (E : Env) (n : Nat) (s : Scanner) : (scanState E n s).err = s.err := by
  induction n generalizing s with
  | zero => rfl
  | succ n ih => rw [scanState, ih, Scan_err]

theorem scanState_logOk (E : Env) (n : Nat) (src : List Nat) :
    LogOk (scanState E n (Init src true)) := by
  induction n with
  | zero => exact Init_logOk src
  | succ n ih =>
    rw [scanState_succ]
    exact Scan_logOk E _ (by rw [scanState_err, Init_err])
      (scanState_inv E n _ (Init_inv src true)) ih

theorem mapPos_id (l : List Result) : l.map (Result.mapPos id) = l := by
  induction l with
  | nil => rfl
  | cons a l ih => rw [List.map_cons, ih]; rfl

/-- C10. Error accounting matches the callback: with the callback modelled
as a log of `(offset, message)`, after `Init` with a callback and any number of
calls of `Scan`, `ErrorCount` is the length of the log and every logged offset
is smaller than `len(src)`; and with a nil callback the same calls return the
same results and leave the same `ErrorCount` (and every other field), the
callback apart. -/
theorem error_accounting (E : Env) (src : List Nat) (n : Nat) :
    (scanState E n (Init src true)).ErrorCount = (scanState E n (Init src true)).log.length ∧
      (∀ e ∈ (scanState E n (Init src true)).log, e.1 < src.length) ∧
      scanResults E n (Init src false) = scanResults E n (Init src true) ∧
      (scanState E n (Init src false)).ErrorCount =
        (scanState E n (Init src true)).ErrorCount ∧
      scanState E n (Init src false) = mute (scanState E n (Init src true)) := by
  have h := scanState_logOk E n src
  have hs := sim_scanState sim_mute (fun _ _ _ _ => trivial) E n (Init src true) trivial
    (Init_inv src true)
  rw [← Init_mute, mapPos_id] at hs
  refine ⟨h.1, ?_, hs.2, ?_, hs.1⟩
  · intro e he
    have := h.2 e he
    rw [scanState_src, Init_src] at this
    exact this
  · rw [hs.1]; rfl

theorem error_accounting_witness :
    (scanState env0 2 (Init [0, 64] true)).ErrorCount =
        (scanState env0 2 (Init [0, 64] true)).log.length ∧
      (∀ e ∈ (scanState env0 2 (Init [0, 64] true)).log, e.1 < [0, 64].length) ∧
      scanResults env0 2 (Init [0, 64] false) = scanResults env0 2 (Init [0, 64] true) ∧
      (scanState env0 2 (Init [0, 64] false)).ErrorCount =
        (scanState env0 2 (Init [0, 64] true)).ErrorCount ∧
      scanState env0 2 (Init [0, 64] false) = mute (scanState env0 2 (Init [0, 64] true)) :=
  error_accounting env0 [0, 64] 2

theorem DecodeRune_bom (p : List Nat) (h : (DecodeRune p).1 = bom) : utf8bom <+: p := by
  unfold DecodeRune at h
  rcases p with _ | ⟨p0, t⟩
  · simp [RuneError, bom] at h
  rcases t with _ | ⟨b1, t⟩
  · dsimp only at h; split_ifs at h <;> simp [RuneError, bom] at h
  rcases t with _ | ⟨b2, t⟩
  · dsimp only at h; split_ifs at h <;> simp [RuneError, bom] at h <;> omega
  rcases t with _ | ⟨b3, t⟩
  · dsimp only at h
    split_ifs at h <;> simp [RuneError, bom] at h <;>
      first
      | omega
      | (obtain ⟨rfl, rfl, rfl⟩ : p0 = 0xEF ∧ b1 = 0xBB ∧ b2 = 0xBF := by omega
         exact ⟨[], rfl⟩)
  · dsimp only at h
    split_ifs at h <;> simp [RuneError, bom] at h <;>
      first
      | omega
      | (obtain ⟨rfl, rfl, rfl⟩ : p0 = 0xEF ∧ b1 = 0xBB ∧ b2 = 0xBF := by omega
         exact ⟨b3 :: t, rfl⟩)

theorem readRune_bom (src : List Nat) (h : (readRune src 0).1 = bom) : utf8bom <+: src := by
  unfold readRune at h
  dsimp only at h
  by_cases h0 : src.getD 0 0 = 0
  · rw [if_pos h0] at h
    exact absurd h (by decide)
  rw [if_neg h0] at h
  by_cases h1 : src.getD 0 0 ≥ 128
  · rw [if_pos h1] at h
    exact DecodeRune_bom src h
  · rw [if_neg h1] at h
    have h' : ((src.getD 0 0 : Nat) : Int) = bom := h
    simp only [bom] at h'
    omega

theorem readRune_shift (src : List Nat) (rd : Nat)
    (h : 0 < rd ∨ ¬ (readRune src 0).1 = bom) :
    readRune (utf8bom ++ src) (rd + 3) = readRune src rd := by
  have e1 : (utf8bom ++ src).getD (rd + 3) 0 = src.getD rd 0 := by
    simp [utf8bom]
  have e2 : (utf8bom ++ src).drop (rd + 3) = src.drop rd := by
    simp [utf8bom]
  unfold readRune
  dsimp only
  rw [e1, e2]
  by_cases h0 : src.getD rd 0 = 0
  · rw [if_pos h0, if_pos h0]
  rw [if_neg h0, if_neg h0]
  by_cases h1 : src.getD rd 0 ≥ 128
  · rw [if_pos h1, if_pos h1]
    by_cases h2 : (DecodeRune (src.drop rd)).1 = RuneError ∧ (DecodeRune (src.drop rd)).2 = 1
    · rw [if_pos h2, if_pos h2]
    rw [if_neg h2, if_neg h2]
    by_cases h3 : (DecodeRune (src.drop rd)).1 = bom
    · rcases h with h | h
      · rw [if_pos ⟨h3, by omega⟩, if_pos ⟨h3, h⟩]
      · by_cases hr : 0 < rd
        · rw [if_pos ⟨h3, by omega⟩, if_pos ⟨h3, hr⟩]
        · exfalso
          have hr0 : rd = 0 := by omega
          subst hr0
          apply h
          unfold readRune
          dsimp only
          rw [if_neg h0, if_pos h1]
          exact h3
    · rw [if_neg (fun c => h3 c.1), if_neg (fun c => h3 c.1)]
  · rw [if_neg h1, if_neg h1]

theorem next_shift (s : Scanner) (hq : NoLeadingBom s) : next (shift s) = shift (next s) := by
  have e1 : (shift s).src = utf8bom ++ s.src := rfl
  have e2 : (shift s).rdOffset = s.rdOffset + 3 := rfl
  have e3 : (utf8bom ++ s.src).length = s.src.length + 3 := by simp [utf8bom]
  by_cases h : s.rdOffset < s.src.length
  · have h' : (shift s).rdOffset < (shift s).src.length := by rw [e1, e2, e3]; omega
    rw [next_eq s h, next_eq (shift s) h', e1, e2, readRune_shift _ _ (Or.inr hq)]
    generalize readRune s.src s.rdOffset = r
    obtain ⟨r1, r2, r3⟩ := r
    cases r3 with
    | none => simp [shift, report]; omega
    | some m =>
      simp only [shift, report, Scanner.error, List.map_append, List.map_cons, List.map_nil]
      cases s.err <;> simp <;> omega
  · have h' : ¬ (shift s).rdOffset < (shift s).src.length := by rw [e1, e2, e3]; omega
    rw [next_eof s h, next_eof (shift s) h', e1, e3]
    rfl

theorem slice_shift (src : List Nat) (a b : Nat) :
    slice (utf8bom ++ src) (a + 3) (b + 3) = slice src a b := by
  simp [slice, utf8bom]

theorem sim_shift : Sim shift (fun o => o + 3) NoLeadingBom where
  sim_ch := fun _ => rfl
  sim_offset := fun _ => rfl
  sim_next := next_shift
  sim_error := fun s o m => by
    simp only [shift, Scanner.error]
    cases s.err <;> simp
  sim_slice := fun s a b => slice_shift s.src a b
  sim_len := fun s => by
    show s.src.length ≤ (utf8bom ++ s.src).length
    simp
  sim_rest := fun s => by
    show (utf8bom ++ s.src).length - (s.rdOffset + 3) ≤ s.src.length - s.rdOffset
    simp [utf8bom]
  sim_pred := fun a h => by omega
  sim_Q := fun s h => by
    unfold NoLeadingBom at h ⊢
    rw [next_src]; exact h

theorem next_congr (s t : Scanner) (h1 : s.src = t.src) (h2 : s.err = t.err)
    (h3 : s.log = t.log) (h4 : s.rdOffset = t.rdOffset) (h5 : s.ErrorCount = t.ErrorCount) :
    next s = next t := by
  obtain ⟨a1, a2, a3, a4, a5, a6, a7⟩ := s
  obtain ⟨b1, b2, b3, b4, b5, b6, b7⟩ := t
  simp only at h1 h2 h3 h4 h5
  subst h1 h2 h3 h4 h5
  by_cases h : a6 < a1.length
  · rw [next_eq _ h, next_eq _ h]
    generalize readRune a1 a6 = r
    obtain ⟨r1, r2, r3⟩ := r
    cases r3 <;> rfl
  · rw [next_eof _ h, next_eof _ h]

theorem Init_noBom (src : List Nat) (err : Bool) (h : ¬ utf8bom <+: src) :
    Init src err = next ⟨src, err, [], 32, 0, 0, 0⟩ := by
  unfold Init
  dsimp only
  rw [if_neg]
  intro hc
  apply h
  by_cases hr : 0 < src.length
  · rw [next_eq _ hr] at hc
    exact readRune_bom src hc
  · rw [next_eof _ hr] at hc
    have hc' : (-1 : Int) = bom := hc
    exact absurd hc' (by decide)

theorem Init_bom (src : List Nat) (err : Bool) :
    Init (utf8bom ++ src) err = next ⟨utf8bom ++ src, err, [], bom, 0, 3, 0⟩ := by
  have e : next ⟨utf8bom ++ src, err, [], 32, 0, 0, 0⟩ =
      ⟨utf8bom ++ src, err, [], bom, 0, 3, 0⟩ := by
    rw [next_eq _ (by simp [utf8bom])]
    rfl
  unfold Init
  dsimp only
  rw [e, if_pos rfl]

theorem Init_shift (src : List Nat) (err : Bool) (h : ¬ utf8bom <+: src) :
    Init (utf8bom ++ src) err = shift (Init src err) := by
  have hq : NoLeadingBom ⟨src, err, [], 32, 0, 0, 0⟩ := fun hc => h (readRune_bom src hc)
  rw [Init_bom, Init_noBom src err h, ← next_shift _ hq]
  exact next_congr _ _ rfl rfl rfl rfl rfl

/-- C8. A leading byte-order mark is transparent: when the buffer `b` does not
itself begin with the bytes `EF BB BF`, then `Init` and `n` calls of `Scan` on
`EF BB BF ++ b` return the results they return on `b`, with the same kinds and
literal texts and every start offset larger by exactly 3, and leave the same
`ErrorCount` and the same calls of the callback with every offset larger by 3
(indeed the same scanner up to that shift); and on the buffer that is only a
byte-order mark `Init` leaves `ErrorCount = 0` and the first `Scan` answers
`EOF`. -/
theorem bom_transparent (E : Env) (b : List Nat) (err : Bool) (n : Nat)
    (hb : ¬ utf8bom <+: b) :
    scanResults E n (Init (utf8bom ++ b) err) =
        (scanResults E n (Init b err)).map (Result.mapPos (fun o => o + 3)) ∧
      (scanState E n (Init (utf8bom ++ b) err)).ErrorCount =
        (scanState E n (Init b err)).ErrorCount ∧
      (scanState E n (Init (utf8bom ++ b) err)).log =
        (scanState E n (Init b err)).log.map (fun e => (e.1 + 3, e.2)) ∧
      scanState E n (Init (utf8bom ++ b) err) = shift (scanState E n (Init b err)) ∧
      (Init utf8bom err).ErrorCount = 0 ∧
      (Scan E (Init utf8bom err)).2 = ⟨3, EOF, []⟩ := by
  have hq : NoLeadingBom (Init b err) := by
    unfold NoLeadingBom
    rw [Init_src]
    exact fun hc => hb (readRune_bom b hc)
  have hQe : ∀ s o m, NoLeadingBom s → NoLeadingBom (s.error o m) := fun _ _ _ h => h
  have hs := sim_scanState sim_shift hQe E n (Init b err) hq (Init_inv b err)
  rw [← Init_shift b err hb] at hs
  refine ⟨hs.2, ?_, ?_, hs.1, ?_, ?_⟩
  · rw [hs.1]; rfl
  · rw [hs.1]; rfl
  · cases err <;> rfl
  · cases err <;> rfl

theorem bom_transparent_witness :
    (¬ utf8bom <+: ascii "a:") ∧
    (scanResults env0 3 (Init (utf8bom ++ ascii "a:") true) =
        (scanResults env0 3 (Init (ascii "a:") true)).map (Result.mapPos (fun o => o + 3)) ∧
      (scanState env0 3 (Init (utf8bom ++ ascii "a:") true)).ErrorCount =
        (scanState env0 3 (Init (ascii "a:") true)).ErrorCount ∧
      (scanState env0 3 (Init (utf8bom ++ ascii "a:") true)).log =
        (scanState env0 3 (Init (ascii "a:") true)).log.map (fun e => (e.1 + 3, e.2)) ∧
      scanState env0 3 (Init (utf8bom ++ ascii "a:") true) =
        shift (scanState env0 3 (Init (ascii "a:") true)) ∧
      (Init utf8bom true).ErrorCount = 0 ∧
      (Scan env0 (Init utf8bom true)).2 = ⟨3, EOF, []⟩) :=
  ⟨by decide, bom_transparent env0 (ascii "a:") true 3 (by decide)⟩

theorem pieces_append (a b : List Piece) : pieces (a ++ b) = pieces a ++ pieces b := by
  induction a with
  | nil => rfl
  | cons p a ih => simp [pieces, ih]

theorem Piece.bytes_length_pos (p : Piece) : 0 < p.bytes.length := by
  cases p <;> simp [Piece.bytes, utf8bom]

theorem marksFrom_append (o : Nat) (a b : List Piece) :
    marksFrom o (a ++ b) = marksFrom o a ++ marksFrom (o + (pieces a).length) b := by
  induction a generalizing o with
  | nil => simp [marksFrom, pieces]
  | cons p a ih =>
    cases p with
    | byte x =>
      have e : o + (pieces (Piece.byte x :: a)).length = o + 1 + (pieces a).length := by
        simp [pieces, Piece.bytes]; omega
      rw [e]
      exact ih (o + 1)
    | mark =>
      have e : o + (pieces (Piece.mark :: a)).length = o + 3 + (pieces a).length := by
        simp [pieces, Piece.bytes, utf8bom]; omega
      rw [e]
      exact congrArg (List.cons o) (ih (o + 3))

theorem strayOffsets_snoc (l : List Piece) (q : Piece) (hl : l ≠ []) :
    strayOffsets (l ++ [q]) =
      strayOffsets l ++ (if q.isMark = true then [(pieces l).length] else []) := by
  cases l with
  | nil => exact absurd rfl hl
  | cons p l =>
    simp only [List.cons_append, strayOffsets, marksFrom_append, pieces, List.length_append]
    cases q <;> simp [marksFrom, Piece.isMark]

theorem getD_append_length (l1 l2 : List Nat) : (l1 ++ l2).getD l1.length 0 = l2.headD 0 := by
  induction l1 with
  | nil => cases l2 <;> rfl
  | cons a l1 ih => simpa using ih

theorem DecodeRune_utf8bom (rest : List Nat) : DecodeRune (utf8bom ++ rest) = (bom, 3) := rfl

theorem readRune_mark (l1 rest : List Nat) (h : 0 < l1.length) :
    readRune (l1 ++ (utf8bom ++ rest)) l1.length = (bom, 3, some Msg.illegalBOM) := by
  unfold readRune
  dsimp only
  rw [getD_append_length, List.drop_left, DecodeRune_utf8bom]
  have h1 : (utf8bom ++ rest).headD 0 = 239 := rfl
  rw [h1, if_neg (by decide), if_pos (by decide), if_neg (by decide), if_pos ⟨rfl, h⟩]

theorem readRune_byte (l1 rest : List Nat) (b : Nat) (hb : cleanByte b = true) :
    readRune (l1 ++ (b :: rest)) l1.length = ((b : Int), 1, none) := by
  have h := cleanByte_lt hb
  have e : (l1 ++ (b :: rest)).getD l1.length 0 = b := by rw [getD_append_length]; rfl
  rw [readRune_ascii _ _ (by rw [e]; exact h.1) (by rw [e]; exact h.2), e]

theorem next_at (pre post : List Piece) (p : Piece) (s : Scanner)
    (hc : ∀ x ∈ post, x.clean = true) (h : At pre (p :: post) s) :
    At (pre ++ [p]) post (next s) := by
  have hrd : s.rdOffset = (pieces (pre ++ [p])).length := h.rd_eq
  have hpos : 0 < (pieces (pre ++ [p])).length := by
    rw [pieces_append, List.length_append]
    have := p.bytes_length_pos
    simp [pieces]
    omega
  have hne : pre ++ [p] ≠ [] := by simp
  cases post with
  | nil =>
    have hs : s.src = pieces (pre ++ [p]) := h.src_eq
    rw [next_eof s (by rw [hrd, hs]; omega)]
    refine ⟨?_, ?_, rfl, ?_, ?_⟩
    · simpa using hs
    · show s.src.length = _
      rw [hs]
    · show s.rdOffset = _
      simpa using hrd
    · show s.ErrorCount = _
      simpa using h.cnt_eq
  | cons q post2 =>
    have hs : s.src = pieces (pre ++ [p]) ++ (q.bytes ++ pieces post2) := by
      rw [h.src_eq, show pre ++ p :: q :: post2 = (pre ++ [p]) ++ (q :: post2) by simp,
        pieces_append]
      rfl
    have hlt : s.rdOffset < s.src.length := by
      rw [hrd, hs, List.length_append, List.length_append]
      have := q.bytes_length_pos
      omega
    rw [next_eq s hlt, hrd, hs]
    have hsrc : pieces (pre ++ [p]) ++ (q.bytes ++ pieces post2) =
        pieces (pre ++ [p] ++ q :: post2) := by
      rw [pieces_append (pre ++ [p]) (q :: post2)]; rfl
    have hrd' : ∀ w, w = q.bytes.length →
        (pieces (pre ++ [p])).length + w = (pieces (pre ++ [p] ++ [q])).length := by
      intro w hw
      rw [pieces_append (pre ++ [p]) [q], List.length_append, hw]
      simp [pieces]
    cases q with
    | byte b =>
      have hb : cleanByte b = true := hc _ (List.mem_cons_self _ _)
      have hr := readRune_byte (pieces (pre ++ [p])) (pieces post2) b hb
      rw [show (Piece.byte b).bytes ++ pieces post2 = b :: pieces post2 from rfl, hr]
      refine ⟨?_, rfl, rfl, ?_, ?_⟩
      · exact hsrc
      · exact hrd' 1 rfl
      · show s.ErrorCount = _
        rw [h.cnt_eq]
        show (strayOffsets (pre ++ [p])).length =
          (strayOffsets ((pre ++ [p]) ++ [Piece.byte b])).length
        rw [strayOffsets_snoc _ _ hne]
        simp [Piece.isMark]
    | mark =>
      have hr := readRune_mark (pieces (pre ++ [p])) (pieces post2) hpos
      rw [show Piece.mark.bytes ++ pieces post2 = utf8bom ++ pieces post2 from rfl, hr]
      refine ⟨?_, rfl, rfl, ?_, ?_⟩
      · exact hsrc
      · exact hrd' 3 rfl
      · show s.ErrorCount + 1 = _
        rw [h.cnt_eq]
        show (strayOffsets (pre ++ [p])).length + 1 =
          (strayOffsets ((pre ++ [p]) ++ [Piece.mark])).length
        rw [strayOffsets_snoc _ _ hne]
        simp [Piece.isMark]

theorem next_at_nil (pre : List Piece) (s : Scanner) (h : At pre [] s) : At pre [] (next s) := by
  have hs : s.src = pieces pre := by simpa using h.src_eq
  have hrd : s.rdOffset = (pieces pre).length := by simpa using h.rd_eq
  rw [next_eof s (by rw [hrd, hs]; omega)]
  refine ⟨h.src_eq, ?_, rfl, h.rd_eq, h.cnt_eq⟩
  show s.src.length = _
  rw [hs]

theorem Piece.rune_ne_bom {p : Piece} (hc : p.clean = true) (h : ¬ p.rune = bom) :
    p.isMark = false := by
  cases p with
  | byte b => rfl
  | mark => exact absurd rfl h

theorem NextsNB.at {a b : Scanner} (h : NextsNB a b) (pre post : List Piece)
    (hc : ∀ x ∈ post, x.clean = true) (ha : At pre post a) :
    ∃ mid post', post = mid ++ post' ∧ At (pre ++ mid) post' b ∧
      ∀ x ∈ mid, x.isMark = false := by
  induction h with
  | refl => exact ⟨[], post, rfl, by simpa using ha, fun x hx => by cases hx⟩
  | @step t _ hch ih =>
    obtain ⟨mid, post', e, hat, hm⟩ := ih
    cases post' with
    | nil => exact ⟨mid, [], e, next_at_nil _ t hat, hm⟩
    | cons p post2 =>
      have hcp : ∀ x ∈ p :: post2, x.clean = true := fun x hx =>
        hc x (by rw [e]; exact List.mem_append_right _ hx)
      have hp : p.isMark = false :=
        Piece.rune_ne_bom (hcp p (List.mem_cons_self _ _)) (fun e => hch (hat.ch_eq.trans e))
      refine ⟨mid ++ [p], post2, by rw [e]; simp, ?_, ?_⟩
      · have := next_at (pre ++ mid) post2 p t
          (fun x hx => hcp x (List.mem_cons_of_mem _ hx)) hat
        simpa using this
      · intro x hx
        rcases List.mem_append.mp hx with h' | h'
        · exact hm x h'
        · rw [List.mem_singleton.mp h']; exact hp

theorem NextsNB.chain {a b c : Scanner} (h1 : NextsNB a b) (h2 : NextsNB b c) : NextsNB a c := by
  induction h2 with
  | refl => exact h1
  | step _ hc ih => exact NextsNB.step ih hc

theorem whileNext_nextsNB (c : Int → Bool) (hc : c bom = false) (f : Nat) (s : Scanner) :
    NextsNB s (whileNext c f s) := by
  induction f generalizing s with
  | zero => exact NextsNB.refl s
  | succ f ih =>
    by_cases h : c s.ch = true
    · rw [whileNext_of_cond c f s h]
      have hb : ¬ s.ch = bom := fun e => by rw [e, hc] at h; cases h
      exact (NextsNB.step (NextsNB.refl s) hb).chain (ih (next s))
    · rw [whileNext_of_not c _ s (by simpa using h)]
      exact NextsNB.refl s

theorem isLetter_bom (E : Env) (hL : E.unicodeIsLetter bom = false) : isLetter E bom = false := by
  unfold isLetter
  rw [hL]
  rfl

theorem isDigit_bom (E : Env) (hD : E.unicodeIsDigit bom = false) : isDigit E bom = false := by
  unfold isDigit
  rw [hD]
  rfl

theorem skipWhitespace_nextsNB (s : Scanner) : NextsNB s (skipWhitespace s) :=
  whileNext_nextsNB _ rfl _ _

theorem scanNumber_nextsNB (E : Env) (hD : E.unicodeIsDigit bom = false) (s : Scanner)
    (b : Bool) : NextsNB s (scanNumber E s b).1 := by
  have hd := isDigit_bom E hD
  rw [scanNumber_fst]
  by_cases h : (whileNext (isDigit E) (s.src.length + 1) s).ch = 46 ∧ b = false
  · rw [if_pos h]
    refine ((whileNext_nextsNB _ hd _ _).chain (NextsNB.step (NextsNB.refl _) ?_)).chain
      (whileNext_nextsNB _ hd _ _)
    intro e
    exact absurd (h.1.symm.trans e) (by decide)
  · rw [if_neg h]
    exact whileNext_nextsNB _ hd _ _

theorem scanNumber_nextsNB_of_digit (E : Env) (hD : E.unicodeIsDigit bom = false) (s : Scanner)
    (h : isDigit E s.ch = true) : NextsNB (next s) (scanNumber E s false).1 := by
  have hd := isDigit_bom E hD
  rw [scanNumber_fst, whileNext_of_cond _ _ _ h]
  by_cases h' : (whileNext (isDigit E) s.src.length (next s)).ch = 46 ∧ false = false
  · rw [if_pos h']
    refine ((whileNext_nextsNB _ hd _ _).chain (NextsNB.step (NextsNB.refl _) ?_)).chain
      (whileNext_nextsNB _ hd _ _)
    intro e
    exact absurd (h'.1.symm.trans e) (by decide)
  · rw [if_neg h']
    exact whileNext_nextsNB _ hd _ _

theorem scanIdentifier_nextsNB_of_letter (E : Env) (hL : E.unicodeIsLetter bom = false)
    (hD : E.unicodeIsDigit bom = false) (s : Scanner) (h : isLetter E s.ch = true) :
    NextsNB (next s) (scanIdentifier E s).1 := by
  unfold scanIdentifier
  dsimp only
  rw [whileNext_of_cond _ _ _ (by simp [h])]
  exact whileNext_nextsNB _ (by simp [isLetter_bom E hL, isDigit_bom E hD]) _ _

theorem switch2_nextsNB (s : Scanner) (a b : Token) : NextsNB s (switch2 s a b).1 := by
  unfold switch2
  by_cases h : s.ch = 61
  · rw [if_pos h]
    exact NextsNB.step (NextsNB.refl _) (fun e => absurd (h.symm.trans e) (by decide))
  · rw [if_neg h]
    exact NextsNB.refl _

theorem switch3_nextsNB (s : Scanner) (a b c : Token) : NextsNB s (switch3 s a b c).1 := by
  unfold switch3
  by_cases h : s.ch = 61
  · rw [if_pos h]
    exact NextsNB.step (NextsNB.refl _) (fun e => absurd (h.symm.trans e) (by decide))
  · rw [if_neg h]
    by_cases h' : s.ch = 62
    · rw [if_pos h']
      exact NextsNB.step (NextsNB.refl _) (fun e => absurd (h'.symm.trans e) (by decide))
    · rw [if_neg h']
      exact NextsNB.refl _

theorem scanToken_shapeNB (E : Env) (hL : E.unicodeIsLetter bom = false)
    (hD : E.unicodeIsDigit bom = false) (t : Scanner) :
    NextsNB (next t) (scanToken E t).1 ∨
      (isLetter E t.ch = false ∧ isDigit E t.ch = false ∧
        handled t.ch = false ∧ ¬ t.ch = bom) := by
  apply scanToken_cases E t (fun r => NextsNB (next t) r.1 ∨
      (isLetter E t.ch = false ∧ isDigit E t.ch = false ∧
        handled t.ch = false ∧ ¬ t.ch = bom))
  case hLetter => intro h; exact Or.inl (scanIdentifier_nextsNB_of_letter E hL hD t h)
  case hDigit => intro _ h; exact Or.inl (scanNumber_nextsNB_of_digit E hD t h)
  case hSingle => intros; exact Or.inl (NextsNB.refl _)
  case hAssign =>
    intro _ _ _ h
    exact Or.inl (NextsNB.step (NextsNB.refl _) (fun e => absurd (h.symm.trans e) (by decide)))
  case hColon => intros; exact Or.inl (NextsNB.refl _)
  case hDotNum => intros; exact Or.inl (scanNumber_nextsNB E hD _ true)
  case hDot => intros; exact Or.inl (NextsNB.refl _)
  case hLss => intros; exact Or.inl (switch3_nextsNB _ _ _ _)
  case hGtr => intros; exact Or.inl (switch2_nextsNB _ _ _)
  case hBom => intros; exact Or.inl (NextsNB.refl _)
  case hIllegal => intro h1 h2 h3 h4; exact Or.inr ⟨h1, h2, h3, h4⟩

theorem Scan_at (E : Env) (hL : E.unicodeIsLetter bom = false)
    (hD : E.unicodeIsDigit bom = false) (pre post : List Piece) (s : Scanner)
    (hc : ∀ x ∈ post, x.clean = true) (h : At pre post s) :
    ∃ ws tk post', post = ws ++ (tk ++ post') ∧ At (pre ++ ws ++ tk) post' (Scan E s).1 ∧
      (∀ x ∈ ws, x.isMark = false) ∧ (Scan E s).2.pos = (pieces (pre ++ ws)).length ∧
      ((tk = [] ∧ post' = []) ∨ ∃ p rest, tk = p :: rest ∧ (∀ x ∈ rest, x.isMark = false) ∧
        (p.isMark = true → (Scan E s).2 = ⟨(pieces (pre ++ ws)).length, ILLEGAL, []⟩)) := by
  obtain ⟨ws, post1, e1, hat, hws⟩ := (skipWhitespace_nextsNB s).at pre post hc h
  have hc1 : ∀ x ∈ post1, x.clean = true := fun x hx =>
    hc x (by rw [e1]; exact List.mem_append_right _ hx)
  have hsp := skipWhitespace_exits s
  have hpos : (Scan E s).2.pos = (pieces (pre ++ ws)).length := by
    rw [Scan_eq, scanToken_pos, hat.off_eq]
  cases post1 with
  | nil =>
    have hch : (skipWhitespace s).ch = -1 := hat.ch_eq
    refine ⟨ws, [], [], by simpa using e1, ?_, hws, hpos, Or.inl ⟨rfl, rfl⟩⟩
    rw [Scan_eq, scanToken_single E _ EOF (by rw [hch]; exact isLetter_eof E)
      (by rw [hch]; exact isDigit_eof E) (by rw [hch]; rfl)]
    simpa using next_at_nil _ _ hat
  | cons p post2 =>
    have hch : (skipWhitespace s).ch = p.rune := hat.ch_eq
    have hn := next_at (pre ++ ws) post2 p _ (fun x hx => hc1 x (List.mem_cons_of_mem _ hx)) hat
    rcases scanToken_shapeNB E hL hD (skipWhitespace s) with h' | h'
    · obtain ⟨mid, post', e2, hat', hmid⟩ := h'.at _ post2
        (fun x hx => hc1 x (List.mem_cons_of_mem _ hx)) hn
      refine ⟨ws, p :: mid, post', by rw [e1, e2]; simp, ?_, hws, hpos,
        Or.inr ⟨p, mid, rfl, hmid, ?_⟩⟩
      · rw [Scan_eq]
        simpa using hat'
      · intro hp
        cases p with
        | byte b => cases hp
        | mark =>
          rw [Scan_eq, scanToken_bom E _ (by rw [hch]; exact isLetter_bom E hL)
            (by rw [hch]; exact isDigit_bom E hD) hch, hat.off_eq]
    · exfalso
      obtain ⟨h1, h2, h3, h4⟩ := h'
      cases p with
      | byte b =>
        have hb : cleanByte b = true := hc1 _ (List.mem_cons_self _ _)
        rw [hch] at h1 h2 h3 hsp
        rcases cleanByte_cases E hb with c | c | c | c
        · cases (h1.symm.trans c : false = true)
        · cases (h2.symm.trans c : false = true)
        · cases (hsp.symm.trans c : false = true)
        · cases (h3.symm.trans c : false = true)
      | mark => exact h4 hch

theorem marksFrom_noMarks (o : Nat) (l : List Piece) (h : ∀ x ∈ l, x.isMark = false) :
    marksFrom o l = [] := by
  induction l generalizing o with
  | nil => rfl
  | cons p l ih =>
    cases p with
    | byte b => exact ih _ (fun x hx => h x (List.mem_cons_of_mem _ hx))
    | mark => exact absurd (h _ (List.mem_cons_self _ _)) (by decide)

theorem strayOffsets_noMarks (pre ws : List Piece) (h : ∀ x ∈ ws, x.isMark = false) :
    strayOffsets (pre ++ ws) = strayOffsets pre := by
  cases pre with
  | nil =>
    cases ws with
    | nil => rfl
    | cons w ws => exact marksFrom_noMarks _ _ (fun x hx => h x (List.mem_cons_of_mem _ hx))
  | cons p pre =>
    show marksFrom _ (pre ++ ws) = marksFrom _ pre
    rw [marksFrom_append, marksFrom_noMarks _ ws h, List.append_nil]

theorem strayOffsets_token (l rest : List Piece) (p : Piece)
    (hr : ∀ x ∈ rest, x.isMark = false) (hf : l = [] → p.isMark = false) :
    strayOffsets (l ++ p :: rest) =
      strayOffsets l ++ (if p.isMark = true then [(pieces l).length] else []) := by
  cases l with
  | nil =>
    rw [hf rfl]
    exact marksFrom_noMarks _ _ hr
  | cons q l =>
    rw [show (q :: l) ++ p :: rest = ((q :: l) ++ [p]) ++ rest by simp,
      strayOffsets_noMarks _ _ hr, strayOffsets_snoc _ _ (by simp)]

theorem bomAt_pieces (pre post : List Piece) (hc : ∀ x ∈ post, x.clean = true) :
    bomAt (pieces (pre ++ post)) (pieces pre).length = (post.head?.map Piece.isMark).getD false := by
  unfold bomAt
  rw [pieces_append, List.drop_left]
  cases post with
  | nil => rfl
  | cons p post =>
    cases p with
    | mark => rfl
    | byte b =>
      have hb := cleanByte_lt (hc _ (List.mem_cons_self _ _))
      show (List.take 3 (b :: pieces post) == utf8bom) = false
      rw [Bool.eq_false_iff]
      intro e
      have e' := eq_of_beq e
      rw [List.take_succ_cons] at e'
      have := (List.cons.inj e').1
      omega

theorem Init_at (ps : List Piece) (err : Bool) (hc : ∀ x ∈ ps, x.clean = true) :
    ∃ pre post, ps = pre ++ post ∧ At pre post (Init (pieces ps) err) ∧
      strayOffsets pre = [] ∧ (pre = [] → (post.head?.map Piece.isMark).getD false = false) := by
  cases ps with
  | nil => exact ⟨[], [], rfl, ⟨rfl, rfl, rfl, rfl, rfl⟩, rfl, fun _ => rfl⟩
  | cons p ps =>
    have hc' : ∀ x ∈ ps, x.clean = true := fun x hx => hc x (List.mem_cons_of_mem _ hx)
    cases p with
    | mark =>
      refine ⟨[Piece.mark], ps, rfl, ?_, rfl, fun e => by cases e⟩
      show At _ _ (Init (utf8bom ++ pieces ps) err)
      rw [Init_bom]
      exact next_at [] ps Piece.mark _ hc' ⟨rfl, rfl, rfl, rfl, rfl⟩
    | byte b =>
      have hb : cleanByte b = true := hc _ (List.mem_cons_self _ _)
      have hlt := cleanByte_lt hb
      refine ⟨[], Piece.byte b :: ps, rfl, ?_, rfl, fun _ => rfl⟩
      have hsrc : pieces (Piece.byte b :: ps) = b :: pieces ps := rfl
      rw [hsrc, Init_noBom _ _ (by
        intro h
        obtain ⟨t, ht⟩ := h
        have := (List.cons.inj ht).1
        omega)]
      rw [next_eq _ (by simp)]
      have hr := readRune_byte [] (pieces ps) b hb
      simp only [List.nil_append, List.length_nil] at hr
      dsimp only
      rw [hr]
      exact ⟨rfl, rfl, rfl, rfl, rfl⟩

theorem scanResults_succ (E : Env) (n : Nat) (s : Scanner) :
    scanResults E (n + 1) s = scanResults E n s ++ [(Scan E (scanState E n s)).2] := by
  rw [scanResults_add]
  rfl

theorem At.post_nil {pre post : List Piece} {s : Scanner} (h : At pre post s)
    (hc : s.ch = -1) : post = [] := by
  cases post with
  | nil => rfl
  | cons p post =>
    have e : s.ch = p.rune := h.ch_eq
    rw [hc] at e
    cases p with
    | byte b =>
      have e' : (-1 : Int) = (b : Int) := e
      omega
    | mark => exact absurd e (by decide)

/-- The scanner after `n` calls stands between two parts of the buffer, and the
results that sit on a byte-order mark are the stray marks read so far. -/
theorem scan_accounting (E : Env) (hL : E.unicodeIsLetter bom = false)
    (hD : E.unicodeIsDigit bom = false) (ps : List Piece) (err : Bool)
    (hc : ∀ x ∈ ps, x.clean = true) (n : Nat) :
    ∃ pre post, ps = pre ++ post ∧ At pre post (scanState E n (Init (pieces ps) err)) ∧
      (pre = [] → (post.head?.map Piece.isMark).getD false = false) ∧
      (scanResults E n (Init (pieces ps) err)).filter (fun r => bomAt (pieces ps) r.pos) =
        (strayOffsets pre).map (fun o => ⟨o, ILLEGAL, []⟩) := by
  induction n with
  | zero =>
    obtain ⟨pre, post, e, hat, hs, hf⟩ := Init_at ps err hc
    exact ⟨pre, post, e, hat, hf, by rw [hs]; rfl⟩
  | succ n ih =>
    obtain ⟨pre, post, e, hat, hf, hr⟩ := ih
    have hcp : ∀ x ∈ post, x.clean = true := fun x hx =>
      hc x (by rw [e]; exact List.mem_append_right _ hx)
    obtain ⟨ws, tk, post', e', hat', hws, hpos, hcase⟩ := Scan_at E hL hD pre post _ hcp hat
    rw [scanState_succ, scanResults_succ, List.filter_append, hr]
    have hsrc : ps = (pre ++ ws) ++ (tk ++ post') := by rw [e, e']; simp
    have hctk : ∀ x ∈ tk ++ post', x.clean = true := fun x hx =>
      hcp x (by rw [e']; exact List.mem_append_right _ hx)
    have hb := bomAt_pieces (pre ++ ws) (tk ++ post') hctk
    rw [← hsrc] at hb
    refine ⟨pre ++ ws ++ tk, post', by rw [hsrc]; simp, hat', ?_, ?_⟩
    · intro e0
      rcases hcase with ⟨_, h2⟩ | ⟨p, rest, h1, _⟩
      · rw [h2]; rfl
      · rw [h1] at e0; simp at e0
    · rcases hcase with ⟨h1, h2⟩ | ⟨p, rest, h1, hrest, hp⟩
      · rw [h1, h2] at hb
        rw [h1, List.append_nil, strayOffsets_noMarks _ _ hws]
        simp only [List.filter_cons, List.filter_nil, hpos, hb]
        simp
      · rw [h1] at hb
        have hb' : bomAt (pieces ps) (pieces (pre ++ ws)).length = p.isMark := hb
        have hfront : pre ++ ws = [] → p.isMark = false := by
          intro e0
          have e1 : pre = [] := (List.append_eq_nil.mp e0).1
          have e2 : ws = [] := (List.append_eq_nil.mp e0).2
          have := hf e1
          rw [e', e2, h1] at this
          exact this
        rw [h1, strayOffsets_token _ _ _ hrest hfront, strayOffsets_noMarks _ _ hws,
          List.map_append]
        congr 1
        simp only [List.filter_cons, List.filter_nil, hpos, hb']
        by_cases hm : p.isMark = true
        · rw [if_pos hm, if_pos hm, hp hm]
          rfl
        · rw [if_neg hm, if_neg hm]
          rfl

theorem bomAt_inside (l1 l2 : List Nat) :
    bomAt (l1 ++ (utf8bom ++ l2)) (l1.length + 1) = false ∧
      bomAt (l1 ++ (utf8bom ++ l2)) (l1.length + 2) = false := by
  unfold bomAt
  rw [List.drop_append, List.drop_append]
  constructor
  · show (List.take 3 (187 :: 191 :: l2) == utf8bom) = false
    rw [Bool.eq_false_iff]
    intro e
    have e' := eq_of_beq e
    rw [List.take_succ_cons] at e'
    exact absurd (List.cons.inj e').1 (by decide)
  · show (List.take 3 (191 :: l2) == utf8bom) = false
    rw [Bool.eq_false_iff]
    intro e
    have e' := eq_of_beq e
    rw [List.take_succ_cons] at e'
    exact absurd (List.cons.inj e').1 (by decide)

theorem marksFrom_eq_filter (pre post : List Piece) (hc : ∀ x ∈ post, x.clean = true) :
    (List.range' (pieces pre).length (pieces post).length).filter
        (fun o => bomAt (pieces (pre ++ post)) o) =
      marksFrom (pieces pre).length post := by
  induction post generalizing pre with
  | nil => rfl
  | cons p post ih =>
    have hc' : ∀ x ∈ post, x.clean = true := fun x hx => hc x (List.mem_cons_of_mem _ hx)
    have h0 := bomAt_pieces pre (p :: post) hc
    have hi := ih (pre ++ [p]) hc'
    rw [show pre ++ [p] ++ post = pre ++ p :: post by simp] at hi
    cases p with
    | byte b =>
      have hl : (pieces (pre ++ [Piece.byte b])).length = (pieces pre).length + 1 := by
        rw [pieces_append]; simp [pieces, Piece.bytes]
      rw [hl] at hi
      show List.filter _ (List.range' _ ((pieces post).length + 1)) = marksFrom _ post
      rw [List.range'_succ, List.filter_cons, h0]
      exact hi
    | mark =>
      have hl : (pieces (pre ++ [Piece.mark])).length = (pieces pre).length + 3 := by
        rw [pieces_append]; simp [pieces, Piece.bytes, utf8bom]
      rw [hl] at hi
      have hin := bomAt_inside (pieces pre) (pieces post)
      have hsrc : pieces (pre ++ Piece.mark :: post) = pieces pre ++ (utf8bom ++ pieces post) := by
        rw [pieces_append]; rfl
      rw [← hsrc] at hin
      show List.filter _ (List.range' _ ((pieces post).length + 3)) =
        (pieces pre).length :: marksFrom _ post
      rw [List.range'_succ, List.range'_succ, List.range'_succ, List.filter_cons, h0,
        List.filter_cons, hin.1, List.filter_cons, hin.2]
      show (pieces pre).length :: List.filter (fun o => bomAt (pieces (pre ++ Piece.mark :: post)) o)
        (List.range' ((pieces pre).length + 3) (pieces post).length) = _
      exact congrArg _ hi

/-- The stray marks of a buffer of pieces are the offsets greater than 0 at
which the bytes `EF BB BF` stand. -/
theorem strayOffsets_eq_filter (ps : List Piece) (hc : ∀ x ∈ ps, x.clean = true) :
    strayOffsets ps =
      (List.range (pieces ps).length).filter (fun o => decide (0 < o) && bomAt (pieces ps) o) := by
  cases ps with
  | nil => rfl
  | cons p ps =>
    have hc' : ∀ x ∈ ps, x.clean = true := fun x hx => hc x (List.mem_cons_of_mem _ hx)
    have hm := marksFrom_eq_filter [p] ps hc'
    have hpos : ∀ s n, 0 < s → (List.range' s n).filter
        (fun o => decide (0 < o) && bomAt (pieces (p :: ps)) o) =
        (List.range' s n).filter (fun o => bomAt (pieces ([p] ++ ps)) o) := by
      intro s n hs
      apply List.filter_congr
      intro o ho
      have := (List.mem_range'_1.mp ho).1
      have h0 : decide (0 < o) = true := decide_eq_true (by omega)
      rw [h0]
      rfl
    rw [List.range_eq_range']
    cases p with
    | byte b =>
      show marksFrom 1 ps = List.filter _ (List.range' 0 ((pieces ps).length + 1))
      rw [List.range'_succ, List.filter_cons]
      rw [show (decide (0 < 0) && bomAt (pieces (Piece.byte b :: ps)) 0) = false from rfl]
      rw [if_neg (by simp), hpos _ _ (by omega)]
      exact hm.symm
    | mark =>
      have hin := bomAt_inside [] (pieces ps)
      show marksFrom 3 ps = List.filter _ (List.range' 0 ((pieces ps).length + 3))
      rw [List.range'_succ, List.range'_succ, List.range'_succ, List.filter_cons]
      rw [show (decide (0 < 0) && bomAt (pieces (Piece.mark :: ps)) 0) = false from rfl]
      rw [if_neg (by simp), List.filter_cons,
        show bomAt (pieces (Piece.mark :: ps)) (0 + 1) = false from hin.1]
      rw [Bool.and_false, if_neg (by simp), List.filter_cons,
        show bomAt (pieces (Piece.mark :: ps)) (0 + 1 + 1) = false from hin.2]
      rw [Bool.and_false, if_neg (by simp), hpos _ _ (by omega)]
      exact hm.symm

/-- C9. A stray byte-order mark costs exactly one error. Let the buffer be made
of the bytes of C5 and of byte-order marks `EF BB BF` (the list `ps` of its
pieces), and let U+FEFF be neither a letter nor a digit. `Init` and
`len(src) + k` calls of `Scan` reach the end of input; `ErrorCount` is then the
number of offsets greater than 0 at which the bytes `EF BB BF` stand, and the
results whose position holds these bytes are, in order, one `(o, ILLEGAL, "")`
for each such offset `o`. -/
theorem stray_bom_one_error (E : Env) (hL : E.unicodeIsLetter bom = false)
    (hD : E.unicodeIsDigit bom = false) (ps : List Piece) (err : Bool) (k : Nat)
    (hc : ∀ p ∈ ps, p.clean = true) :
    (scanState E ((pieces ps).length + k) (Init (pieces ps) err)).ch = -1 ∧
    (scanState E ((pieces ps).length + k) (Init (pieces ps) err)).ErrorCount =
      ((List.range (pieces ps).length).filter
        (fun o => decide (0 < o) && bomAt (pieces ps) o)).length ∧
    (scanResults E ((pieces ps).length + k) (Init (pieces ps) err)).filter
        (fun r => bomAt (pieces ps) r.pos) =
      ((List.range (pieces ps).length).filter
        (fun o => decide (0 < o) && bomAt (pieces ps) o)).map (fun o => ⟨o, ILLEGAL, []⟩) := by
  obtain ⟨pre, post, e, hat, _, hr⟩ :=
    scan_accounting E hL hD ps err hc ((pieces ps).length + k)
  have heof := scanState_eof E k (Init (pieces ps) err) (Init_inv _ _)
  rw [Init_src] at heof
  have hp := hat.post_nil heof
  rw [hp, List.append_nil] at e
  rw [← e] at hr
  rw [← strayOffsets_eq_filter ps hc]
  refine ⟨heof, ?_, hr⟩
  rw [hat.cnt_eq, hp, e]
  simp

theorem stray_bom_one_error_witness :
    (∀ p ∈ [Piece.byte 97, Piece.mark, Piece.byte 98], p.clean = true) ∧
    (scanState env0 ((pieces [Piece.byte 97, Piece.mark, Piece.byte 98]).length + 0)
      (Init (pieces [Piece.byte 97, Piece.mark, Piece.byte 98]) true)).ErrorCount = 1 ∧
    (scanResults env0 ((pieces [Piece.byte 97, Piece.mark, Piece.byte 98]).length + 0)
      (Init (pieces [Piece.byte 97, Piece.mark, Piece.byte 98]) true)).filter
        (fun r => bomAt (pieces [Piece.byte 97, Piece.mark, Piece.byte 98]) r.pos) =
      [⟨1, ILLEGAL, []⟩] :=
  ⟨by decide, (stray_bom_one_error env0 rfl rfl [Piece.byte 97, Piece.mark, Piece.byte 98]
    true 0 (by decide)).2⟩

theorem tokens_length : (tokens.length : Int) = 39 := rfl

theorem String_fallback (n : Token) (h : ¬ (0 ≤ n ∧ n < 39) ∨ tokens.getD n.toNat [] = []) :
    Token.String n = ascii "token(" ++ Itoa n ++ ascii ")" := by
  unfold Token.String
  dsimp only
  rw [tokens_length]
  by_cases hr : 0 ≤ n ∧ n < 39
  · rw [if_pos hr]
    rcases h with h | h
    · exact absurd hr h
    · rw [if_pos h]
  · rw [if_neg hr, if_pos rfl]

theorem String_entry (n : Token) (h0 : 0 ≤ n) (h1 : n < 39)
    (h : tokens.getD n.toNat [] ≠ []) : Token.String n = tokens.getD n.toNat [] := by
  unfold Token.String
  dsimp only
  rw [tokens_length, if_pos (show 0 ≤ n ∧ n < 39 from ⟨h0, h1⟩), if_neg h]

theorem tokens_entry (n : Token) (h0 : 0 ≤ n) (h1 : n < 39) (h3 : n ≠ literal_beg)
    (h7 : n ≠ literal_end) (h8 : n ≠ operator_beg) : tokens.getD n.toNat [] ≠ [] := by
  delta Token at n
  interval_cases n <;> first | decide | exact absurd rfl h3 | exact absurd rfl h7 | exact absurd rfl h8

/-- C15. `String` never fails and falls back on the numeric value: for every
integer `n`, `String(n)` is not empty; for a declared kind with a table entry
(every `n` with `0 <= n < 39` other than the band markers `literal_beg`,
`literal_end` and `operator_beg`) it is that non-empty entry, so
`String(ADD) = "+"` and `String(IDENT) = "IDENT"`; and for `n` negative, at or
beyond the end of the table (`operator_end` included) or a band marker without
an entry it is `"token(" + Itoa(n) + ")"`. -/
theorem String_never_fails (n : Token) :
    Token.String n ≠ [] ∧
    (0 ≤ n ∧ n < 39 ∧ n ≠ literal_beg ∧ n ≠ literal_end ∧ n ≠ operator_beg →
      Token.String n = tokens.getD n.toNat [] ∧ tokens.getD n.toNat [] ≠ []) ∧
    (n < 0 ∨ (tokens.length : Int) ≤ n ∨ n = literal_beg ∨ n = literal_end ∨ n = operator_beg →
      Token.String n = ascii "token(" ++ Itoa n ++ ascii ")") ∧
    Token.String ADD = ascii "+" ∧ Token.String IDENT = ascii "IDENT" ∧
    Token.String operator_end = ascii "token(39)" ∧ Token.String (-1) = ascii "token(-1)" := by
  refine ⟨?_, ?_, ?_, by decide, by decide, by decide, by decide⟩
  · by_cases h : ¬ (0 ≤ n ∧ n < 39) ∨ tokens.getD n.toNat [] = []
    · rw [String_fallback n h]
      intro e
      cases e
    · have h' := not_or.mp h
      have hr := not_not.mp h'.1
      rw [String_entry n hr.1 hr.2 h'.2]
      exact h'.2
  · intro ⟨h0, h1, h3, h7, h8⟩
    have he := tokens_entry n h0 h1 h3 h7 h8
    exact ⟨String_entry n h0 h1 he, he⟩
  · intro h
    apply String_fallback
    rw [tokens_length] at h
    rcases h with h | h | h | h | h
    · left; intro hc; delta Token at *; omega
    · left; intro hc; delta Token at *; omega
    · right; rw [h]; rfl
    · right; rw [h]; rfl
    · right; rw [h]; rfl

theorem String_never_fails_witness :
    (0 ≤ COMMA ∧ COMMA < 39 ∧ COMMA ≠ literal_beg ∧ COMMA ≠ literal_end ∧
      COMMA ≠ operator_beg) ∧ Token.String COMMA = ascii "," ∧
    Token.String literal_beg = ascii "token(3)" :=
  ⟨by decide, ((String_never_fails COMMA).2.1 (by decide)).1,
    (String_never_fails literal_beg).2.2.1 (Or.inr (Or.inr (Or.inl rfl)))⟩

theorem Precedence_declared (U : Undeclared) (k : Token)
    (hk : k ∉ [U.LOR, U.LAND, U.XOR, U.REM, U.SHL, U.SHR, U.AND_NOT]) :
    Token.Precedence U k =
      if k ∈ [EQL, NEQ, LSS, LEQ, GTR, GEQ] then 3
      else if k ∈ [ADD, SUB, OR] then 4
      else if k ∈ [MUL, QUO, AND] then 5
      else LowestPrec := by
  simp only [List.mem_cons, List.mem_singleton, List.not_mem_nil, or_false, not_or] at hk
  obtain ⟨h1, h2, h3, h4, h5, h6, h7⟩ := hk
  unfold Token.Precedence
  rw [if_neg (by simpa using h1), if_neg (by simpa using h2)]
  by_cases c3 : k ∈ [EQL, NEQ, LSS, LEQ, GTR, GEQ]
  · rw [if_pos c3, if_pos c3]
  rw [if_neg c3, if_neg c3]
  by_cases c4 : k ∈ [ADD, SUB, OR]
  · rw [if_pos c4, if_pos]
    simp only [List.mem_cons, List.mem_singleton, List.not_mem_nil, or_false] at c4 ⊢
    tauto
  rw [if_neg c4, if_neg]
  · by_cases c5 : k ∈ [MUL, QUO, AND]
    · rw [if_pos c5, if_pos]
      simp only [List.mem_cons, List.mem_singleton, List.not_mem_nil, or_false] at c5 ⊢
      tauto
    · rw [if_neg c5, if_neg]
      simp only [List.mem_cons, List.mem_singleton, List.not_mem_nil, or_false] at c5 ⊢
      tauto
  · simp only [List.mem_cons, List.mem_singleton, List.not_mem_nil, or_false] at c4 ⊢
    tauto
theorem Precedence_eq3 (U : Undeclared) (c : Token) (h1 : c ≠ U.LOR) (h2 : c ≠ U.LAND)
    (hc : c ∈ [EQL, NEQ, LSS, LEQ, GTR, GEQ]) : Token.Precedence U c = 3 := by
  unfold Token.Precedence
  rw [if_neg (by simpa using h1), if_neg (by simpa using h2), if_pos hc]

theorem Precedence_eq4 (U : Undeclared) (a : Token) (h1 : a ≠ U.LOR) (h2 : a ≠ U.LAND)
    (ha : a ∈ [ADD, SUB, OR]) : Token.Precedence U a = 4 := by
  have h3 : a ∉ [EQL, NEQ, LSS, LEQ, GTR, GEQ] := by
    simp only [List.mem_cons, List.mem_singleton, List.not_mem_nil, or_false] at ha
    rcases ha with rfl | rfl | rfl <;> decide
  have h4 : a ∈ [ADD, SUB, OR, U.XOR] := by
    simp only [List.mem_cons, List.mem_singleton, List.not_mem_nil, or_false] at ha ⊢
    tauto
  unfold Token.Precedence
  rw [if_neg (by simpa using h1), if_neg (by simpa using h2), if_neg h3, if_pos h4]

theorem Precedence_eq5 (U : Undeclared) (m : Token) (h1 : m ≠ U.LOR) (h2 : m ≠ U.LAND)
    (hx : m ≠ U.XOR) (hm : m ∈ [MUL, QUO, AND]) : Token.Precedence U m = 5 := by
  have h3 : m ∉ [EQL, NEQ, LSS, LEQ, GTR, GEQ] := by
    simp only [List.mem_cons, List.mem_singleton, List.not_mem_nil, or_false] at hm
    rcases hm with rfl | rfl | rfl <;> decide
  have h4 : m ∉ [ADD, SUB, OR, U.XOR] := by
    have h4' : m ∉ [ADD, SUB, OR] := by
      simp only [List.mem_cons, List.mem_singleton, List.not_mem_nil, or_false] at hm
      rcases hm with rfl | rfl | rfl <;> decide
    simp only [List.mem_cons, List.mem_singleton, List.not_mem_nil, or_false] at h4' ⊢
    tauto
  have h5 : m ∈ [MUL, QUO, U.REM, U.SHL, U.SHR, AND, U.AND_NOT] := by
    simp only [List.mem_cons, List.mem_singleton, List.not_mem_nil, or_false] at hm ⊢
    tauto
  unfold Token.Precedence
  rw [if_neg (by simpa using h1), if_neg (by simpa using h2), if_neg h3, if_neg h4, if_pos h5]

theorem Precedence_bounds (U : Undeclared) (k : Token) :
    LowestPrec ≤ Token.Precedence U k ∧ Token.Precedence U k < UnaryPrec := by
  unfold Token.Precedence
  split_ifs <;> decide

/-- Whatever the undeclared kinds are, `OR` and `AND` do not have the lowest precedence. -/
theorem Precedence_OR_AND (U : Undeclared) :
    Token.Precedence U OR ≠ LowestPrec ∧ Token.Precedence U AND ≠ LowestPrec := by
  have hor : OR ∈ [ADD, SUB, OR, U.XOR] := by simp
  have hand : AND ∈ [MUL, QUO, U.REM, U.SHL, U.SHR, AND, U.AND_NOT] := by simp
  constructor
  · unfold Token.Precedence
    rw [if_neg (show OR ∉ [EQL, NEQ, LSS, LEQ, GTR, GEQ] by decide), if_pos hor]
    split_ifs <;> decide
  · unfold Token.Precedence
    rw [if_neg (show AND ∉ [EQL, NEQ, LSS, LEQ, GTR, GEQ] by decide)]
    rw [if_pos hand]
    split_ifs <;> decide

theorem caseConstants_ne (U : Undeclared) (hU : (caseConstants U).Nodup)
    (i j : Nat) (hi : i < 19) (hj : j < 19) (hij : i ≠ j) :
    (caseConstants U).getD i 0 ≠ (caseConstants U).getD j 0 := by
  have li : i < (caseConstants U).length := hi
  have lj : j < (caseConstants U).length := hj
  rw [List.getD_eq_getElem _ _ li, List.getD_eq_getElem _ _ lj]
  intro e
  exact hij ((List.Nodup.getElem_inj_iff hU).mp e)

/-- The claim of C16 fails at the keyword kinds `OR` and `AND`: their
precedence is 4 and 5, not `LowestPrec`. -/
theorem Precedence_keyword_counterexample :
    Token.Precedence undeclared0 OR = 4 ∧ Token.Precedence undeclared0 AND = 5 ∧
      ¬ (Token.Precedence undeclared0 OR = LowestPrec) ∧
      ¬ (Token.Precedence undeclared0 AND = LowestPrec) := by
  decide

/-- C16, amended. Precedence table: for every kind `k` that is not one of the
undeclared constants of the `switch`, `Precedence(k)` is 3 if `k` is one of
`EQL, NEQ, LSS, LEQ, GTR, GEQ`, is 4 if `k` is `ADD`, `SUB` or `OR`, is 5 if
`k` is `MUL`, `QUO` or `AND`, and is `LowestPrec` (0) for every other kind. -/
theorem Precedence_table (U : Undeclared) (k : Token)
    (hk : k ∉ [U.LOR, U.LAND, U.XOR, U.REM, U.SHL, U.SHR, U.AND_NOT]) :
    (k ∈ [EQL, NEQ, LSS, LEQ, GTR, GEQ] → Token.Precedence U k = 3) ∧
    (k ∈ [ADD, SUB, OR] → Token.Precedence U k = 4) ∧
    (k ∈ [MUL, QUO, AND] → Token.Precedence U k = 5) ∧
    (k ∉ [EQL, NEQ, LSS, LEQ, GTR, GEQ, ADD, SUB, OR, MUL, QUO, AND] →
      Token.Precedence U k = LowestPrec) ∧ LowestPrec = 0 := by
  have hk' := hk
  simp only [List.mem_cons, List.mem_singleton, List.not_mem_nil, or_false, not_or] at hk'
  obtain ⟨h1, h2, h3, _⟩ := hk'
  refine ⟨Precedence_eq3 U k h1 h2, Precedence_eq4 U k h1 h2, Precedence_eq5 U k h1 h2 h3, ?_, rfl⟩
  intro h
  rw [Precedence_declared U k hk]
  simp only [List.mem_cons, List.mem_singleton, List.not_mem_nil, or_false, not_or] at h
  obtain ⟨a1, a2, a3, a4, a5, a6, a7, a8, a9, a10, a11, a12⟩ := h
  rw [if_neg, if_neg, if_neg]
  · simp only [List.mem_cons, List.mem_singleton, List.not_mem_nil, or_false]; tauto
  · simp only [List.mem_cons, List.mem_singleton, List.not_mem_nil, or_false]; tauto
  · simp only [List.mem_cons, List.mem_singleton, List.not_mem_nil, or_false]; tauto

theorem Precedence_table_witness :
    OR ∉ [undeclared0.LOR, undeclared0.LAND, undeclared0.XOR, undeclared0.REM, undeclared0.SHL,
      undeclared0.SHR, undeclared0.AND_NOT] ∧
    Token.Precedence undeclared0 OR = 4 ∧ Token.Precedence undeclared0 IF = LowestPrec :=
  ⟨by decide, (Precedence_table undeclared0 OR (by decide)).2.1 (by decide),
    (Precedence_table undeclared0 IF (by decide)).2.2.2.1 (by decide)⟩

/-- C17. Precedence ordering: when the constants of the `case` clauses are
pairwise different, as Go requires of a `switch`, then for every comparison
kind `c`, additive kind `a` and multiplicative kind `m`,
`LowestPrec < Precedence(c) < Precedence(a) < Precedence(m) < UnaryPrec < HighestPrec`;
and for every kind `k` whatsoever, whatever the undeclared constants are,
`LowestPrec <= Precedence(k) < UnaryPrec`. -/
theorem Precedence_ordering (U : Undeclared) (c a m : Token)
    (hc : c ∈ [EQL, NEQ, LSS, LEQ, GTR, GEQ]) (ha : a ∈ [ADD, SUB]) (hm : m ∈ [MUL, QUO]) :
    ((caseConstants U).Nodup →
      LowestPrec < Token.Precedence U c ∧ Token.Precedence U c < Token.Precedence U a ∧
      Token.Precedence U a < Token.Precedence U m ∧ Token.Precedence U m < UnaryPrec ∧
      UnaryPrec < HighestPrec) ∧
    ∀ k, LowestPrec ≤ Token.Precedence U k ∧ Token.Precedence U k < UnaryPrec := by
  refine ⟨?_, Precedence_bounds U⟩
  intro hU
  have ne := caseConstants_ne U hU
  have e3 : Token.Precedence U c = 3 := by
    have hc' := hc
    simp only [List.mem_cons, List.mem_singleton, List.not_mem_nil, or_false] at hc'
    rcases hc' with rfl | rfl | rfl | rfl | rfl | rfl
    · exact Precedence_eq3 U _ (ne 2 0 (by decide) (by decide) (by decide))
        (ne 2 1 (by decide) (by decide) (by decide)) hc
    · exact Precedence_eq3 U _ (ne 3 0 (by decide) (by decide) (by decide))
        (ne 3 1 (by decide) (by decide) (by decide)) hc
    · exact Precedence_eq3 U _ (ne 4 0 (by decide) (by decide) (by decide))
        (ne 4 1 (by decide) (by decide) (by decide)) hc
    · exact Precedence_eq3 U _ (ne 5 0 (by decide) (by decide) (by decide))
        (ne 5 1 (by decide) (by decide) (by decide)) hc
    · exact Precedence_eq3 U _ (ne 6 0 (by decide) (by decide) (by decide))
        (ne 6 1 (by decide) (by decide) (by decide)) hc
    · exact Precedence_eq3 U _ (ne 7 0 (by decide) (by decide) (by decide))
        (ne 7 1 (by decide) (by decide) (by decide)) hc
  have e4 : Token.Precedence U a = 4 := by
    simp only [List.mem_cons, List.mem_singleton, List.not_mem_nil, or_false] at ha
    rcases ha with rfl | rfl
    · exact Precedence_eq4 U _ (ne 8 0 (by decide) (by decide) (by decide))
        (ne 8 1 (by decide) (by decide) (by decide)) (by simp)
    · exact Precedence_eq4 U _ (ne 9 0 (by decide) (by decide) (by decide))
        (ne 9 1 (by decide) (by decide) (by decide)) (by simp)
  have e5 : Token.Precedence U m = 5 := by
    simp only [List.mem_cons, List.mem_singleton, List.not_mem_nil, or_false] at hm
    rcases hm with rfl | rfl
    · exact Precedence_eq5 U _ (ne 12 0 (by decide) (by decide) (by decide))
        (ne 12 1 (by decide) (by decide) (by decide))
        (ne 12 11 (by decide) (by decide) (by decide)) (by simp)
    · exact Precedence_eq5 U _ (ne 13 0 (by decide) (by decide) (by decide))
        (ne 13 1 (by decide) (by decide) (by decide))
        (ne 13 11 (by decide) (by decide) (by decide)) (by simp)
  rw [e3, e4, e5]
  decide

theorem Precedence_ordering_witness :
    (EQL ∈ [EQL, NEQ, LSS, LEQ, GTR, GEQ] ∧ ADD ∈ [ADD, SUB] ∧ MUL ∈ [MUL, QUO] ∧
      (caseConstants undeclared0).Nodup) ∧
    Token.Precedence undeclared0 EQL < Token.Precedence undeclared0 ADD ∧
    Token.Precedence undeclared0 ADD < Token.Precedence undeclared0 MUL :=
  ⟨by decide, ((Precedence_ordering undeclared0 EQL ADD MUL (by decide) (by decide)
    (by decide)).1 (by decide)).2.1,
    ((Precedence_ordering undeclared0 EQL ADD MUL (by decide) (by decide)
    (by decide)).1 (by decide)).2.2.1⟩

theorem IsLiteral_iff (k : Token) : Token.IsLiteral k = true ↔ 3 < k ∧ k < 7 := by
  unfold Token.IsLiteral
  rw [Bool.and_eq_true, decide_eq_true_eq, decide_eq_true_eq]
  rfl

theorem IsOperator_iff (k : Token) : Token.IsOperator k = true ↔ 8 < k ∧ k < 39 := by
  unfold Token.IsOperator
  rw [Bool.and_eq_true, decide_eq_true_eq, decide_eq_true_eq]
  rfl

/-- C18. Band predicates: for every kind `k`, `IsLiteral(k)` holds exactly when
`k` is `IDENT`, `INT` or `FLOAT`, and `IsOperator(k)` holds exactly when `k` is
one of the kinds declared from `ADD` through `COLON`; no kind satisfies both;
and `ILLEGAL`, `EOF`, `COMMENT`, the band markers and every value outside the
declared range satisfy neither. -/
theorem band_predicates (k : Token) :
    (Token.IsLiteral k = true ↔ k = IDENT ∨ k = INT ∨ k = FLOAT) ∧
    (Token.IsOperator k = true ↔
      k ∈ [ADD, SUB, MUL, QUO, AND, OR, NOT, EQL, LSS, GTR, ASSIGN, NEQ, LEQ, GEQ,
        XABOVE, GOINGUP, TURNSUP, WHEN, XBELOW, GOINGDOWN, TURNSDOWN, IF,
        LPAREN, LBRACK, COMMA, PERIOD, RPAREN, RBRACK, SEMICOLON, COLON]) ∧
    ¬ (Token.IsLiteral k = true ∧ Token.IsOperator k = true) ∧
    (k = ILLEGAL ∨ k = EOF ∨ k = COMMENT ∨ k = literal_beg ∨ k = literal_end ∨
      k = operator_beg ∨ k = operator_end ∨ k < ILLEGAL ∨ operator_end < k →
      Token.IsLiteral k = false ∧ Token.IsOperator k = false) := by
  have hl := IsLiteral_iff k
  have ho := IsOperator_iff k
  refine ⟨?_, ?_, ?_, ?_⟩
  · rw [hl]
    simp only [IDENT, INT, FLOAT]
    delta Token at *
    omega
  · rw [ho]
    constructor
    · intro ⟨h1, h2⟩
      delta Token at *
      interval_cases k <;> decide
    · intro h
      fin_cases h <;> decide
  · rw [hl, ho]
    delta Token at *
    omega
  · intro h
    rw [← Bool.not_eq_true, ← Bool.not_eq_true, hl, ho]
    simp only [ILLEGAL, EOF, COMMENT, literal_beg, literal_end, operator_beg, operator_end] at h
    delta Token at *
    omega

theorem band_predicates_witness :
    operator_end < (40 : Token) ∧
    Token.IsLiteral 40 = false ∧ Token.IsOperator 40 = false :=
  ⟨by decide, (band_predicates 40).2.2.2 (by decide)⟩

theorem keywordsFrom_entry (i n : Nat) (m : List (GoString × Token)) (e : GoString × Token)
    (h : e ∈ keywordsFrom i n m) :
    e ∈ m ∨ ∃ j, i ≤ j ∧ j < i + n ∧ e = (tokens.getD j [], (j : Int)) := by
  induction n generalizing i m with
  | zero => exact Or.inl h
  | succ n ih =>
    rw [keywordsFrom] at h
    rcases ih _ _ h with h' | ⟨j, h1, h2, h3⟩
    · rcases List.mem_cons.mp h' with h'' | h''
      · exact Or.inr ⟨i, le_refl _, by omega, h''⟩
      · exact Or.inl h''
    · exact Or.inr ⟨j, by omega, by omega, h3⟩

theorem keywordsFrom_mono (i n : Nat) (m : List (GoString × Token)) (e : GoString × Token)
    (h : e ∈ m) : e ∈ keywordsFrom i n m := by
  induction n generalizing i m with
  | zero => exact h
  | succ n ih =>
    rw [keywordsFrom]
    exact ih _ _ (List.mem_cons_of_mem _ h)

theorem keywordsFrom_has (i n : Nat) (m : List (GoString × Token)) (j : Nat)
    (h1 : i ≤ j) (h2 : j < i + n) : (tokens.getD j [], (j : Int)) ∈ keywordsFrom i n m := by
  induction n generalizing i m with
  | zero => omega
  | succ n ih =>
    rw [keywordsFrom]
    by_cases e : i = j
    · rw [e]
      exact keywordsFrom_mono _ _ _ _ (List.mem_cons_self _ _)
    · exact ih _ _ (by omega) (by omega)

theorem tokens_band_nodup : (tokens.drop 9).Nodup := by decide

theorem tokens_inj (i j : Nat) (hi : 9 ≤ i) (hi' : i < 39) (hj : 9 ≤ j) (hj' : j < 39)
    (h : tokens.getD i [] = tokens.getD j []) : i = j := by
  have li : i - 9 < (tokens.drop 9).length := by
    have : (tokens.drop 9).length = 30 := rfl
    omega
  have lj : j - 9 < (tokens.drop 9).length := by
    have : (tokens.drop 9).length = 30 := rfl
    omega
  have ei : tokens.getD i [] = (tokens.drop 9)[i - 9] := by
    rw [List.getElem_drop, List.getD_eq_getElem _ _ (show i < tokens.length from hi')]
    congr 1
    omega
  have ej : tokens.getD j [] = (tokens.drop 9)[j - 9] := by
    rw [List.getElem_drop, List.getD_eq_getElem _ _ (show j < tokens.length from hj')]
    congr 1
    omega
  rw [ei, ej] at h
  have := (List.Nodup.getElem_inj_iff tokens_band_nodup).mp h
  omega

theorem mapGet_some {m : List (GoString × Token)} {x : GoString} {tok : Token}
    (h : mapGet m x = some tok) : (x, tok) ∈ m := by
  unfold mapGet at h
  cases hf : m.find? (fun e => e.1 == x) with
  | none => rw [hf] at h; cases h
  | some e =>
    rw [hf] at h
    have h1 : e.2 = tok := Option.some.inj h
    have h2 : e.1 = x :=
      eq_of_beq (@List.find?_some _ (fun e : GoString × Token => e.1 == x) e m hf)
    have h3 := List.mem_of_find?_eq_some hf
    rw [← h1, ← h2]
    exact h3

theorem keywords_entry (E : Env) (e : GoString × Token) (h : e ∈ keywords E) :
    ∃ j, E.keyword_beg < j ∧ j < E.keyword_end ∧ e = (tokens.getD j [], (j : Int)) := by
  rcases keywordsFrom_entry _ _ _ _ h with h' | ⟨j, h1, h2, h3⟩
  · cases h'
  · exact ⟨j, by omega, by omega, h3⟩

theorem String_band (E : Env) (j : Nat) (h1 : E.keyword_beg < j) (h2 : j < E.keyword_end) :
    Token.String (j : Int) = tokens.getD j [] := by
  have hb := E.beg_ge
  have he := E.end_le
  have a0 : (0 : Int) ≤ (j : Int) := by omega
  have a1 : (j : Int) < 39 := by omega
  have a3 : (j : Int) ≠ 3 := by omega
  have a7 : (j : Int) ≠ 7 := by omega
  have a8 : (j : Int) ≠ 8 := by omega
  have e := String_entry (j : Int) a0 a1 (tokens_entry (j : Int) a0 a1 a3 a7 a8)
  simpa using e

/-- `Lookup` of the spelling of a kind inside the keyword band is that kind. -/
theorem Lookup_keyword (E : Env) (j : Nat) (h1 : E.keyword_beg < j) (h2 : j < E.keyword_end) :
    Lookup E (tokens.getD j []) = (j : Int) := by
  have hb := E.beg_ge
  have he := E.end_le
  have hm : (tokens.getD j [], (j : Int)) ∈ keywords E :=
    keywordsFrom_has _ _ _ j (by omega) (by omega)
  unfold Lookup
  cases hg : mapGet (keywords E) (tokens.getD j []) with
  | none =>
    exfalso
    unfold mapGet at hg
    cases hf : (keywords E).find? (fun e => e.1 == tokens.getD j []) with
    | none =>
      have := List.find?_eq_none.mp hf _ hm
      simp at this
    | some e => rw [hf] at hg; cases hg
  | some tok =>
    show tok = (j : Int)
    obtain ⟨i, i1, i2, i3⟩ := keywords_entry E _ (mapGet_some hg)
    have e1 : tokens.getD j [] = tokens.getD i [] := congrArg Prod.fst i3
    have e2 : tok = (i : Int) := congrArg Prod.snd i3
    have := tokens_inj j i (by omega) (by omega) (by omega) (by omega) e1
    rw [e2, this]

/-- `Lookup` answers `IDENT` or the kind of the keyword band spelt by its argument. -/
theorem Lookup_spelling (E : Env) (s : GoString) :
    Lookup E s = IDENT ∨ ((E.keyword_beg : Int) < Lookup E s ∧
      Lookup E s < (E.keyword_end : Int) ∧ Token.String (Lookup E s) = s) := by
  unfold Lookup
  cases hg : mapGet (keywords E) s with
  | none => exact Or.inl rfl
  | some tok =>
    right
    show (E.keyword_beg : Int) < tok ∧ tok < (E.keyword_end : Int) ∧ Token.String tok = s
    obtain ⟨i, i1, i2, i3⟩ := keywords_entry E _ (mapGet_some hg)
    have e1 : s = tokens.getD i [] := congrArg Prod.fst i3
    have e2 : tok = (i : Int) := congrArg Prod.snd i3
    rw [e2, String_band E i i1 i2, e1]
    exact ⟨by exact_mod_cast i1, by exact_mod_cast i2, rfl⟩

theorem tokens_no_lowercase :
    tokens.all (fun t => t.all (fun c => !(decide (97 ≤ c) && decide (c ≤ 122)))) = true := by
  decide

theorem Lookup_lowercase (E : Env) (s : GoString) (h : ∃ c ∈ s, 97 ≤ c ∧ c ≤ 122) :
    Lookup E s = IDENT := by
  have hb := E.beg_ge
  have he := E.end_le
  unfold Lookup
  cases hg : mapGet (keywords E) s with
  | none => rfl
  | some tok =>
    exfalso
    obtain ⟨i, i1, i2, i3⟩ := keywords_entry E _ (mapGet_some hg)
    have e1 : s = tokens.getD i [] := congrArg Prod.fst i3
    obtain ⟨c, hc, c1, c2⟩ := h
    have hi : i < tokens.length := by
      have : tokens.length = 39 := rfl
      omega
    have hmem : s ∈ tokens := by
      rw [e1, List.getD_eq_getElem _ _ hi]
      exact List.getElem_mem hi
    have h1 := List.all_eq_true.mp tokens_no_lowercase s hmem
    have h2 := List.all_eq_true.mp h1 c hc
    simp at h2
    omega

/-- No choice of the keyword bounds makes the two halves of C11 true together
for the eleven keyword kinds: bounds that enclose `NOT` and `XABOVE` enclose
`EQL`, and then `Lookup("=")` is `EQL`. -/
theorem Lookup_claim_fails (E : Env) :
    ¬ ((∀ s, Lookup E s = IDENT ∨
        (Lookup E s ∈ keywordKinds ∧ Token.String (Lookup E s) = s)) ∧
      (∀ k ∈ keywordKinds, Lookup E (Token.String k) = k)) := by
  intro ⟨h1, h2⟩
  have a : Lookup E (tokens.getD 15 []) = NOT := h2 NOT (by decide)
  have b : Lookup E (tokens.getD 23 []) = XABOVE := h2 XABOVE (by decide)
  have j1 : E.keyword_beg < 16 := by
    rcases Lookup_range E (tokens.getD 15 []) with c | c
    · rw [a] at c; exact absurd c (by decide)
    · rw [a] at c
      have : (E.keyword_beg : Int) < (15 : Int) := c.1
      omega
  have j2 : 16 < E.keyword_end := by
    rcases Lookup_range E (tokens.getD 23 []) with c | c
    · rw [b] at c; exact absurd c (by decide)
    · rw [b] at c
      have : (23 : Int) < (E.keyword_end : Int) := c.2
      omega
  have e : Lookup E (tokens.getD 16 []) = EQL := Lookup_keyword E 16 j1 j2
  rcases h1 (tokens.getD 16 []) with c | c
  · rw [e] at c; exact absurd c (by decide)
  · rw [e] at c; exact absurd c.1 (by decide)

/-- The claim of C11 fails at the string `"="`: with the bounds around
`AND`..`IF`, for which `Lookup(String(k)) = k` holds for the eleven keyword
kinds, `Lookup("=")` is `EQL`, which is neither `IDENT` nor a keyword kind. -/
theorem Lookup_operator_counterexample :
    Lookup env0 (ascii "=") = EQL ∧
    ¬ (Lookup env0 (ascii "=") = IDENT ∨
      (Lookup env0 (ascii "=") ∈ keywordKinds ∧
        Token.String (Lookup env0 (ascii "=")) = ascii "=")) ∧
    (∀ k ∈ keywordKinds, Lookup env0 (Token.String k) = k) := by
  have e : Lookup env0 (ascii "=") = EQL := Lookup_keyword env0 16 (by decide) (by decide)
  refine ⟨e, ?_, ?_⟩
  · rw [e]
    decide
  · intro k hk
    unfold keywordKinds at hk
    fin_cases hk
    · exact Lookup_keyword env0 13 (by decide) (by decide)
    · exact Lookup_keyword env0 14 (by decide) (by decide)
    · exact Lookup_keyword env0 15 (by decide) (by decide)
    · exact Lookup_keyword env0 23 (by decide) (by decide)
    · exact Lookup_keyword env0 24 (by decide) (by decide)
    · exact Lookup_keyword env0 25 (by decide) (by decide)
    · exact Lookup_keyword env0 26 (by decide) (by decide)
    · exact Lookup_keyword env0 27 (by decide) (by decide)
    · exact Lookup_keyword env0 28 (by decide) (by decide)
    · exact Lookup_keyword env0 29 (by decide) (by decide)
    · exact Lookup_keyword env0 30 (by decide) (by decide)

/-- C11, amended. `Lookup` is total, exact and case-sensitive. For every
string `s`, `Lookup(s)` is `IDENT` or a kind `k` strictly between the bounds
`keyword_beg` and `keyword_end` with `String(k) = s`: with the bounds just
around `AND`..`IF`, one of the eleven keyword kinds or one of the operator
kinds `EQL, LSS, GTR, ASSIGN, NEQ, LEQ, GEQ`, which are numbered between `NOT`
and `XABOVE`. Conversely `Lookup(String(k)) = k` for every kind `k` between
the bounds, hence for each of `AND, OR, NOT, XABOVE, GOINGUP, TURNSUP, WHEN,
XBELOW, GOINGDOWN, TURNSDOWN, IF`, and for these seven operator kinds, once
the bounds enclose them; and a string with a lower-case letter, such as
`"if"` or `"And"`, maps to `IDENT`. -/
theorem Lookup_total_exact (E : Env) :
    (∀ s, Lookup E s = IDENT ∨ ((E.keyword_beg : Int) < Lookup E s ∧
      Lookup E s < (E.keyword_end : Int) ∧ Token.String (Lookup E s) = s)) ∧
    (∀ k : Token, (E.keyword_beg : Int) < k → k < (E.keyword_end : Int) →
      Lookup E (Token.String k) = k) ∧
    (E.keyword_beg < 13 → 30 < E.keyword_end →
      ∀ k ∈ [AND, OR, NOT, XABOVE, GOINGUP, TURNSUP, WHEN, XBELOW, GOINGDOWN, TURNSDOWN, IF],
        Lookup E (Token.String k) = k) ∧
    (∀ s, (∃ c ∈ s, 97 ≤ c ∧ c ≤ 122) → Lookup E s = IDENT) ∧
    Lookup E (ascii "if") = IDENT ∧ Lookup E (ascii "And") = IDENT ∧
    (E.keyword_beg < 13 → 30 < E.keyword_end →
      ∀ k ∈ [EQL, LSS, GTR, ASSIGN, NEQ, LEQ, GEQ], Lookup E (Token.String k) = k) ∧
    (E.keyword_beg = 12 → E.keyword_end = 31 →
      ∀ s, Lookup E s = IDENT ∨
        (Lookup E s ∈ keywordKinds ++ [EQL, LSS, GTR, ASSIGN, NEQ, LEQ, GEQ] ∧
          Token.String (Lookup E s) = s)) := by
  have hband : ∀ k : Token, (E.keyword_beg : Int) < k → k < (E.keyword_end : Int) →
      Lookup E (Token.String k) = k := by
    intro k h1 h2
    delta Token at *
    have hk : k = ((k.toNat : Nat) : Int) := by omega
    have j1 : E.keyword_beg < k.toNat := by omega
    have j2 : k.toNat < E.keyword_end := by omega
    rw [hk, String_band E _ j1 j2]
    exact Lookup_keyword E _ j1 j2
  refine ⟨Lookup_spelling E, hband, ?_, Lookup_lowercase E, ?_, ?_, ?_, ?_⟩
  · intro h1 h2 k hk
    have hr : (13 : Int) ≤ (k : Int) ∧ (k : Int) ≤ (30 : Int) := by
      fin_cases hk <;> decide
    apply hband k
    · obtain ⟨r1, r2⟩ := hr; clear hk hband; delta Token at *; omega
    · obtain ⟨r1, r2⟩ := hr; clear hk hband; delta Token at *; omega
  · exact Lookup_lowercase E _ ⟨105, by decide, by decide, by decide⟩
  · exact Lookup_lowercase E _ ⟨110, by decide, by decide, by decide⟩
  · intro h1 h2 k hk
    have hr : (13 : Int) ≤ (k : Int) ∧ (k : Int) ≤ (30 : Int) := by
      fin_cases hk <;> decide
    apply hband k
    · obtain ⟨r1, r2⟩ := hr; clear hk hband; delta Token at *; omega
    · obtain ⟨r1, r2⟩ := hr; clear hk hband; delta Token at *; omega
  · intro h1 h2 s
    rcases Lookup_spelling E s with c | ⟨c1, c2, c3⟩
    · exact Or.inl c
    · right
      refine ⟨?_, c3⟩
      have r1 : (12 : Int) < Lookup E s := by rw [h1] at c1; exact c1
      have r2 : Lookup E s < (31 : Int) := by rw [h2] at c2; exact c2
      clear c1 c2 c3 hband
      generalize Lookup E s = z at r1 r2 ⊢
      delta Token at z
      interval_cases z <;> decide

theorem Lookup_total_exact_witness :
    (env0.keyword_beg < 13 ∧ 30 < env0.keyword_end ∧
      IF ∈ [AND, OR, NOT, XABOVE, GOINGUP, TURNSUP, WHEN, XBELOW, GOINGDOWN, TURNSDOWN, IF]) ∧
    Lookup env0 (Token.String IF) = IF :=
  ⟨by decide, (Lookup_total_exact env0).2.2.1 (by decide) (by decide) IF (by decide)⟩

theorem scanIdentifier_nexts (E : Env) (s : Scanner) : Nexts s (scanIdentifier E s).1 :=
  whileNext_nexts _ _ _

/-- What the cursor invariant gives at one state: the offsets are ordered, the
sentinel marks the end of input, and no helper moves the offset back or takes
a slice that leaves the buffer. -/
theorem Inv.cursor (E : Env) {u : Scanner} (h : Inv u) :
    u.offset ≤ u.rdOffset ∧ u.rdOffset ≤ u.src.length ∧
    (u.ch = -1 ↔ u.offset = u.src.length) ∧
    u.offset ≤ (next u).offset ∧ u.offset ≤ (skipWhitespace u).offset ∧
    u.offset ≤ (Scan E u).1.offset ∧
    (u.offset ≤ (scanIdentifier E u).1.offset ∧
      (scanIdentifier E u).1.offset ≤ u.src.length) ∧
    (∀ b, u.offset ≤ (scanNumber E u b).1.offset ∧
      (scanNumber E u b).1.offset ≤ u.src.length) ∧
    (¬ u.ch = -1 → 1 ≤ (next u).offset ∧
      (next u).offset - 1 ≤ (scanNumber E (next u) true).1.offset ∧
      (scanNumber E (next u) true).1.offset ≤ u.src.length) ∧
    (∀ a b, u.offset ≤ (switch2 u a b).1.offset) ∧
    (∀ a b c, u.offset ≤ (switch3 u a b c).1.offset) ∧
    (u.rdOffset < u.src.length ∨ next u = { u with offset := u.src.length, ch := -1 }) := by
  have h1 := h.off_le
  have h2 := h.rd_le
  have hn := next_offset u h2
  have hni := next_inv u h2
  refine ⟨h1, h2, ?_, by omega, skipWhitespace_offset u h, ?_, ?_, ?_, ?_, ?_, ?_, ?_⟩
  · constructor
    · intro e; exact (h.eof e).1
    · intro e
      by_contra hc
      have := h.live hc
      omega
  · have := Scan_offset_le E u h; omega
  · have hx := scanIdentifier_nexts E u
    have := (hx.inv h).offset_le_length
    rw [hx.src] at this
    exact ⟨hx.offset_le h, this⟩
  · intro b
    have hx := scanNumber_nexts E u b
    have := (hx.inv h).offset_le_length
    rw [hx.src] at this
    exact ⟨hx.offset_le h, this⟩
  · intro hc
    have hl := h.live hc
    have hx := scanNumber_nexts E (next u) true
    have h3 := (hx.inv hni).offset_le_length
    rw [hx.src, next_src] at h3
    have h4 := hx.offset_le hni
    exact ⟨by omega, by omega, h3⟩
  · intro a b; exact (switch2_nexts u a b).offset_le h
  · intro a b c; exact (switch3_nexts u a b c).offset_le h
  · by_cases hr : u.rdOffset < u.src.length
    · exact Or.inl hr
    · exact Or.inr (next_eof u hr)

/-- C19. Cursor invariant. Let `u` be a state reached from `Init` by any number
of `Scan` calls followed by any number of calls of `next` (so also a state
inside a call of `Scan`). Then `offset <= rdOffset <= len(src)`; `ch` is the
sentinel `-1` exactly when `offset = len(src)`; `next`, `skipWhitespace`,
`Scan`, `scanIdentifier`, `scanNumber`, `switch2` and `switch3` do not
decrease `offset`; the slices `src[offs:offset]` of `scanIdentifier` and
`scanNumber` have `offs <= offset <= len(src)`, also with `offs = offset - 1`
after a leading `.`, where `offset >= 1`; and `next` indexes `src[rdOffset]`
only when `rdOffset < len(src)`. -/
theorem cursor_invariant (E : Env) (src : List Nat) (err : Bool) (n : Nat) (u : Scanner)
    (hu : Nexts (scanState E n (Init src err)) u) :
    u.src = src ∧ u.offset ≤ u.rdOffset ∧ u.rdOffset ≤ u.src.length ∧
    (u.ch = -1 ↔ u.offset = u.src.length) ∧
    u.offset ≤ (next u).offset ∧ u.offset ≤ (skipWhitespace u).offset ∧
    u.offset ≤ (Scan E u).1.offset ∧
    (u.offset ≤ (scanIdentifier E u).1.offset ∧
      (scanIdentifier E u).1.offset ≤ u.src.length) ∧
    (∀ b, u.offset ≤ (scanNumber E u b).1.offset ∧
      (scanNumber E u b).1.offset ≤ u.src.length) ∧
    (¬ u.ch = -1 → 1 ≤ (next u).offset ∧
      (next u).offset - 1 ≤ (scanNumber E (next u) true).1.offset ∧
      (scanNumber E (next u) true).1.offset ≤ u.src.length) ∧
    (∀ a b, u.offset ≤ (switch2 u a b).1.offset) ∧
    (∀ a b c, u.offset ≤ (switch3 u a b c).1.offset) ∧
    (u.rdOffset < u.src.length ∨ next u = { u with offset := u.src.length, ch := -1 }) := by
  have hi : Inv u := hu.inv (scanState_inv E n _ (Init_inv src err))
  have hs : u.src = src := by rw [hu.src, scanState_src, Init_src]
  exact ⟨hs, hi.cursor E⟩

theorem cursor_invariant_witness :
    Nexts (scanState env0 1 (Init (ascii "a .5") false))
      (next (scanState env0 1 (Init (ascii "a .5") false))) ∧
    ((next (scanState env0 1 (Init (ascii "a .5") false))).ch = -1 ↔
      (next (scanState env0 1 (Init (ascii "a .5") false))).offset =
        (next (scanState env0 1 (Init (ascii "a .5") false))).src.length) :=
  ⟨Nexts.step (Nexts.refl _),
    (cursor_invariant env0 (ascii "a .5") false 1 _ (Nexts.step (Nexts.refl _))).2.2.2.1⟩

theorem DecodeRune_ge (p : List Nat) : 128 ≤ (DecodeRune p).1 := by
  unfold DecodeRune
  rcases p with _ | ⟨p0, t⟩
  · simp [RuneError]
  · rcases t with _ | ⟨b1, t⟩
    · simp only []; split_ifs <;> simp [RuneError]
    · rcases t with _ | ⟨b2, t⟩
      · simp only []; split_ifs <;> simp [RuneError] <;> omega
      · rcases t with _ | ⟨b3, t⟩
        · simp only []; split_ifs <;> simp [RuneError] <;> omega
        · simp only []; split_ifs <;> simp [RuneError] <;> omega

theorem DecodeRune_bytes (p0 : Nat) (t : List Nat) (hp : 128 ≤ p0) :
    ∀ x ∈ (p0 :: t).take (DecodeRune (p0 :: t)).2, 128 ≤ x := by
  unfold DecodeRune
  rcases t with _ | ⟨b1, t⟩
  · simp only []; split_ifs <;> simp <;> omega
  · rcases t with _ | ⟨b2, t⟩
    · simp only []; split_ifs <;> simp <;> omega
    · rcases t with _ | ⟨b3, t⟩
      · simp only []; split_ifs <;> simp <;> omega
      · simp only []; split_ifs <;> simp <;> omega
theorem slice_eq_take_drop (src : List Nat) (lo w : Nat) :
    slice src lo (lo + w) = (src.drop lo).take w := by
  unfold slice
  rw [List.drop_take]
  congr 1
  omega

theorem slice_append (src : List Nat) (a b c : Nat) (h1 : a ≤ b) (h2 : b ≤ c) :
    slice src a b ++ slice src b c = slice src a c := by
  obtain ⟨w1, rfl⟩ := Nat.exists_eq_add_of_le h1
  obtain ⟨w2, rfl⟩ := Nat.exists_eq_add_of_le h2
  rw [slice_eq_take_drop, slice_eq_take_drop, Nat.add_assoc, slice_eq_take_drop,
    ← List.drop_drop, List.take_add]

theorem slice_self (src : List Nat) (a : Nat) : slice src a a = [] := by
  have := slice_eq_take_drop src a 0
  simpa using this

theorem slice_length (src : List Nat) (a b : Nat) (h1 : a ≤ b) (h2 : b ≤ src.length) :
    (slice src a b).length = b - a := by
  unfold slice
  simp
  omega

theorem drop_eq_getD_cons (src : List Nat) (rd : Nat) (h : rd < src.length) :
    src.drop rd = src.getD rd 0 :: src.drop (rd + 1) := by
  rw [List.getD_eq_getElem _ _ h]
  exact List.drop_eq_getElem_cons h

theorem slice_one (src : List Nat) (rd : Nat) (h : rd < src.length) :
    slice src rd (rd + 1) = [src.getD rd 0] := by
  rw [slice_eq_take_drop, drop_eq_getD_cons src rd h]
  rfl

/-- What `next` decodes at a reading offset inside the buffer: an ASCII byte,
which is the rune and one byte wide, or a rune from 0x80 on, all of whose bytes
are from 0x80 on. -/
theorem readRune_cases (src : List Nat) (rd : Nat) (h : rd < src.length) :
    (src.getD rd 0 < 128 ∧ (readRune src rd).1 = ((src.getD rd 0 : Nat) : Int) ∧
      (readRune src rd).2.1 = 1) ∨
    (128 ≤ src.getD rd 0 ∧ 128 ≤ (readRune src rd).1 ∧
      ∀ x ∈ slice src rd (rd + (readRune src rd).2.1), 128 ≤ x) := by
  by_cases hb : src.getD rd 0 < 128
  · left
    refine ⟨hb, ?_, ?_⟩
    · unfold readRune
      dsimp only
      by_cases h0 : src.getD rd 0 = 0
      · rw [if_pos h0, h0]; rfl
      · rw [if_neg h0, if_neg (by omega)]
    · unfold readRune
      dsimp only
      by_cases h0 : src.getD rd 0 = 0
      · rw [if_pos h0]
      · rw [if_neg h0, if_neg (by omega)]
  · right
    have hb' : 128 ≤ src.getD rd 0 := by omega
    have e : readRune src rd = ((DecodeRune (src.drop rd)).1, (DecodeRune (src.drop rd)).2,
        (readRune src rd).2.2) := by
      unfold readRune
      dsimp only
      rw [if_neg (by omega), if_pos (by omega)]
    refine ⟨hb', ?_, ?_⟩
    · rw [e]; exact DecodeRune_ge _
    · rw [slice_eq_take_drop, e]
      dsimp only
      rw [drop_eq_getD_cons src rd h]
      exact DecodeRune_bytes _ _ hb'

theorem next_sync (s : Scanner) : Sync (next s) := by
  by_cases h : s.rdOffset < s.src.length
  · rw [next_eq s h]
    intro _
    exact ⟨by simpa using h, by simp, by simp⟩
  · rw [next_eof s h]
    intro hc
    exact absurd rfl hc

theorem error_sync (s : Scanner) (o : Nat) (m : Msg) (h : Sync s) : Sync (s.error o m) := h

theorem Nexts.sync {a b : Scanner} (h : Nexts a b) (ha : Sync a) : Sync b := by
  induction h with
  | refl => exact ha
  | step _ _ => exact next_sync _

theorem Init_sync (src : List Nat) (err : Bool) : Sync (Init src err) := by
  unfold Init
  dsimp only
  split_ifs
  · exact next_sync _
  · exact next_sync _

theorem scanToken_sync (E : Env) (t : Scanner) : Sync (scanToken E t).1 := by
  rcases scanToken_shape E t with h | h
  · exact h.sync (next_sync t)
  · rw [h.1]; exact error_sync _ _ _ (next_sync t)

theorem Scan_sync (E : Env) (s : Scanner) : Sync (Scan E s).1 := by
  rw [Scan_eq]; exact scanToken_sync E _

theorem scanState_sync (E : Env) (n : Nat) (s : Scanner) (h : Sync s) :
    Sync (scanState E n s) := by
  induction n generalizing s with
  | zero => exact h
  | succ n ih => exact ih _ (Scan_sync E s)

/-- The bytes of the current character: an ASCII character is its one byte, and
the bytes of any other character are all from 0x80 on. -/
theorem char_bytes (t : Scanner) (hs : Sync t) (hc : ¬ t.ch = -1) :
    (t.ch < 128 → 0 ≤ t.ch ∧ t.rdOffset = t.offset + 1 ∧
      slice t.src t.offset t.rdOffset = [t.ch.toNat]) ∧
    (128 ≤ t.ch → ∀ x ∈ slice t.src t.offset t.rdOffset, 128 ≤ x) := by
  obtain ⟨h1, h2, h3⟩ := hs hc
  rcases readRune_cases t.src t.offset h1 with ⟨a, b, c⟩ | ⟨a, b, c⟩
  · constructor
    · intro _
      rw [h3, c, slice_one _ _ h1, h2, b]
      exact ⟨by omega, rfl, by simp⟩
    · intro h; rw [h2, b] at h; omega
  · constructor
    · intro h; rw [h2] at h; omega
    · intro _
      rw [h3]
      exact c

theorem ascii_next_offset (t : Scanner) (hi : Inv t) (hs : Sync t) (h0 : 0 ≤ t.ch)
    (h1 : t.ch < 128) : (next t).offset = t.offset + 1 := by
  have hc : ¬ t.ch = -1 := by omega
  rw [next_offset t hi.rd_le]
  exact ((char_bytes t hs hc).1 h1).2.1

theorem ascii_next_slice (t : Scanner) (_hi : Inv t) (hs : Sync t) (h0 : 0 ≤ t.ch)
    (h1 : t.ch < 128) : slice t.src t.offset (t.offset + 1) = [t.ch.toNat] := by
  have hc : ¬ t.ch = -1 := by omega
  have h := (char_bytes t hs hc).1 h1
  rw [← h.2.1]
  exact h.2.2

theorem ascii_two_offset (t : Scanner) (hi : Inv t) (hs : Sync t) (h0 : 0 ≤ t.ch)
    (h1 : t.ch < 128) (h2 : 0 ≤ (next t).ch) (h3 : (next t).ch < 128) :
    (next (next t)).offset = t.offset + 2 := by
  rw [ascii_next_offset (next t) (next_inv t hi.rd_le) (next_sync t) h2 h3,
    ascii_next_offset t hi hs h0 h1]

theorem ascii_two_slice (t : Scanner) (hi : Inv t) (hs : Sync t) (h0 : 0 ≤ t.ch)
    (h1 : t.ch < 128) (h2 : 0 ≤ (next t).ch) (h3 : (next t).ch < 128) :
    slice t.src t.offset (t.offset + 2) = [t.ch.toNat, (next t).ch.toNat] := by
  have e1 := ascii_next_slice t hi hs h0 h1
  have e2 := ascii_next_slice (next t) (next_inv t hi.rd_le) (next_sync t) h2 h3
  rw [next_src, ascii_next_offset t hi hs h0 h1] at e2
  rw [← slice_append t.src t.offset (t.offset + 1) (t.offset + 2) (by omega) (by omega), e1, e2]
  rfl

theorem switch3_eq (s : Scanner) (a b c : Token) :
    (s.ch = 61 → switch3 s a b c = (next s, b)) ∧
    (s.ch = 62 → switch3 s a b c = (next s, c)) ∧
    (¬ s.ch = 61 → ¬ s.ch = 62 → switch3 s a b c = (s, a)) := by
  unfold switch3
  refine ⟨fun h => by rw [if_pos h], fun h => ?_, fun h h' => by rw [if_neg h, if_neg h']⟩
  rw [if_neg (fun e => absurd (e.symm.trans h) (by decide)), if_pos h]

theorem switch2_eq (s : Scanner) (a b : Token) :
    (s.ch = 61 → switch2 s a b = (next s, b)) ∧ (¬ s.ch = 61 → switch2 s a b = (s, a)) := by
  unfold switch2
  exact ⟨fun h => by rw [if_pos h], fun h => by rw [if_neg h]⟩

/-- The three multi-character operator cases of `Scan`, at a state that
satisfies the cursor invariants and stands on the character. -/
theorem scanToken_operators (E : Env) (t : Scanner) (hi : Inv t) (hs : Sync t) :
    (t.ch = 60 →
      ((next t).ch = 61 →
        (scanToken E t).2 = ⟨t.offset, LEQ, []⟩ ∧ (scanToken E t).1.offset = t.offset + 2) ∧
      ((next t).ch = 62 →
        (scanToken E t).2 = ⟨t.offset, NEQ, []⟩ ∧ (scanToken E t).1.offset = t.offset + 2) ∧
      (¬ (next t).ch = 61 → ¬ (next t).ch = 62 →
        (scanToken E t).2 = ⟨t.offset, LSS, []⟩ ∧ (scanToken E t).1.offset = t.offset + 1)) ∧
    (t.ch = 62 →
      ((next t).ch = 61 →
        (scanToken E t).2 = ⟨t.offset, GEQ, []⟩ ∧ (scanToken E t).1.offset = t.offset + 2) ∧
      (¬ (next t).ch = 61 →
        (scanToken E t).2 = ⟨t.offset, GTR, []⟩ ∧ (scanToken E t).1.offset = t.offset + 1)) ∧
    (t.ch = 58 →
      ((next t).ch = 61 →
        (scanToken E t).2 = ⟨t.offset, ASSIGN, []⟩ ∧ (scanToken E t).1.offset = t.offset + 2) ∧
      (¬ (next t).ch = 61 →
        (scanToken E t).2 = ⟨t.offset, ILLEGAL, []⟩ ∧
          (scanToken E t).1.offset = t.offset + 1)) := by
  have one : ∀ c : Int, t.ch = c → 0 ≤ c → c < 128 → (next t).offset = t.offset + 1 :=
    fun c e a b => ascii_next_offset t hi hs (by omega) (by omega)
  have two : ∀ c d : Int, t.ch = c → 0 ≤ c → c < 128 → (next t).ch = d → 0 ≤ d → d < 128 →
      (next (next t)).offset = t.offset + 2 :=
    fun c d e a b e' a' b' => ascii_two_offset t hi hs (by omega) (by omega) (by omega) (by omega)
  refine ⟨fun h => ?_, fun h => ?_, fun h => ?_⟩
  · have hl : isLetter E t.ch = false := by rw [h]; rfl
    have hd : isDigit E t.ch = false := by rw [h]; rfl
    rw [scanToken_lss E t hl hd h]
    refine ⟨fun h' => ?_, fun h' => ?_, fun h' h'' => ?_⟩
    · rw [(switch3_eq (next t) LSS LEQ NEQ).1 h']
      exact ⟨rfl, two 60 61 h (by decide) (by decide) h' (by decide) (by decide)⟩
    · rw [(switch3_eq (next t) LSS LEQ NEQ).2.1 h']
      exact ⟨rfl, two 60 62 h (by decide) (by decide) h' (by decide) (by decide)⟩
    · rw [(switch3_eq (next t) LSS LEQ NEQ).2.2 h' h'']
      exact ⟨rfl, one 60 h (by decide) (by decide)⟩
  · have hl : isLetter E t.ch = false := by rw [h]; rfl
    have hd : isDigit E t.ch = false := by rw [h]; rfl
    rw [scanToken_gtr E t hl hd h]
    refine ⟨fun h' => ?_, fun h' => ?_⟩
    · rw [(switch2_eq (next t) GTR GEQ).1 h']
      exact ⟨rfl, two 62 61 h (by decide) (by decide) h' (by decide) (by decide)⟩
    · rw [(switch2_eq (next t) GTR GEQ).2 h']
      exact ⟨rfl, one 62 h (by decide) (by decide)⟩
  · have hl : isLetter E t.ch = false := by rw [h]; rfl
    have hd : isDigit E t.ch = false := by rw [h]; rfl
    refine ⟨fun h' => ?_, fun h' => ?_⟩
    · rw [scanToken_assign E t hl hd h h']
      exact ⟨rfl, two 58 61 h (by decide) (by decide) h' (by decide) (by decide)⟩
    · rw [scanToken_colon E t hl hd h h']
      exact ⟨rfl, one 58 h (by decide) (by decide)⟩

theorem skipWhitespace_sync (s : Scanner) (h : Sync s) : Sync (skipWhitespace s) :=
  (skipWhitespace_nexts s).sync h

theorem scan_leq_neq_geq (E : Env) :
    scanResults E 4 (Init (ascii "<= <> >=") false) =
      [⟨0, LEQ, []⟩, ⟨3, NEQ, []⟩, ⟨6, GEQ, []⟩, ⟨8, EOF, []⟩] := by
  have h0 : Init (ascii "<= <> >=") false =
      ⟨[60, 61, 32, 60, 62, 32, 62, 61], false, [], 60, 0, 1, 0⟩ := rfl
  have h1 : Scan E ⟨[60, 61, 32, 60, 62, 32, 62, 61], false, [], 60, 0, 1, 0⟩ =
      (⟨[60, 61, 32, 60, 62, 32, 62, 61], false, [], 32, 2, 3, 0⟩, ⟨0, LEQ, []⟩) := rfl
  have h2 : Scan E ⟨[60, 61, 32, 60, 62, 32, 62, 61], false, [], 32, 2, 3, 0⟩ =
      (⟨[60, 61, 32, 60, 62, 32, 62, 61], false, [], 32, 5, 6, 0⟩, ⟨3, NEQ, []⟩) := rfl
  have h3 : Scan E ⟨[60, 61, 32, 60, 62, 32, 62, 61], false, [], 32, 5, 6, 0⟩ =
      (⟨[60, 61, 32, 60, 62, 32, 62, 61], false, [], -1, 8, 8, 0⟩, ⟨6, GEQ, []⟩) := rfl
  have h4 : Scan E ⟨[60, 61, 32, 60, 62, 32, 62, 61], false, [], -1, 8, 8, 0⟩ =
      (⟨[60, 61, 32, 60, 62, 32, 62, 61], false, [], -1, 8, 8, 0⟩, ⟨8, EOF, []⟩) := rfl
  rw [h0]
  simp only [scanResults, h1, h2, h3, h4]

theorem scan_assign (E : Env) :
    scanResults E 2 (Init (ascii ":=") false) = [⟨0, ASSIGN, []⟩, ⟨2, EOF, []⟩] := rfl

theorem scan_colon (E : Env) :
    scanResults E 2 (Init (ascii ":") false) = [⟨0, ILLEGAL, []⟩, ⟨1, EOF, []⟩] := rfl

/-- C13. Multi-character operator disambiguation. Let `t` be the state after
`Init`, any number of `Scan` calls and the skipping of white space, and let the
next character be the one `next` reads from `t`. If the current character is
`<`, `Scan` returns `LEQ` and consumes two bytes when the next character is
`=`, `NEQ` and two bytes when it is `>`, and otherwise `LSS` and one byte; for
`>` it returns `GEQ` (two bytes) when the next character is `=` and otherwise
`GTR` (one byte); for `:` it returns `ASSIGN` (two bytes) when the next
character is `=` and otherwise `ILLEGAL` (one byte). In particular
`"<= <> >="` scans as `LEQ, NEQ, GEQ, EOF`, `":="` as `ASSIGN, EOF` and `":"`
as `ILLEGAL, EOF`. -/
theorem operator_disambiguation (E : Env) (src : List Nat) (err : Bool) (n : Nat)
    (s t : Scanner) (hs : s = scanState E n (Init src err)) (ht : t = skipWhitespace s) :
    (t.ch = 60 →
      ((next t).ch = 61 →
        (Scan E s).2 = ⟨t.offset, LEQ, []⟩ ∧ (Scan E s).1.offset = t.offset + 2) ∧
      ((next t).ch = 62 →
        (Scan E s).2 = ⟨t.offset, NEQ, []⟩ ∧ (Scan E s).1.offset = t.offset + 2) ∧
      (¬ (next t).ch = 61 → ¬ (next t).ch = 62 →
        (Scan E s).2 = ⟨t.offset, LSS, []⟩ ∧ (Scan E s).1.offset = t.offset + 1)) ∧
    (t.ch = 62 →
      ((next t).ch = 61 →
        (Scan E s).2 = ⟨t.offset, GEQ, []⟩ ∧ (Scan E s).1.offset = t.offset + 2) ∧
      (¬ (next t).ch = 61 →
        (Scan E s).2 = ⟨t.offset, GTR, []⟩ ∧ (Scan E s).1.offset = t.offset + 1)) ∧
    (t.ch = 58 →
      ((next t).ch = 61 →
        (Scan E s).2 = ⟨t.offset, ASSIGN, []⟩ ∧ (Scan E s).1.offset = t.offset + 2) ∧
      (¬ (next t).ch = 61 →
        (Scan E s).2 = ⟨t.offset, ILLEGAL, []⟩ ∧ (Scan E s).1.offset = t.offset + 1)) ∧
    scanResults E 4 (Init (ascii "<= <> >=") false) =
      [⟨0, LEQ, []⟩, ⟨3, NEQ, []⟩, ⟨6, GEQ, []⟩, ⟨8, EOF, []⟩] ∧
    scanResults E 2 (Init (ascii ":=") false) = [⟨0, ASSIGN, []⟩, ⟨2, EOF, []⟩] ∧
    scanResults E 2 (Init (ascii ":") false) = [⟨0, ILLEGAL, []⟩, ⟨1, EOF, []⟩] := by
  have hi : Inv s := by rw [hs]; exact scanState_inv E n _ (Init_inv src err)
  have hy : Sync s := by rw [hs]; exact scanState_sync E n _ (Init_sync src err)
  have hit : Inv t := by rw [ht]; exact skipWhitespace_inv s hi
  have hyt : Sync t := by rw [ht]; exact skipWhitespace_sync s hy
  have h := scanToken_operators E t hit hyt
  rw [Scan_eq, ← ht]
  exact ⟨h.1, h.2.1, h.2.2, scan_leq_neq_geq E, scan_assign E, scan_colon E⟩

theorem operator_disambiguation_witness :
    (scanState env0 1 (Init (ascii "a <>") false) = scanState env0 1 (Init (ascii "a <>") false) ∧
      skipWhitespace (scanState env0 1 (Init (ascii "a <>") false)) =
        skipWhitespace (scanState env0 1 (Init (ascii "a <>") false)) ∧
      (skipWhitespace (scanState env0 1 (Init (ascii "a <>") false))).ch = 60 ∧
      (next (skipWhitespace (scanState env0 1 (Init (ascii "a <>") false)))).ch = 62) ∧
    (Scan env0 (scanState env0 1 (Init (ascii "a <>") false))).2 = ⟨2, NEQ, []⟩ ∧
    (Scan env0 (scanState env0 1 (Init (ascii "a <>") false))).1.offset = 4 :=
  ⟨⟨rfl, rfl, by decide, by decide⟩,
    ((operator_disambiguation env0 (ascii "a <>") false 1 _ _ rfl rfl).1 (by decide)).2.1
      (by decide)⟩

theorem whileNext_run (c : Int → Bool) (f : Nat) (s : Scanner) : Run c s (whileNext c f s) := by
  have key : ∀ (f : Nat) (a s : Scanner), Run c a s → Run c a (whileNext c f s) := by
    intro f
    induction f with
    | zero => intro a s h; exact h
    | succ f ih =>
      intro a s h
      by_cases hc : c s.ch = true
      · rw [whileNext_of_cond c f s hc]
        exact ih a (next s) (Run.step h hc)
      · rw [whileNext_of_not c _ s (by simpa using hc)]
        exact h
  exact key f s s (Run.refl s)

theorem Run.nexts {c : Int → Bool} {a b : Scanner} (h : Run c a b) : Nexts a b := by
  induction h with
  | refl => exact Nexts.refl _
  | step _ _ ih => exact Nexts.step ih

/-- The bytes that a run of characters satisfying `c` steps over: each is an
ASCII byte satisfying `c` or a byte from 0x80 on. -/
theorem Run.bytes {c : Int → Bool} {a b : Scanner} (h : Run c a b) (hi : Inv a) (hs : Sync a)
    (hneg : c (-1) = false) :
    ∀ x ∈ slice a.src a.offset b.offset, (x < 128 ∧ c (x : Int) = true) ∨ 128 ≤ x := by
  induction h with
  | refl => rw [slice_self]; intro x hx; cases hx
  | @step t hr hc ih =>
    have hn := hr.nexts
    have hit := hn.inv hi
    have hst := hn.sync hs
    have hne : ¬ t.ch = -1 := fun e => by rw [e, hneg] at hc; cases hc
    have h1 := hn.offset_le hi
    have h2 := hit.off_le
    rw [next_offset t hit.rd_le, ← slice_append a.src a.offset t.offset t.rdOffset h1 h2]
    intro x hx
    rcases List.mem_append.mp hx with hx | hx
    · exact ih x hx
    · rw [← hn.src] at hx
      have hb := char_bytes t hst hne
      by_cases hlt : t.ch < 128
      · obtain ⟨h0, _, e⟩ := hb.1 hlt
        rw [e] at hx
        have ex : x = t.ch.toNat := List.mem_singleton.mp hx
        left
        have e' : (x : Int) = t.ch := by omega
        exact ⟨by omega, by rw [e']; exact hc⟩
      · exact Or.inr (hb.2 (by omega) x hx)

theorem isDigit_ascii (E : Env) (x : Nat) (h : x < 128) (hd : isDigit E (x : Int) = true) :
    48 ≤ x ∧ x ≤ 57 := by
  unfold isDigit at hd
  simp only [Bool.or_eq_true, Bool.and_eq_true, decide_eq_true_eq, ge_iff_le] at hd
  omega

theorem identChar_eof (E : Env) : (isLetter E (-1) || isDigit E (-1)) = false := by
  rw [isLetter_eof, isDigit_eof]; rfl

/-- What `scanIdentifier` does at a state that stands on a letter. -/
theorem scanIdentifier_spec (E : Env) (t : Scanner) (hi : Inv t)
    (hl : isLetter E t.ch = true) :
    Run (fun c => isLetter E c || isDigit E c) t (scanIdentifier E t).1 ∧
    (isLetter E (scanIdentifier E t).1.ch || isDigit E (scanIdentifier E t).1.ch) = false ∧
    (scanIdentifier E t).2 = slice t.src t.offset (scanIdentifier E t).1.offset ∧
    t.offset < (scanIdentifier E t).1.offset ∧
    (scanIdentifier E t).1.offset ≤ t.src.length := by
  have e1 : (scanIdentifier E t).1 =
      whileNext (fun c => isLetter E c || isDigit E c) (t.src.length + 1) t := rfl
  have e2 : (scanIdentifier E t).2 =
      slice (scanIdentifier E t).1.src t.offset (scanIdentifier E t).1.offset := rfl
  have hn := scanIdentifier_nexts_of_letter E t hl
  have hne : t.ch ≠ -1 := fun e => by rw [e, isLetter_eof] at hl; cases hl
  have hni := next_inv t hi.rd_le
  have h1 := hn.offset_le hni
  have h2 := next_offset t hi.rd_le
  have h3 := hi.live hne
  have h4 := (hn.inv hni).offset_le_length
  rw [hn.src, next_src] at h4
  refine ⟨?_, ?_, ?_, by omega, h4⟩
  · rw [e1]; exact whileNext_run _ _ _
  · rw [e1]
    exact whileNext_exits (fun c => isLetter E c || isDigit E c) (identChar_eof E) _ t (by omega)
  · rw [e2, hn.src, next_src]

theorem slice_ne_nil (src : List Nat) (a b : Nat) (h1 : a < b) (h2 : b ≤ src.length) :
    slice src a b ≠ [] := by
  intro e
  have := slice_length src a b (by omega) h2
  rw [e] at this
  simp at this
  omega

theorem scan_if_variable (E : Env) (h1 : E.keyword_beg < 30) (h2 : 30 < E.keyword_end) :
    scanResults E 3 (Init (ascii "IF variable") false) =
      [⟨0, IF, ascii "IF"⟩, ⟨3, IDENT, ascii "variable"⟩, ⟨11, EOF, []⟩] := by
  have h0 : Init (ascii "IF variable") false =
      ⟨[73, 70, 32, 118, 97, 114, 105, 97, 98, 108, 101], false, [], 73, 0, 1, 0⟩ := rfl
  have s1 : Scan E ⟨[73, 70, 32, 118, 97, 114, 105, 97, 98, 108, 101], false, [], 73, 0, 1, 0⟩ =
      (⟨[73, 70, 32, 118, 97, 114, 105, 97, 98, 108, 101], false, [], 32, 2, 3, 0⟩,
        ⟨0, Lookup E [73, 70], [73, 70]⟩) := rfl
  have s2 : Scan E ⟨[73, 70, 32, 118, 97, 114, 105, 97, 98, 108, 101], false, [], 32, 2, 3, 0⟩ =
      (⟨[73, 70, 32, 118, 97, 114, 105, 97, 98, 108, 101], false, [], -1, 11, 11, 0⟩,
        ⟨3, Lookup E [118, 97, 114, 105, 97, 98, 108, 101],
          [118, 97, 114, 105, 97, 98, 108, 101]⟩) := rfl
  have s3 : Scan E ⟨[73, 70, 32, 118, 97, 114, 105, 97, 98, 108, 101], false, [], -1, 11, 11, 0⟩ =
      (⟨[73, 70, 32, 118, 97, 114, 105, 97, 98, 108, 101], false, [], -1, 11, 11, 0⟩,
        ⟨11, EOF, []⟩) := rfl
  have k1 : Lookup E [73, 70] = IF := Lookup_keyword E 30 h1 h2
  have k2 : Lookup E [118, 97, 114, 105, 97, 98, 108, 101] = IDENT :=
    Lookup_lowercase E _ ⟨118, by decide, by decide, by decide⟩
  rw [h0]
  simp only [scanResults, s1, s2, s3, k1, k2]
  rfl

/-- C14. Identifier scanning is maximal munch with keyword resolution. Let `t`
be the state after `Init`, any number of `Scan` calls and the skipping of white
space, standing on a letter or `_`. Then `Scan` returns the start offset of
`t`; the literal is `src[pos:offset]` up to the new offset and is not empty;
every character stepped over is a letter, `_` or a digit and the character
after the literal is none of these; and the kind is `Lookup(literal)`. In
particular `"IF variable"` scans as `IF`, `IDENT "variable"`, `EOF` when `IF`
lies between the keyword bounds. -/
theorem identifier_maximal_munch (E : Env) (src : List Nat) (err : Bool) (n : Nat)
    (s t : Scanner) (hs : s = scanState E n (Init src err)) (ht : t = skipWhitespace s)
    (hl : isLetter E t.ch = true) :
    (Scan E s).2.pos = t.offset ∧
    (Scan E s).2.lit = slice src t.offset (Scan E s).1.offset ∧
    (Scan E s).2.lit ≠ [] ∧
    Run (fun c => isLetter E c || isDigit E c) t (Scan E s).1 ∧
    (isLetter E (Scan E s).1.ch || isDigit E (Scan E s).1.ch) = false ∧
    (∀ x ∈ (Scan E s).2.lit,
      (x < 128 ∧ (isLetter E (x : Int) || isDigit E (x : Int)) = true) ∨ 128 ≤ x) ∧
    (Scan E s).2.tok = Lookup E (Scan E s).2.lit ∧
    (E.keyword_beg < 30 → 30 < E.keyword_end →
      scanResults E 3 (Init (ascii "IF variable") false) =
        [⟨0, IF, ascii "IF"⟩, ⟨3, IDENT, ascii "variable"⟩, ⟨11, EOF, []⟩]) := by
  have hi : Inv s := by rw [hs]; exact scanState_inv E n _ (Init_inv src err)
  have hy : Sync s := by rw [hs]; exact scanState_sync E n _ (Init_sync src err)
  have hit : Inv t := by rw [ht]; exact skipWhitespace_inv s hi
  have hyt : Sync t := by rw [ht]; exact skipWhitespace_sync s hy
  have hsrc : t.src = src := by rw [ht, skipWhitespace_src, hs, scanState_src, Init_src]
  obtain ⟨p1, p2, p3, p4, p5⟩ := scanIdentifier_spec E t hit hl
  have hb := p1.bytes hit hyt (identChar_eof E)
  rw [Scan_eq, ← ht, scanToken_letter E t hl]
  rw [hsrc] at p3 p5 hb
  refine ⟨rfl, p3, ?_, p1, p2, ?_, rfl, scan_if_variable E⟩
  · show (scanIdentifier E t).2 ≠ []
    rw [p3]
    exact slice_ne_nil _ _ _ p4 p5
  · show ∀ x ∈ (scanIdentifier E t).2, _
    rw [p3]
    exact hb

theorem identifier_maximal_munch_witness :
    (scanState env0 1 (Init (ascii "IF variable") false) =
        scanState env0 1 (Init (ascii "IF variable") false) ∧
      skipWhitespace (scanState env0 1 (Init (ascii "IF variable") false)) =
        skipWhitespace (scanState env0 1 (Init (ascii "IF variable") false)) ∧
      isLetter env0
        (skipWhitespace (scanState env0 1 (Init (ascii "IF variable") false))).ch = true) ∧
    (Scan env0 (scanState env0 1 (Init (ascii "IF variable") false))).2.pos =
      (skipWhitespace (scanState env0 1 (Init (ascii "IF variable") false))).offset :=
  ⟨⟨rfl, rfl, by decide⟩,
    (identifier_maximal_munch env0 (ascii "IF variable") false 1 _ _ rfl rfl (by decide)).1⟩

theorem scanNumber_dot (E : Env) (u : Scanner) (b : Bool)
    (h : (whileNext (isDigit E) (u.src.length + 1) u).ch = 46 ∧ b = false) :
    scanNumber E u b =
      (whileNext (isDigit E) ((next (whileNext (isDigit E) (u.src.length + 1) u)).src.length + 1)
          (next (whileNext (isDigit E) (u.src.length + 1) u)),
        FLOAT,
        slice (whileNext (isDigit E)
            ((next (whileNext (isDigit E) (u.src.length + 1) u)).src.length + 1)
            (next (whileNext (isDigit E) (u.src.length + 1) u))).src
          (if b then u.offset - 1 else u.offset)
          (whileNext (isDigit E)
            ((next (whileNext (isDigit E) (u.src.length + 1) u)).src.length + 1)
            (next (whileNext (isDigit E) (u.src.length + 1) u))).offset) := by
  unfold scanNumber
  dsimp only
  rw [if_pos h]

theorem scanNumber_nodot (E : Env) (u : Scanner) (b : Bool)
    (h : ¬ ((whileNext (isDigit E) (u.src.length + 1) u).ch = 46 ∧ b = false)) :
    scanNumber E u b =
      (whileNext (isDigit E) (u.src.length + 1) u,
        if b then FLOAT else INT,
        slice (whileNext (isDigit E) (u.src.length + 1) u).src
          (if b then u.offset - 1 else u.offset)
          (whileNext (isDigit E) (u.src.length + 1) u).offset) := by
  unfold scanNumber
  dsimp only
  rw [if_neg h]

theorem digits_no_dot (E : Env) (l : List Nat)
    (h : ∀ x ∈ l, (x < 128 ∧ isDigit E (x : Int) = true) ∨ 128 ≤ x) : 46 ∉ l := by
  intro hm
  rcases h 46 hm with ⟨h1, h2⟩ | h1
  · have := isDigit_ascii E 46 h1 h2
    omega
  · omega

/-- What `scanNumber` does at a state that satisfies the cursor invariants. -/
theorem scanNumber_spec (E : Env) (u : Scanner) (b : Bool) (hi : Inv u) (hs : Sync u) :
    (scanNumber E u b).2.2 =
      slice u.src (if b then u.offset - 1 else u.offset) (scanNumber E u b).1.offset ∧
    isDigit E (scanNumber E u b).1.ch = false ∧
    ((scanNumber E u b).2.1 = FLOAT ↔
      (b = true ∨ 46 ∈ slice u.src u.offset (scanNumber E u b).1.offset)) ∧
    (slice u.src u.offset (scanNumber E u b).1.offset).count 46 ≤ (if b then 0 else 1) ∧
    ((scanNumber E u b).1.ch = 46 → (scanNumber E u b).2.1 = FLOAT) ∧
    u.offset ≤ (scanNumber E u b).1.offset ∧ (scanNumber E u b).1.offset ≤ u.src.length := by
  have hx := scanNumber_nexts E u b
  have hle := hx.offset_le hi
  have hlen := (hx.inv hi).offset_le_length
  rw [hx.src] at hlen
  have hr1 : Run (isDigit E) u (whileNext (isDigit E) (u.src.length + 1) u) :=
    whileNext_run _ _ _
  have hm1 := hr1.nexts
  have him := hm1.inv hi
  have hsm := hm1.sync hs
  have hd1 := digits_no_dot E _ (hr1.bytes hi hs (isDigit_eof E))
  have hex1 : isDigit E (whileNext (isDigit E) (u.src.length + 1) u).ch = false :=
    whileNext_exits (isDigit E) (isDigit_eof E) _ u (by omega)
  by_cases h : (whileNext (isDigit E) (u.src.length + 1) u).ch = 46 ∧ b = false
  · have e := scanNumber_dot E u b h
    have hb : b = false := h.2
    have hr2 : Run (isDigit E) (next (whileNext (isDigit E) (u.src.length + 1) u))
        (scanNumber E u b).1 := by
      rw [e]; exact whileNext_run _ _ _
    have hin := next_inv _ him.rd_le
    have hd2 := digits_no_dot E _ (hr2.bytes hin (next_sync _) (isDigit_eof E))
    have ho := ascii_next_offset _ him hsm (by rw [h.1]; decide) (by rw [h.1]; decide)
    have hsl := ascii_next_slice _ him hsm (by rw [h.1]; decide) (by rw [h.1]; decide)
    rw [h.1, hm1.src] at hsl
    have hsl' : slice u.src (whileNext (isDigit E) (u.src.length + 1) u).offset
        ((whileNext (isDigit E) (u.src.length + 1) u).offset + 1) = [46] := hsl
    rw [next_src, hm1.src, ho] at hd2
    have hle1 := hm1.offset_le hi
    have hle2 := hr2.nexts.offset_le hin
    rw [ho] at hle2
    have hsplit : slice u.src u.offset (scanNumber E u b).1.offset =
        slice u.src u.offset (whileNext (isDigit E) (u.src.length + 1) u).offset ++
          ([46] ++ slice u.src ((whileNext (isDigit E) (u.src.length + 1) u).offset + 1)
            (scanNumber E u b).1.offset) := by
      rw [← hsl', slice_append _ _ _ _ (by omega) hle2, slice_append _ _ _ _ hle1 (by omega)]
    have htok : (scanNumber E u b).2.1 = FLOAT := by rw [e]
    have hex2 : isDigit E (scanNumber E u b).1.ch = false := by
      rw [e]
      exact whileNext_exits (isDigit E) (isDigit_eof E) _ _ (by omega)
    refine ⟨?_, hex2, ?_, ?_, fun _ => htok, hle, hlen⟩
    · have e2 : (scanNumber E u b).2.2 = slice (scanNumber E u b).1.src
          (if b then u.offset - 1 else u.offset) (scanNumber E u b).1.offset := by rw [e]
      rw [e2, hx.src]
    · rw [htok, hsplit]
      simp
    · rw [hsplit, List.count_append, List.count_append, List.count_eq_zero.mpr hd1,
        List.count_eq_zero.mpr hd2, hb]
      simp
  · have e := scanNumber_nodot E u b h
    have e1 : (scanNumber E u b).1 = whileNext (isDigit E) (u.src.length + 1) u := by rw [e]
    have htok : (scanNumber E u b).2.1 = if b then FLOAT else INT := by rw [e]
    rw [← e1] at hd1
    rw [← e1] at hex1
    refine ⟨?_, hex1, ?_, ?_, ?_, hle, hlen⟩
    · have e2 : (scanNumber E u b).2.2 = slice (scanNumber E u b).1.src
          (if b then u.offset - 1 else u.offset) (scanNumber E u b).1.offset := by rw [e]
      rw [e2, hx.src]
    · rw [htok]
      cases b
      · simp only [Bool.false_eq_true, if_false, false_or]
        constructor
        · intro c; cases c
        · intro c; exact absurd c hd1
      · simp
    · rw [List.count_eq_zero.mpr hd1]
      exact Nat.zero_le _
    · intro hc
      rw [htok]
      rw [e1] at hc
      cases b
      · exact absurd ⟨hc, rfl⟩ h
      · rfl

theorem scan_numbers (E : Env) :
    scanResults E 2 (Init (ascii "123") false) = [⟨0, INT, ascii "123"⟩, ⟨3, EOF, []⟩] ∧
    scanResults E 2 (Init (ascii ".123") false) = [⟨0, FLOAT, ascii ".123"⟩, ⟨4, EOF, []⟩] ∧
    scanResults E 2 (Init (ascii "123.") false) = [⟨0, FLOAT, ascii "123."⟩, ⟨4, EOF, []⟩] := by
  have a0 : Init (ascii "123") false = ⟨[49, 50, 51], false, [], 49, 0, 1, 0⟩ := rfl
  have a1 : Scan E ⟨[49, 50, 51], false, [], 49, 0, 1, 0⟩ =
      (⟨[49, 50, 51], false, [], -1, 3, 3, 0⟩, ⟨0, INT, [49, 50, 51]⟩) := rfl
  have a2 : Scan E ⟨[49, 50, 51], false, [], -1, 3, 3, 0⟩ =
      (⟨[49, 50, 51], false, [], -1, 3, 3, 0⟩, ⟨3, EOF, []⟩) := rfl
  have b0 : Init (ascii ".123") false = ⟨[46, 49, 50, 51], false, [], 46, 0, 1, 0⟩ := rfl
  have b1 : Scan E ⟨[46, 49, 50, 51], false, [], 46, 0, 1, 0⟩ =
      (⟨[46, 49, 50, 51], false, [], -1, 4, 4, 0⟩, ⟨0, FLOAT, [46, 49, 50, 51]⟩) := rfl
  have b2 : Scan E ⟨[46, 49, 50, 51], false, [], -1, 4, 4, 0⟩ =
      (⟨[46, 49, 50, 51], false, [], -1, 4, 4, 0⟩, ⟨4, EOF, []⟩) := rfl
  have c0 : Init (ascii "123.") false = ⟨[49, 50, 51, 46], false, [], 49, 0, 1, 0⟩ := rfl
  have c1 : Scan E ⟨[49, 50, 51, 46], false, [], 49, 0, 1, 0⟩ =
      (⟨[49, 50, 51, 46], false, [], -1, 4, 4, 0⟩, ⟨0, FLOAT, [49, 50, 51, 46]⟩) := rfl
  have c2 : Scan E ⟨[49, 50, 51, 46], false, [], -1, 4, 4, 0⟩ =
      (⟨[49, 50, 51, 46], false, [], -1, 4, 4, 0⟩, ⟨4, EOF, []⟩) := rfl
  rw [a0, b0, c0]
  simp only [scanResults, a1, a2, b1, b2, c1, c2]
  exact ⟨rfl, rfl, rfl⟩

theorem isLetter_ascii_digit (E : Env) (c : Int) (h1 : 48 ≤ c) (h2 : c ≤ 57) :
    isLetter E c = false ∧ isDigit E c = true := by
  unfold isLetter isDigit
  simp only [Bool.or_eq_true, Bool.and_eq_true, decide_eq_true_eq, Bool.or_eq_false_iff,
    Bool.and_eq_false_iff, decide_eq_false_iff_not, beq_eq_false_iff_ne, ge_iff_le]
  omega

/-- The number cases of `Scan` at a state that satisfies the cursor invariants. -/
theorem scanToken_number (E : Env) (t : Scanner) (hi : Inv t) (hs : Sync t)
    (h : (isLetter E t.ch = false ∧ isDigit E t.ch = true) ∨
      (t.ch = 46 ∧ 48 ≤ (next t).ch ∧ (next t).ch ≤ 57)) :
    ((scanToken E t).2.tok = INT ∨ (scanToken E t).2.tok = FLOAT) ∧
    (scanToken E t).2.pos = t.offset ∧
    (scanToken E t).2.lit = slice t.src t.offset (scanToken E t).1.offset ∧
    (scanToken E t).2.lit.count 46 ≤ 1 ∧
    ((scanToken E t).2.tok = FLOAT ↔ 46 ∈ (scanToken E t).2.lit) ∧
    isDigit E (scanToken E t).1.ch = false ∧
    ((scanToken E t).1.ch = 46 → 46 ∈ (scanToken E t).2.lit) := by
  rcases h with ⟨hl, hd⟩ | ⟨hc, hn⟩
  · obtain ⟨p1, p2, p3, p4, p5, _, _⟩ := scanNumber_spec E t false hi hs
    rw [scanToken_digit E t hl hd]
    simp only [Bool.false_eq_true, if_false, false_or] at p1 p3 p4
    have e : (⟨t.offset, (scanNumber E t false).2.1, (scanNumber E t false).2.2⟩ : Result).lit =
        slice t.src t.offset (scanNumber E t false).1.offset := p1
    refine ⟨scanNumber_tok E t false, rfl, e, ?_, ?_, p2, ?_⟩
    · rw [e]; exact p4
    · rw [e]; exact p3
    · rw [e]; exact fun c => p3.mp (p5 c)
  · have hl : isLetter E t.ch = false := by rw [hc]; rfl
    have hd : isDigit E t.ch = false := by rw [hc]; rfl
    have h0 : (0 : Int) ≤ t.ch := by rw [hc]; decide
    have h1 : t.ch < 128 := by rw [hc]; decide
    have ho := ascii_next_offset t hi hs h0 h1
    have hsl := ascii_next_slice t hi hs h0 h1
    rw [hc] at hsl
    have hsl' : slice t.src t.offset (t.offset + 1) = [46] := hsl
    obtain ⟨p1, p2, p3, p4, p5, p6, p7⟩ :=
      scanNumber_spec E (next t) true (next_inv t hi.rd_le) (next_sync t)
    rw [next_src, ho] at p1 p3 p4
    rw [next_src] at p7
    rw [ho] at p6
    simp only [if_true, Nat.add_sub_cancel, true_or, iff_true] at p1 p3 p4
    rw [scanToken_dotnum E t hl hd hc hn]
    have e : (⟨t.offset, (scanNumber E (next t) true).2.1,
        (scanNumber E (next t) true).2.2⟩ : Result).lit =
        [46] ++ slice t.src (t.offset + 1) (scanNumber E (next t) true).1.offset := by
      show (scanNumber E (next t) true).2.2 = _
      rw [p1, ← hsl', slice_append _ _ _ _ (by omega) p6]
    have e' : (⟨t.offset, (scanNumber E (next t) true).2.1,
        (scanNumber E (next t) true).2.2⟩ : Result).lit =
        slice t.src t.offset (scanNumber E (next t) true).1.offset := p1
    refine ⟨Or.inr p3, rfl, e', ?_, ?_, p2, ?_⟩
    · rw [e, List.count_append]
      have : List.count 46 [46] = 1 := rfl
      omega
    · rw [e]
      exact ⟨fun _ => by simp, fun _ => p3⟩
    · intro _
      rw [e]
      simp

/-- C12. Number scanning. Let `t` be the state after `Init`, any number of
`Scan` calls and the skipping of white space. If the current character is a
digit (and not a letter, which holds for every ASCII digit), or is `.` with an
ASCII digit as the next character, then `Scan` returns `INT` or `FLOAT` at the
start offset of `t`; the literal is `src[pos:offset]` up to the new offset and
contains at most one `.`; the kind is `FLOAT` exactly when the literal contains
a `.`; the character after the token is not a digit, and is `.` only if the
literal contains a `.`. In particular `"123"` gives `INT "123"`, `".123"` gives
`FLOAT ".123"` and `"123."` gives `FLOAT "123."`, each followed by `EOF`. -/
theorem number_scanning (E : Env) (src : List Nat) (err : Bool) (n : Nat)
    (s t : Scanner) (hs : s = scanState E n (Init src err)) (ht : t = skipWhitespace s) :
    ((isLetter E t.ch = false ∧ isDigit E t.ch = true) ∨
        (t.ch = 46 ∧ 48 ≤ (next t).ch ∧ (next t).ch ≤ 57) →
      ((Scan E s).2.tok = INT ∨ (Scan E s).2.tok = FLOAT) ∧
      (Scan E s).2.pos = t.offset ∧
      (Scan E s).2.lit = slice src t.offset (Scan E s).1.offset ∧
      (Scan E s).2.lit.count 46 ≤ 1 ∧
      ((Scan E s).2.tok = FLOAT ↔ 46 ∈ (Scan E s).2.lit) ∧
      isDigit E (Scan E s).1.ch = false ∧
      ((Scan E s).1.ch = 46 → 46 ∈ (Scan E s).2.lit)) ∧
    (48 ≤ t.ch → t.ch ≤ 57 → isLetter E t.ch = false ∧ isDigit E t.ch = true) ∧
    scanResults E 2 (Init (ascii "123") false) = [⟨0, INT, ascii "123"⟩, ⟨3, EOF, []⟩] ∧
    scanResults E 2 (Init (ascii ".123") false) = [⟨0, FLOAT, ascii ".123"⟩, ⟨4, EOF, []⟩] ∧
    scanResults E 2 (Init (ascii "123.") false) = [⟨0, FLOAT, ascii "123."⟩, ⟨4, EOF, []⟩] := by
  have hi : Inv s := by rw [hs]; exact scanState_inv E n _ (Init_inv src err)
  have hy : Sync s := by rw [hs]; exact scanState_sync E n _ (Init_sync src err)
  have hit : Inv t := by rw [ht]; exact skipWhitespace_inv s hi
  have hyt : Sync t := by rw [ht]; exact skipWhitespace_sync s hy
  have hsrc : t.src = src := by rw [ht, skipWhitespace_src, hs, scanState_src, Init_src]
  refine ⟨fun h => ?_, isLetter_ascii_digit E t.ch, scan_numbers E⟩
  have := scanToken_number E t hit hyt h
  rw [hsrc] at this
  rw [Scan_eq, ← ht]
  exact this

theorem number_scanning_witness :
    (scanState env0 1 (Init (ascii "x 12.5.") false) =
        scanState env0 1 (Init (ascii "x 12.5.") false) ∧
      skipWhitespace (scanState env0 1 (Init (ascii "x 12.5.") false)) =
        skipWhitespace (scanState env0 1 (Init (ascii "x 12.5.") false)) ∧
      isLetter env0 (skipWhitespace (scanState env0 1 (Init (ascii "x 12.5.") false))).ch = false ∧
      isDigit env0 (skipWhitespace (scanState env0 1 (Init (ascii "x 12.5.") false))).ch = true) ∧
    (Scan env0 (scanState env0 1 (Init (ascii "x 12.5.") false))).2.lit.count 46 ≤ 1 :=
  ⟨⟨rfl, rfl, by decide, by decide⟩,
    ((number_scanning env0 (ascii "x 12.5.") false 1 _ _ rfl rfl).1
      (Or.inl ⟨by decide, by decide⟩)).2.2.2.1⟩

theorem single_string {ch : Int} {tok : Token} (h : single ch = some tok) (hk : tok ≠ EOF) :
    0 ≤ ch ∧ ch < 128 ∧ Token.String tok = [ch.toNat] ∧ tok ≠ FLOAT := by
  rcases single_eq_some h with h | h | h | h | h | h | h | h | h | h | h | h <;>
    obtain ⟨h1, h2⟩ := h <;> subst h1 <;> subst h2 <;>
    first
    | exact absurd rfl hk
    | exact ⟨by decide, by decide, by decide, by decide⟩

/-- The token that `Scan` returns spells the bytes that the call consumed. -/
theorem scanToken_render (E : Env) (t : Scanner) (hi : Inv t) (hs : Sync t)
    (hk1 : (scanToken E t).2.tok ≠ ILLEGAL) (hk2 : (scanToken E t).2.tok ≠ EOF) :
    slice t.src (scanToken E t).2.pos (scanToken E t).1.offset =
      (if (scanToken E t).2.lit = [] then Token.String (scanToken E t).2.tok
        else (scanToken E t).2.lit) ∧
    ((scanToken E t).2.lit = [] ↔
      (isLetter E t.ch = false ∧ isDigit E t.ch = false ∧ (scanToken E t).2.tok ≠ FLOAT)) := by
  have hni := next_inv t hi.rd_le
  have hns := next_sync t
  revert hk1 hk2
  apply scanToken_cases E t (fun r => r.2.tok ≠ ILLEGAL → r.2.tok ≠ EOF →
    slice t.src r.2.pos r.1.offset = (if r.2.lit = [] then Token.String r.2.tok else r.2.lit) ∧
    (r.2.lit = [] ↔ (isLetter E t.ch = false ∧ isDigit E t.ch = false ∧ r.2.tok ≠ FLOAT)))
  case hLetter =>
    intro hl _ _
    obtain ⟨_, _, p3, p4, p5⟩ := scanIdentifier_spec E t hi hl
    have hne : (scanIdentifier E t).2 ≠ [] := by rw [p3]; exact slice_ne_nil _ _ _ p4 p5
    dsimp only
    rw [if_neg hne]
    refine ⟨p3.symm, ?_⟩
    constructor
    · intro e; exact absurd e hne
    · intro ⟨e, _⟩; rw [hl] at e; cases e
  case hDigit =>
    intro _ hd _ _
    obtain ⟨p1, _, _, _, _, _, p7⟩ := scanNumber_spec E t false hi hs
    have hne' : t.ch ≠ -1 := fun e => by rw [e, isDigit_eof] at hd; cases hd
    have h1 := (scanNumber_nexts_of_digit E t hd).offset_le hni
    have h2 := next_offset t hi.rd_le
    have h3 := hi.live hne'
    have p1' : (scanNumber E t false).2.2 =
        slice t.src t.offset (scanNumber E t false).1.offset := p1
    have hne : (scanNumber E t false).2.2 ≠ [] := by
      rw [p1']; exact slice_ne_nil _ _ _ (by omega) p7
    dsimp only
    rw [if_neg hne]
    refine ⟨p1'.symm, ?_⟩
    constructor
    · intro e; exact absurd e hne
    · intro ⟨_, e, _⟩; rw [hd] at e; cases e
  case hSingle =>
    intro tok hl hd h _ hk
    obtain ⟨a0, a1, a2, a3⟩ := single_string h hk
    dsimp only
    rw [if_pos rfl, ascii_next_offset t hi hs a0 a1, ascii_next_slice t hi hs a0 a1, a2]
    exact ⟨rfl, fun _ => ⟨hl, hd, a3⟩, fun _ => rfl⟩
  case hAssign =>
    intro hl hd hc hn _ _
    have a0 : (0 : Int) ≤ t.ch := by rw [hc]; decide
    have a1 : t.ch < 128 := by rw [hc]; decide
    have b0 : (0 : Int) ≤ (next t).ch := by rw [hn]; decide
    have b1 : (next t).ch < 128 := by rw [hn]; decide
    have e1 : slice t.src t.offset (t.offset + 2) = [58, 61] := by
      rw [ascii_two_slice t hi hs a0 a1 b0 b1, hc, hn]; rfl
    dsimp only
    rw [if_pos rfl, ascii_two_offset t hi hs a0 a1 b0 b1, e1]
    exact ⟨by decide, fun _ => ⟨hl, hd, by decide⟩, fun _ => rfl⟩
  case hColon => intro _ _ _ _ hk; exact absurd rfl hk
  case hDotNum =>
    intro hl hd hc hn _ _
    have a0 : (0 : Int) ≤ t.ch := by rw [hc]; decide
    have a1 : t.ch < 128 := by rw [hc]; decide
    have ho := ascii_next_offset t hi hs a0 a1
    obtain ⟨p1, _, p3, _, _, p6, p7⟩ := scanNumber_spec E (next t) true hni hns
    rw [next_src, ho] at p1
    rw [ho] at p6
    rw [next_src] at p7
    simp only [if_true, Nat.add_sub_cancel, true_or, iff_true] at p1 p3
    have hne : (scanNumber E (next t) true).2.2 ≠ [] := by
      rw [p1]; exact slice_ne_nil _ _ _ (by omega) p7
    dsimp only
    rw [if_neg hne]
    refine ⟨p1.symm, ?_⟩
    constructor
    · intro e; exact absurd e hne
    · intro ⟨_, _, e⟩; exact absurd p3 e
  case hDot => intro _ _ _ _ hk; exact absurd rfl hk
  case hLss =>
    intro hl hd hc _ _
    have a0 : (0 : Int) ≤ t.ch := by rw [hc]; decide
    have a1 : t.ch < 128 := by rw [hc]; decide
    dsimp only
    rw [if_pos rfl]
    by_cases c1 : (next t).ch = 61
    · have b0 : (0 : Int) ≤ (next t).ch := by rw [c1]; decide
      have b1 : (next t).ch < 128 := by rw [c1]; decide
      have e1 : slice t.src t.offset (t.offset + 2) = [t.ch.toNat, (next t).ch.toNat] :=
        ascii_two_slice t hi hs a0 a1 b0 b1
      rw [hc, c1] at e1
      rw [(switch3_eq (next t) LSS LEQ NEQ).1 c1]
      dsimp only
      rw [ascii_two_offset t hi hs a0 a1 b0 b1, e1]
      exact ⟨by decide, fun _ => ⟨hl, hd, by decide⟩, fun _ => rfl⟩
    · by_cases c2 : (next t).ch = 62
      · have b0 : (0 : Int) ≤ (next t).ch := by rw [c2]; decide
        have b1 : (next t).ch < 128 := by rw [c2]; decide
        have e1 : slice t.src t.offset (t.offset + 2) = [t.ch.toNat, (next t).ch.toNat] :=
          ascii_two_slice t hi hs a0 a1 b0 b1
        rw [hc, c2] at e1
        rw [(switch3_eq (next t) LSS LEQ NEQ).2.1 c2]
        dsimp only
        rw [ascii_two_offset t hi hs a0 a1 b0 b1, e1]
        exact ⟨by decide, fun _ => ⟨hl, hd, by decide⟩, fun _ => rfl⟩
      · have e1 : slice t.src t.offset (t.offset + 1) = [t.ch.toNat] :=
          ascii_next_slice t hi hs a0 a1
        rw [hc] at e1
        rw [(switch3_eq (next t) LSS LEQ NEQ).2.2 c1 c2]
        dsimp only
        rw [ascii_next_offset t hi hs a0 a1, e1]
        exact ⟨by decide, fun _ => ⟨hl, hd, by decide⟩, fun _ => rfl⟩
  case hGtr =>
    intro hl hd hc _ _
    have a0 : (0 : Int) ≤ t.ch := by rw [hc]; decide
    have a1 : t.ch < 128 := by rw [hc]; decide
    dsimp only
    rw [if_pos rfl]
    by_cases c1 : (next t).ch = 61
    · have b0 : (0 : Int) ≤ (next t).ch := by rw [c1]; decide
      have b1 : (next t).ch < 128 := by rw [c1]; decide
      have e1 : slice t.src t.offset (t.offset + 2) = [t.ch.toNat, (next t).ch.toNat] :=
        ascii_two_slice t hi hs a0 a1 b0 b1
      rw [hc, c1] at e1
      rw [(switch2_eq (next t) GTR GEQ).1 c1]
      dsimp only
      rw [ascii_two_offset t hi hs a0 a1 b0 b1, e1]
      exact ⟨by decide, fun _ => ⟨hl, hd, by decide⟩, fun _ => rfl⟩
    · have e1 : slice t.src t.offset (t.offset + 1) = [t.ch.toNat] :=
        ascii_next_slice t hi hs a0 a1
      rw [hc] at e1
      rw [(switch2_eq (next t) GTR GEQ).2 c1]
      dsimp only
      rw [ascii_next_offset t hi hs a0 a1, e1]
      exact ⟨by decide, fun _ => ⟨hl, hd, by decide⟩, fun _ => rfl⟩
  case hBom => intro _ _ _ hk; exact absurd rfl hk
  case hIllegal => intro _ _ _ _ hk; exact absurd rfl hk

/-- C20. Rendering reproduces the consumed source text. Let `t` be the state
after `Init`, any number of `Scan` calls and the skipping of white space, and
let the next call of `Scan` return `(pos, kind, lit)` with `kind` other than
`ILLEGAL` and `EOF`. Then the bytes `src[pos:offset]` up to the new offset are
`lit` when `lit` is not empty and `String(kind)` when it is; and `lit` is empty
exactly when the token starts at a character that is neither a letter, `_` nor
a digit and the kind is not `FLOAT`. -/
theorem rendering_reproduces_source (E : Env) (src : List Nat) (err : Bool) (n : Nat)
    (s t : Scanner) (hs : s = scanState E n (Init src err)) (ht : t = skipWhitespace s)
    (hk1 : (Scan E s).2.tok ≠ ILLEGAL) (hk2 : (Scan E s).2.tok ≠ EOF) :
    slice src (Scan E s).2.pos (Scan E s).1.offset =
      (if (Scan E s).2.lit = [] then Token.String (Scan E s).2.tok else (Scan E s).2.lit) ∧
    ((Scan E s).2.lit = [] ↔
      (isLetter E t.ch = false ∧ isDigit E t.ch = false ∧ (Scan E s).2.tok ≠ FLOAT)) := by
  have hi : Inv s := by rw [hs]; exact scanState_inv E n _ (Init_inv src err)
  have hy : Sync s := by rw [hs]; exact scanState_sync E n _ (Init_sync src err)
  have hit : Inv t := by rw [ht]; exact skipWhitespace_inv s hi
  have hyt : Sync t := by rw [ht]; exact skipWhitespace_sync s hy
  have hsrc : t.src = src := by rw [ht, skipWhitespace_src, hs, scanState_src, Init_src]
  rw [Scan_eq, ← ht] at hk1 hk2 ⊢
  have := scanToken_render E t hit hyt hk1 hk2
  rw [hsrc] at this
  exact this

theorem rendering_reproduces_source_witness :
    (scanState env0 1 (Init (ascii "a <= .5") false) =
        scanState env0 1 (Init (ascii "a <= .5") false) ∧
      skipWhitespace (scanState env0 1 (Init (ascii "a <= .5") false)) =
        skipWhitespace (scanState env0 1 (Init (ascii "a <= .5") false)) ∧
      (Scan env0 (scanState env0 1 (Init (ascii "a <= .5") false))).2.tok ≠ ILLEGAL ∧
      (Scan env0 (scanState env0 1 (Init (ascii "a <= .5") false))).2.tok ≠ EOF) ∧
    slice (ascii "a <= .5") (Scan env0 (scanState env0 1 (Init (ascii "a <= .5") false))).2.pos
        (Scan env0 (scanState env0 1 (Init (ascii "a <= .5") false))).1.offset =
      (if (Scan env0 (scanState env0 1 (Init (ascii "a <= .5") false))).2.lit = [] then
        Token.String (Scan env0 (scanState env0 1 (Init (ascii "a <= .5") false))).2.tok
      else (Scan env0 (scanState env0 1 (Init (ascii "a <= .5") false))).2.lit) :=
  ⟨⟨rfl, rfl, by decide, by decide⟩,
    (rendering_reproduces_source env0 (ascii "a <= .5") false 1 _ _ rfl rfl
      (by decide) (by decide)).1⟩

theorem Z_ch {pre post : List Nat} {s : Scanner} (h : Z pre post s) (ha : Ascii (pre ++ post)) :
    s.ch = chOf post ∧ s.rdOffset = (pre ++ post.take 1).length := by
  have hi := h.inv
  have hs := h.sync
  have hsrc := h.src_eq
  have hoff := h.off_eq
  cases post with
  | nil =>
    have hc : s.ch = -1 := by
      by_contra hc
      have := (hs hc).1
      rw [hsrc, hoff] at this
      simp at this
    refine ⟨hc, ?_⟩
    have := (hi.eof hc).2
    rw [this, hsrc]
    simp
  | cons b post =>
    have hlt : s.offset < s.src.length := by rw [hsrc, hoff]; simp
    have hc : ¬ s.ch = -1 := by
      intro hc
      have := (hi.eof hc).1
      omega
    obtain ⟨_, h2, h3⟩ := hs hc
    have hb := ha b (by simp)
    have hg : s.src.getD s.offset 0 = b := by
      rw [hsrc, hoff, getD_append_length]; rfl
    have hr := readRune_ascii s.src s.offset (by rw [hg]; exact hb.1) (by rw [hg]; exact hb.2)
    rw [hr, hg] at h2 h3
    refine ⟨h2, ?_⟩
    rw [h3, hoff]
    simp

theorem Z_step {pre post : List Nat} {b : Nat} {s : Scanner} (h : Z pre (b :: post) s)
    (ha : Ascii (pre ++ b :: post)) : Z (pre ++ [b]) post (next s) := by
  have hc := (Z_ch h ha).2
  refine ⟨?_, ?_, next_inv s h.inv.rd_le, next_sync s⟩
  · rw [next_src, h.src_eq]; simp
  · rw [next_offset s h.inv.rd_le, hc]; simp

theorem Z_step_nil {pre : List Nat} {s : Scanner} (h : Z pre [] s) : Z pre [] (next s) := by
  have hrd := h.inv.rd_le
  have hoff := h.inv.offset_le_length
  have hsrc := h.src_eq
  have ho := h.off_eq
  refine ⟨by rw [next_src]; exact hsrc, ?_, next_inv s hrd, next_sync s⟩
  have h1 := (next_inv s hrd).offset_le_length
  have h2 := h.inv.off_le
  rw [next_src] at h1
  rw [next_offset s hrd]
  rw [hsrc] at h1 hoff hrd
  simp at h1 hoff hrd
  omega

/-- A loop over a run of bytes that satisfy the condition, followed by a
character that does not, stops right behind the run. -/
theorem whileNext_Z (c : Int → Bool) (run : List Nat) :
    ∀ (pre post : List Nat) (s : Scanner) (f : Nat), Z pre (run ++ post) s →
      Ascii (pre ++ (run ++ post)) → (∀ b ∈ run, c (b : Int) = true) → c (chOf post) = false →
      run.length < f → Z (pre ++ run) post (whileNext c f s) := by
  induction run with
  | nil =>
    intro pre post s f h ha _ hp _
    have hc := (Z_ch h ha).1
    rw [whileNext_of_not c f s (by rw [hc]; exact hp)]
    simpa using h
  | cons b run ih =>
    intro pre post s f h ha hr hp hf
    obtain ⟨f, rfl⟩ : ∃ f', f = f' + 1 := ⟨f - 1, by simp at hf; omega⟩
    have hc := (Z_ch h ha).1
    have hb : c s.ch = true := by rw [hc]; exact hr b (List.mem_cons_self _ _)
    rw [whileNext_of_cond c f s hb]
    have h' : Z (pre ++ [b]) (run ++ post) (next s) := Z_step h ha
    have := ih (pre ++ [b]) post (next s) f h' (by simpa using ha)
      (fun x hx => hr x (List.mem_cons_of_mem _ hx)) hp (by simp at hf; omega)
    simpa using this

theorem slice_mid (pre mid post : List Nat) :
    slice (pre ++ (mid ++ post)) pre.length (pre ++ mid).length = mid := by
  unfold slice
  rw [← List.append_assoc, List.take_left' rfl, List.drop_left' rfl]

theorem isLetterB_isLetter (E : Env) (b : Nat) (h : isLetterB b = true) :
    isLetter E (b : Int) = true := by
  unfold isLetterB at h
  unfold isLetter
  simp only [Bool.or_eq_true, Bool.and_eq_true, decide_eq_true_eq, beq_iff_eq] at h ⊢
  omega

theorem isDigitB_isDigit (E : Env) (b : Nat) (h : isDigitB b = true) :
    isDigit E (b : Int) = true ∧ isLetter E (b : Int) = false ∧ 48 ≤ (b : Int) ∧ (b : Int) ≤ 57 := by
  unfold isDigitB at h
  simp only [Bool.and_eq_true, decide_eq_true_eq] at h
  have h1 : (48 : Int) ≤ (b : Int) := by omega
  have h2 : (b : Int) ≤ 57 := by omega
  have := isLetter_ascii_digit E (b : Int) h1 h2
  exact ⟨this.2, this.1, h1, h2⟩

theorem isSpaceB_isSpace (b : Nat) (h : isSpaceB b = true) : isSpace (b : Int) = true := by
  unfold isSpaceB at h
  unfold isSpace
  simp only [Bool.or_eq_true, beq_iff_eq] at h ⊢
  omega

theorem isSpace_not_ident (E : Env) (c : Int) (h : isSpace c = true) :
    isLetter E c = false ∧ isDigit E c = false ∧ ¬ c = 46 ∧ ¬ c = 61 ∧ ¬ c = 62 ∧ ¬ c = -1 := by
  unfold isSpace at h
  simp only [Bool.or_eq_true, beq_iff_eq] at h
  rcases h with ((h | h) | h) | h <;> subst h <;>
    exact ⟨rfl, rfl, by decide, by decide, by decide, by decide⟩

theorem skipWhitespace_Z (pre w rest : List Nat) (s : Scanner) (h : Z pre (w ++ rest) s)
    (ha : Ascii (pre ++ (w ++ rest))) (hw : ∀ b ∈ w, isSpaceB b = true)
    (hr : isSpace (chOf rest) = false) : Z (pre ++ w) rest (skipWhitespace s) := by
  unfold skipWhitespace
  apply whileNext_Z isSpace w pre rest s _ h ha (fun b hb => isSpaceB_isSpace b (hw b hb)) hr
  rw [h.src_eq]
  simp
  omega

theorem scanToken_ident (E : Env) (P sp post : List Nat) (t : Scanner)
    (h : Z P (sp ++ post) t) (ha : Ascii (P ++ (sp ++ post)))
    (hsp : identSpelling sp = true) (hp : isSpace (chOf post) = true) :
    (scanToken E t).2 = ⟨P.length, Lookup E sp, sp⟩ ∧ Z (P ++ sp) post (scanToken E t).1 := by
  cases sp with
  | nil => cases hsp
  | cons b r =>
    unfold identSpelling at hsp
    rw [Bool.and_eq_true] at hsp
    have hb := isLetterB_isLetter E b hsp.1
    have hc : t.ch = (b : Int) := (Z_ch h ha).1
    have hl : isLetter E t.ch = true := by rw [hc]; exact hb
    have hrun : ∀ x ∈ b :: r, (fun c => isLetter E c || isDigit E c) (x : Int) = true := by
      intro x hx
      rcases List.mem_cons.mp hx with e | e
      · rw [e]; show (isLetter E (b : Int) || isDigit E (b : Int)) = true
        rw [hb]; rfl
      · have := List.all_eq_true.mp hsp.2 x e
        show (isLetter E (x : Int) || isDigit E (x : Int)) = true
        rcases Bool.or_eq_true_iff.mp this with e' | e'
        · rw [isLetterB_isLetter E x e']; rfl
        · rw [(isDigitB_isDigit E x e').1]; simp
    have hstop : (fun c => isLetter E c || isDigit E c) (chOf post) = false := by
      have := isSpace_not_ident E _ hp
      show (isLetter E (chOf post) || isDigit E (chOf post)) = false
      rw [this.1, this.2.1]; rfl
    have hz : Z (P ++ (b :: r)) post (scanIdentifier E t).1 := by
      apply whileNext_Z _ (b :: r) P post t _ h ha hrun hstop
      rw [h.src_eq]
      simp
      omega
    have hlit : (scanIdentifier E t).2 = b :: r := by
      show slice (scanIdentifier E t).1.src t.offset (scanIdentifier E t).1.offset = _
      rw [hz.src_eq, h.off_eq, hz.off_eq, List.append_assoc]
      exact slice_mid P (b :: r) post
    rw [scanToken_letter E t hl]
    refine ⟨?_, hz⟩
    show (⟨t.offset, Lookup E (scanIdentifier E t).2, (scanIdentifier E t).2⟩ : Result) = _
    rw [hlit, h.off_eq]

theorem digits_run (E : Env) (l : List Nat) (h : l.all isDigitB = true) :
    ∀ x ∈ l, isDigit E (x : Int) = true :=
  fun x hx => (isDigitB_isDigit E x (List.all_eq_true.mp h x hx)).1

theorem scanToken_int (E : Env) (P sp post : List Nat) (t : Scanner)
    (h : Z P (sp ++ post) t) (ha : Ascii (P ++ (sp ++ post)))
    (hsp : intSpelling sp = true) (hp : isSpace (chOf post) = true) :
    (scanToken E t).2 = ⟨P.length, INT, sp⟩ ∧ Z (P ++ sp) post (scanToken E t).1 := by
  unfold intSpelling at hsp
  rw [Bool.and_eq_true] at hsp
  cases sp with
  | nil => simp at hsp
  | cons b r =>
    have hall := hsp.2
    have hd := isDigitB_isDigit E b (List.all_eq_true.mp hall b (List.mem_cons_self _ _))
    have hc : t.ch = (b : Int) := (Z_ch h ha).1
    have hsps := isSpace_not_ident E _ hp
    have hz : Z (P ++ (b :: r)) post (whileNext (isDigit E) (t.src.length + 1) t) := by
      apply whileNext_Z _ (b :: r) P post t _ h ha (digits_run E _ hall) hsps.2.1
      rw [h.src_eq]
      simp
      omega
    have hm : (whileNext (isDigit E) (t.src.length + 1) t).ch = chOf post := (Z_ch hz (by
      simpa using ha)).1
    have hnd : ¬ ((whileNext (isDigit E) (t.src.length + 1) t).ch = 46 ∧ false = false) := by
      rw [hm]; exact fun c => hsps.2.2.1 c.1
    rw [scanToken_digit E t (by rw [hc]; exact hd.2.1) (by rw [hc]; exact hd.1),
      scanNumber_nodot E t false hnd]
    refine ⟨?_, hz⟩
    show (⟨t.offset, INT, slice (whileNext (isDigit E) (t.src.length + 1) t).src t.offset
      (whileNext (isDigit E) (t.src.length + 1) t).offset⟩ : Result) = _
    rw [hz.src_eq, hz.off_eq, h.off_eq, List.append_assoc, slice_mid]

theorem chOf_digit (E : Env) (b : List Nat) (post : List Nat) (hb : b.all isDigitB = true)
    (_hp : isSpace (chOf post) = true) (hne : b ≠ []) :
    48 ≤ chOf (b ++ post) ∧ chOf (b ++ post) ≤ 57 := by
  cases b with
  | nil => exact absurd rfl hne
  | cons d b =>
    have := isDigitB_isDigit E d (List.all_eq_true.mp hb d (List.mem_cons_self _ _))
    exact ⟨this.2.2.1, this.2.2.2⟩

theorem scanToken_float (E : Env) (P sp post : List Nat) (t : Scanner)
    (h : Z P (sp ++ post) t) (ha : Ascii (P ++ (sp ++ post)))
    (hsp : floatSpelling sp) (hp : isSpace (chOf post) = true) :
    (scanToken E t).2 = ⟨P.length, FLOAT, sp⟩ ∧ Z (P ++ sp) post (scanToken E t).1 := by
  obtain ⟨a, b, rfl, hda, hdb, hne⟩ := hsp
  have hsps := isSpace_not_ident E _ hp
  cases a with
  | nil =>
    have hbne : b ≠ [] := by
      rcases hne with c | c
      · exact absurd rfl c
      · exact c
    have h' : Z P (46 :: (b ++ post)) t := by simpa using h
    have ha' : Ascii (P ++ 46 :: (b ++ post)) := by simpa using ha
    have hc : t.ch = 46 := (Z_ch h' ha').1
    have hn : Z (P ++ [46]) (b ++ post) (next t) := Z_step h' ha'
    have han : Ascii ((P ++ [46]) ++ (b ++ post)) := by simpa using ha
    have hnc : (next t).ch = chOf (b ++ post) := (Z_ch hn han).1
    have hdig := chOf_digit E b post hdb hp hbne
    have hz : Z ((P ++ [46]) ++ b) post
        (whileNext (isDigit E) ((next t).src.length + 1) (next t)) := by
      apply whileNext_Z _ b (P ++ [46]) post (next t) _ hn han (digits_run E _ hdb) hsps.2.1
      rw [hn.src_eq]
      simp
      omega
    have hm : (whileNext (isDigit E) ((next t).src.length + 1) (next t)).ch = chOf post :=
      (Z_ch hz (by simpa using ha)).1
    have hnd : ¬ ((whileNext (isDigit E) ((next t).src.length + 1) (next t)).ch = 46 ∧
        true = false) := fun c => by cases c.2
    rw [scanToken_dotnum E t (by rw [hc]; rfl) (by rw [hc]; rfl) hc (by rw [hnc]; exact hdig),
      scanNumber_nodot E (next t) true hnd]
    refine ⟨?_, by simpa using hz⟩
    show (⟨t.offset, FLOAT,
      slice (whileNext (isDigit E) ((next t).src.length + 1) (next t)).src ((next t).offset - 1)
        (whileNext (isDigit E) ((next t).src.length + 1) (next t)).offset⟩ : Result) = _
    rw [hz.src_eq, hz.off_eq, hn.off_eq, h.off_eq]
    have e1 : (P ++ [46]).length - 1 = P.length := by simp
    have e2 : P ++ [46] ++ b ++ post = P ++ ((46 :: b) ++ post) := by simp
    have e3 : (P ++ [46] ++ b).length = (P ++ (46 :: b)).length := by simp
    rw [e1, e2, e3, slice_mid]
    rfl
  | cons d a =>
    have hd := isDigitB_isDigit E d (List.all_eq_true.mp hda d (List.mem_cons_self _ _))
    have h' : Z P ((d :: a) ++ (46 :: (b ++ post))) t := by simpa using h
    have ha' : Ascii (P ++ ((d :: a) ++ (46 :: (b ++ post)))) := by simpa using ha
    have hc : t.ch = (d : Int) := (Z_ch h' ha').1
    have hz1 : Z (P ++ (d :: a)) (46 :: (b ++ post))
        (whileNext (isDigit E) (t.src.length + 1) t) := by
      apply whileNext_Z _ (d :: a) P _ t _ h' ha' (digits_run E _ hda) rfl
      rw [h.src_eq]
      simp
      omega
    have ha1 : Ascii ((P ++ (d :: a)) ++ 46 :: (b ++ post)) := by simpa using ha
    have hm1 : (whileNext (isDigit E) (t.src.length + 1) t).ch = 46 := (Z_ch hz1 ha1).1
    have hn : Z ((P ++ (d :: a)) ++ [46]) (b ++ post)
        (next (whileNext (isDigit E) (t.src.length + 1) t)) := Z_step hz1 ha1
    have han : Ascii (((P ++ (d :: a)) ++ [46]) ++ (b ++ post)) := by simpa using ha
    have hz : Z (((P ++ (d :: a)) ++ [46]) ++ b) post
        (whileNext (isDigit E)
          ((next (whileNext (isDigit E) (t.src.length + 1) t)).src.length + 1)
          (next (whileNext (isDigit E) (t.src.length + 1) t))) := by
      apply whileNext_Z _ b _ post _ _ hn han (digits_run E _ hdb) hsps.2.1
      rw [hn.src_eq]
      simp
      omega
    rw [scanToken_digit E t (by rw [hc]; exact hd.2.1) (by rw [hc]; exact hd.1),
      scanNumber_dot E t false ⟨hm1, rfl⟩]
    refine ⟨?_, by simpa using hz⟩
    show (⟨t.offset, FLOAT, slice _ t.offset _⟩ : Result) = _
    rw [hz.src_eq, hz.off_eq, h.off_eq]
    have e2 : P ++ d :: a ++ [46] ++ b ++ post = P ++ ((d :: a ++ 46 :: b) ++ post) := by simp
    have e3 : (P ++ d :: a ++ [46] ++ b).length = (P ++ (d :: a ++ 46 :: b)).length := by simp
    rw [e2, e3, slice_mid]

theorem Z_one (P post : List Nat) (a : Nat) (t : Scanner) (h : Z P (a :: post) t)
    (ha : Ascii (P ++ a :: post)) :
    t.ch = (a : Int) ∧ (next t).ch = chOf post ∧ Z (P ++ [a]) post (next t) ∧
      t.offset = P.length := by
  have hn := Z_step h ha
  exact ⟨(Z_ch h ha).1, (Z_ch hn (by simpa using ha)).1, hn, h.off_eq⟩

theorem Z_two (P post : List Nat) (a b : Nat) (t : Scanner) (h : Z P (a :: b :: post) t)
    (ha : Ascii (P ++ a :: b :: post)) :
    t.ch = (a : Int) ∧ (next t).ch = (b : Int) ∧ Z (P ++ [a, b]) post (next (next t)) ∧
      t.offset = P.length := by
  obtain ⟨h1, h2, h3, h4⟩ := Z_one P (b :: post) a t h ha
  have h5 := Z_step h3 (by simpa using ha)
  exact ⟨h1, h2, by simpa using h5, h4⟩

theorem scanToken_single_Z (E : Env) (P post : List Nat) (c : Nat) (k : Token) (t : Scanner)
    (h : Z P (c :: post) t) (ha : Ascii (P ++ c :: post)) (hs : single (c : Int) = some k)
    (hl : isLetter E (c : Int) = false) (hd : isDigit E (c : Int) = false) :
    (scanToken E t).2 = ⟨P.length, k, []⟩ ∧ Z (P ++ [c]) post (scanToken E t).1 := by
  obtain ⟨h1, _, h3, h4⟩ := Z_one P post c t h ha
  rw [scanToken_single E t k (by rw [h1]; exact hl) (by rw [h1]; exact hd) (by rw [h1]; exact hs)]
  exact ⟨by rw [h4], h3⟩

theorem scanToken_op (E : Env) (P sp post : List Nat) (k : Token) (t : Scanner)
    (h : Z P (sp ++ post) t) (ha : Ascii (P ++ (sp ++ post)))
    (hk : k ∈ opKinds) (hsp : sp = tokens.getD k.toNat [])
    (hp : isSpace (chOf post) = true) :
    (scanToken E t).2 = ⟨P.length, k, []⟩ ∧ Z (P ++ sp) post (scanToken E t).1 := by
  have hsps := isSpace_not_ident E _ hp
  unfold opKinds at hk
  fin_cases hk
  · have e : sp = [43] := hsp
    subst e; exact scanToken_single_Z E P post 43 ADD t h ha rfl rfl rfl
  · have e : sp = [45] := hsp
    subst e; exact scanToken_single_Z E P post 45 SUB t h ha rfl rfl rfl
  · have e : sp = [42] := hsp
    subst e; exact scanToken_single_Z E P post 42 MUL t h ha rfl rfl rfl
  · have e : sp = [47] := hsp
    subst e; exact scanToken_single_Z E P post 47 QUO t h ha rfl rfl rfl
  · have e : sp = [61] := hsp
    subst e; exact scanToken_single_Z E P post 61 EQL t h ha rfl rfl rfl
  · have e : sp = [60] := hsp
    subst e
    obtain ⟨h1, h2, h3, h4⟩ := Z_one P post 60 t h ha
    rw [scanToken_lss E t (by rw [h1]; rfl) (by rw [h1]; rfl) h1,
      (switch3_eq (next t) LSS LEQ NEQ).2.2 (by rw [h2]; exact hsps.2.2.2.1)
        (by rw [h2]; exact hsps.2.2.2.2.1)]
    exact ⟨by rw [h4], h3⟩
  · have e : sp = [62] := hsp
    subst e
    obtain ⟨h1, h2, h3, h4⟩ := Z_one P post 62 t h ha
    rw [scanToken_gtr E t (by rw [h1]; rfl) (by rw [h1]; rfl) h1,
      (switch2_eq (next t) GTR GEQ).2 (by rw [h2]; exact hsps.2.2.2.1)]
    exact ⟨by rw [h4], h3⟩
  · have e : sp = [58, 61] := hsp
    subst e
    obtain ⟨h1, h2, h3, h4⟩ := Z_two P post 58 61 t h ha
    rw [scanToken_assign E t (by rw [h1]; rfl) (by rw [h1]; rfl) h1 h2]
    exact ⟨by rw [h4], h3⟩
  · have e : sp = [40] := hsp
    subst e; exact scanToken_single_Z E P post 40 LPAREN t h ha rfl rfl rfl
  · have e : sp = [91] := hsp
    subst e; exact scanToken_single_Z E P post 91 LBRACK t h ha rfl rfl rfl
  · have e : sp = [44] := hsp
    subst e; exact scanToken_single_Z E P post 44 COMMA t h ha rfl rfl rfl
  · have e : sp = [41] := hsp
    subst e; exact scanToken_single_Z E P post 41 RPAREN t h ha rfl rfl rfl
  · have e : sp = [93] := hsp
    subst e; exact scanToken_single_Z E P post 93 RBRACK t h ha rfl rfl rfl
  · have e : sp = [59] := hsp
    subst e; exact scanToken_single_Z E P post 59 SEMICOLON t h ha rfl rfl rfl
  · have e : sp = [60, 62] := hsp
    subst e
    obtain ⟨h1, h2, h3, h4⟩ := Z_two P post 60 62 t h ha
    rw [scanToken_lss E t (by rw [h1]; rfl) (by rw [h1]; rfl) h1,
      (switch3_eq (next t) LSS LEQ NEQ).2.1 h2]
    exact ⟨by rw [h4], h3⟩
  · have e : sp = [60, 61] := hsp
    subst e
    obtain ⟨h1, h2, h3, h4⟩ := Z_two P post 60 61 t h ha
    rw [scanToken_lss E t (by rw [h1]; rfl) (by rw [h1]; rfl) h1,
      (switch3_eq (next t) LSS LEQ NEQ).1 h2]
    exact ⟨by rw [h4], h3⟩
  · have e : sp = [62, 61] := hsp
    subst e
    obtain ⟨h1, h2, h3, h4⟩ := Z_two P post 62 61 t h ha
    rw [scanToken_gtr E t (by rw [h1]; rfl) (by rw [h1]; rfl) h1,
      (switch2_eq (next t) GTR GEQ).1 h2]
    exact ⟨by rw [h4], h3⟩

theorem isLetterB_bounds (b : Nat) (h : isLetterB b = true) :
    0 < b ∧ b < 128 ∧ isSpace (b : Int) = false := by
  unfold isLetterB at h
  unfold isSpace
  simp only [Bool.or_eq_true, Bool.and_eq_true, decide_eq_true_eq, beq_iff_eq,
    Bool.or_eq_false_iff, beq_eq_false_iff_ne, ne_eq] at h ⊢
  omega

theorem isDigitB_bounds (b : Nat) (h : isDigitB b = true) :
    0 < b ∧ b < 128 ∧ isSpace (b : Int) = false := by
  unfold isDigitB at h
  unfold isSpace
  simp only [Bool.and_eq_true, decide_eq_true_eq, beq_iff_eq,
    Bool.or_eq_false_iff, beq_eq_false_iff_ne, ne_eq] at h ⊢
  omega

theorem isSpaceB_bounds (b : Nat) (h : isSpaceB b = true) : 0 < b ∧ b < 128 := by
  unfold isSpaceB at h
  simp only [Bool.or_eq_true, beq_iff_eq] at h
  omega

theorem keyword_spelling (k : Token) (hk : k ∈ keywordKinds) :
    identSpelling (tokens.getD k.toNat []) = true ∧ (13 : Int) ≤ k ∧ k ≤ (30 : Int) := by
  unfold keywordKinds at hk
  fin_cases hk <;> exact ⟨by decide, by decide, by decide⟩

theorem op_spelling (k : Token) (hk : k ∈ opKinds) :
    (∀ b ∈ tokens.getD k.toNat [], 0 < b ∧ b < 128) ∧
    (∀ post, isSpace (chOf (tokens.getD k.toNat [] ++ post)) = false) ∧
    k ≠ IDENT ∧ k ≠ INT ∧ k ≠ FLOAT ∧ k ∉ keywordKinds ∧
    Token.String k = tokens.getD k.toNat [] := by
  unfold opKinds at hk
  fin_cases hk <;>
    exact ⟨by decide, fun _ => rfl, by decide, by decide, by decide, by decide, by decide⟩

theorem identSpelling_facts (sp : GoString) (h : identSpelling sp = true) :
    (∀ b ∈ sp, 0 < b ∧ b < 128) ∧ ∀ post, isSpace (chOf (sp ++ post)) = false := by
  cases sp with
  | nil => cases h
  | cons b r =>
    unfold identSpelling at h
    rw [Bool.and_eq_true] at h
    have hb := isLetterB_bounds b h.1
    constructor
    · intro x hx
      rcases List.mem_cons.mp hx with e | e
      · rw [e]; exact ⟨hb.1, hb.2.1⟩
      · have := List.all_eq_true.mp h.2 x e
        rcases Bool.or_eq_true_iff.mp this with e' | e'
        · have := isLetterB_bounds x e'; exact ⟨this.1, this.2.1⟩
        · have := isDigitB_bounds x e'; exact ⟨this.1, this.2.1⟩
    · intro post; exact hb.2.2

theorem digits_ascii (l : List Nat) (h : l.all isDigitB = true) : ∀ b ∈ l, 0 < b ∧ b < 128 := by
  intro x hx
  have := isDigitB_bounds x (List.all_eq_true.mp h x hx)
  exact ⟨this.1, this.2.1⟩

/-- The spelling of a valid token is made of ASCII characters and does not
begin with white space. -/
theorem ValidTok.facts {E : Env} {k : Token} {sp : GoString} (h : ValidTok E k sp) :
    (∀ b ∈ sp, 0 < b ∧ b < 128) ∧ ∀ post, isSpace (chOf (sp ++ post)) = false := by
  rcases h with ⟨_, h, _⟩ | ⟨_, h⟩ | ⟨_, h⟩ | ⟨hk, _, _, h⟩ | ⟨hk, h⟩
  · exact identSpelling_facts sp h
  · unfold intSpelling at h
    rw [Bool.and_eq_true] at h
    refine ⟨digits_ascii sp h.2, fun post => ?_⟩
    cases sp with
    | nil => simp at h
    | cons b r =>
      exact (isDigitB_bounds b (List.all_eq_true.mp h.2 b (List.mem_cons_self _ _))).2.2
  · obtain ⟨a, b, rfl, hda, hdb, _⟩ := h
    constructor
    · intro x hx
      rcases List.mem_append.mp hx with e | e
      · exact digits_ascii a hda x e
      · rcases List.mem_cons.mp e with e | e
        · rw [e]; exact ⟨by decide, by decide⟩
        · exact digits_ascii b hdb x e
    · intro post
      cases a with
      | nil => rfl
      | cons d a =>
        exact (isDigitB_bounds d (List.all_eq_true.mp hda d (List.mem_cons_self _ _))).2.2
  · rw [h]; exact identSpelling_facts _ (keyword_spelling k hk).1
  · rw [h]; exact ⟨(op_spelling k hk).1, (op_spelling k hk).2.1⟩

/-- `Scan` on a valid token that is followed by white space, once the white
space in front of it has been skipped. -/
theorem scanToken_valid (E : Env) (P sp post : List Nat) (k : Token) (t : Scanner)
    (h : Z P (sp ++ post) t) (ha : Ascii (P ++ (sp ++ post)))
    (hv : ValidTok E k sp) (hp : isSpace (chOf post) = true) :
    (scanToken E t).2 = ⟨P.length, k, litOf k sp⟩ ∧ Z (P ++ sp) post (scanToken E t).1 := by
  rcases hv with ⟨hk, h1, h2⟩ | ⟨hk, h1⟩ | ⟨hk, h1⟩ | ⟨hk, h1, h2, h3⟩ | ⟨hk, h1⟩
  · have := scanToken_ident E P sp post t h ha h1 hp
    rw [h2] at this
    rw [hk]
    exact this
  · have := scanToken_int E P sp post t h ha h1 hp
    rw [hk]
    exact this
  · have := scanToken_float E P sp post t h ha h1 hp
    rw [hk]
    exact this
  · have hks := keyword_spelling k hk
    rw [← h3] at hks
    have := scanToken_ident E P sp post t h ha hks.1 hp
    have hl : Lookup E sp = k := by
      have hb := E.beg_ge
      have j1 : E.keyword_beg < k.toNat := by
        clear hk this; delta Token at *; omega
      have j2 : k.toNat < E.keyword_end := by
        clear hk this; delta Token at *; omega
      have hk' : ((k.toNat : Nat) : Int) = k := by
        clear hk this; delta Token at *; omega
      rw [h3]
      have := Lookup_keyword E k.toNat j1 j2
      rw [hk'] at this
      exact this
    rw [hl] at this
    have e : litOf k sp = sp := by
      unfold litOf
      rw [if_pos (Or.inr (Or.inr (Or.inr hk)))]
    rw [e]
    exact this
  · have := scanToken_op E P sp post k t h ha hk h1 hp
    have ho := op_spelling k hk
    have e : litOf k sp = [] := by
      unfold litOf
      rw [if_neg]
      intro c
      rcases c with c | c | c | c
      · exact ho.2.2.1 c
      · exact ho.2.2.2.1 c
      · exact ho.2.2.2.2.1 c
      · exact ho.2.2.2.2.2.1 c
    rw [e]
    exact this

theorem Scan_valid (E : Env) (pre w sp post : List Nat) (k : Token) (s : Scanner)
    (h : Z pre (w ++ (sp ++ post)) s) (ha : Ascii (pre ++ (w ++ (sp ++ post))))
    (hw : ∀ b ∈ w, isSpaceB b = true) (hv : ValidTok E k sp)
    (hp : isSpace (chOf post) = true) :
    (Scan E s).2 = ⟨(pre ++ w).length, k, litOf k sp⟩ ∧
      Z (pre ++ w ++ sp) post (Scan E s).1 := by
  have ht := skipWhitespace_Z pre w (sp ++ post) s h ha hw (hv.facts.2 post)
  rw [Scan_eq]
  exact scanToken_valid E (pre ++ w) sp post k _ ht (by simpa using ha) hv hp

theorem Scan_eof_Z (E : Env) (pre w : List Nat) (s : Scanner) (h : Z pre w s)
    (ha : Ascii (pre ++ w)) (hw : ∀ b ∈ w, isSpaceB b = true) :
    (Scan E s).2 = ⟨(pre ++ w).length, EOF, []⟩ := by
  have h' : Z pre (w ++ []) s := by simpa using h
  have ht := skipWhitespace_Z pre w [] s h' (by simpa using ha) hw rfl
  have hc : (skipWhitespace s).ch = -1 := (Z_ch ht (by simpa using ha)).1
  rw [Scan_eq, scanToken_single E _ EOF (by rw [hc]; exact isLetter_eof E)
    (by rw [hc]; exact isDigit_eof E) (by rw [hc]; rfl), ht.off_eq]

theorem Init_Z (src : List Nat) (err : Bool) (ha : Ascii src) : Z [] src (Init src err) := by
  refine ⟨by rw [Init_src]; rfl, ?_, Init_inv src err, Init_sync src err⟩
  have hnb : ¬ utf8bom <+: src := by
    intro hc
    obtain ⟨t, ht⟩ := hc
    have := ha 239 (by rw [← ht]; simp [utf8bom])
    omega
  rw [Init_noBom src err hnb, next_offset _ (Nat.zero_le _)]
  rfl

theorem render_ascii (E : Env) (toks : List (Token × GoString × GoString))
    (hv : ∀ x ∈ toks, ValidTok E x.1 x.2.1 ∧ x.2.2 ≠ [] ∧ ∀ b ∈ x.2.2, isSpaceB b = true) :
    Ascii (render toks) := by
  induction toks with
  | nil => intro b hb; cases hb
  | cons x r ih =>
    have hx := hv x (List.mem_cons_self _ _)
    have hr := ih (fun y hy => hv y (List.mem_cons_of_mem _ hy))
    intro b hb
    rcases List.mem_append.mp hb with e | e
    · exact hx.1.facts.1 b e
    · rcases List.mem_append.mp e with e | e
      · exact isSpaceB_bounds b (hx.2.2 b e)
      · exact hr b e

theorem scanResults_render (E : Env) (toks : List (Token × GoString × GoString)) :
    ∀ (pre w0 : List Nat) (s : Scanner),
      (∀ x ∈ toks, ValidTok E x.1 x.2.1 ∧ x.2.2 ≠ [] ∧ ∀ b ∈ x.2.2, isSpaceB b = true) →
      Z pre (w0 ++ render toks) s → Ascii (pre ++ (w0 ++ render toks)) →
      (∀ b ∈ w0, isSpaceB b = true) →
      (scanResults E (toks.length + 1) s).map (fun r => (r.tok, r.lit)) =
        toks.map (fun x => (x.1, litOf x.1 x.2.1)) ++ [(EOF, [])] := by
  induction toks with
  | nil =>
    intro pre w0 s _ h ha hw
    have h' : Z pre w0 s := by simpa [render] using h
    have ha' : Ascii (pre ++ w0) := by simpa [render] using ha
    show [((Scan E s).2.tok, (Scan E s).2.lit)] = [(EOF, [])]
    rw [Scan_eof_Z E pre w0 s h' ha' hw]
  | cons x r ih =>
    intro pre w0 s hv h ha hw
    obtain ⟨hx, hne, hsp⟩ := hv x (List.mem_cons_self _ _)
    have hp : isSpace (chOf (x.2.2 ++ render r)) = true := by
      cases hws : x.2.2 with
      | nil => exact absurd hws hne
      | cons b l =>
        exact isSpaceB_isSpace b (hsp b (by rw [hws]; exact List.mem_cons_self _ _))
    obtain ⟨e1, e2⟩ := Scan_valid E pre w0 x.2.1 (x.2.2 ++ render r) x.1 s h ha hw hx hp
    have hi := ih (pre ++ w0 ++ x.2.1) x.2.2 (Scan E s).1
      (fun y hy => hv y (List.mem_cons_of_mem _ hy)) e2
      (by simpa [render] using ha) hsp
    show ((Scan E s).2.tok, (Scan E s).2.lit) ::
      (scanResults E (r.length + 1) (Scan E s).1).map (fun r => (r.tok, r.lit)) = _
    rw [hi, e1]
    rfl

/-- C1. Round trip. Take any list of valid tokens, each a kind with its
spelling (an `IDENT` spelt as a letter or `_` followed by letters, `_` and
digits that `Lookup` does not take for a keyword; an `INT` spelt as one or more
digits; a `FLOAT` spelt as digits `.` digits, `.` digits or digits `.`; a
keyword kind between the keyword bounds spelt as its table string; or one of
the operator and delimiter kinds of the test spelt as its table string), and
after each token a non-empty run of space, tab, newline and carriage return.
`Init` on the concatenation followed by `Scan` calls returns the kinds in
order and then `EOF`; the literal text is the spelling for literal kinds and
keywords and is empty for the other kinds, for which `String(kind)` is the
spelling. -/
theorem round_trip (E : Env) (toks : List (Token × GoString × GoString)) (err : Bool)
    (hv : ∀ x ∈ toks, ValidTok E x.1 x.2.1 ∧ x.2.2 ≠ [] ∧ ∀ b ∈ x.2.2, isSpaceB b = true) :
    (scanResults E (toks.length + 1) (Init (render toks) err)).map (fun r => (r.tok, r.lit)) =
      toks.map (fun x => (x.1, litOf x.1 x.2.1)) ++ [(EOF, [])] ∧
    ∀ x ∈ toks,
      (x.1 = IDENT ∨ x.1 = INT ∨ x.1 = FLOAT ∨ x.1 ∈ keywordKinds → litOf x.1 x.2.1 = x.2.1) ∧
      (x.1 ∈ opKinds → litOf x.1 x.2.1 = [] ∧ Token.String x.1 = x.2.1) := by
  have ha := render_ascii E toks hv
  constructor
  · exact scanResults_render E toks [] [] _ hv (by simpa using Init_Z _ err ha)
      (by simpa using ha) (fun b hb => by cases hb)
  · intro x hx
    constructor
    · intro h
      unfold litOf
      rw [if_pos h]
    · intro hk
      have ho := op_spelling x.1 hk
      have hlit : litOf x.1 x.2.1 = [] := by
        unfold litOf
        rw [if_neg]
        intro c
        rcases c with c | c | c | c
        · exact ho.2.2.1 c
        · exact ho.2.2.2.1 c
        · exact ho.2.2.2.2.1 c
        · exact ho.2.2.2.2.2.1 c
      refine ⟨hlit, ?_⟩
      rcases (hv x hx).1 with ⟨c, _⟩ | ⟨c, _⟩ | ⟨c, _⟩ | ⟨c, _⟩ | ⟨_, c⟩
      · exact absurd c ho.2.2.1
      · exact absurd c ho.2.2.2.1
      · exact absurd c ho.2.2.2.2.1
      · exact absurd c ho.2.2.2.2.2.1
      · rw [c]; exact ho.2.2.2.2.2.2
theorem round_trip_witness :
    (∀ x ∈ [(IDENT, ascii "x", [32]), (LEQ, ascii "<=", [10]), (FLOAT, ascii ".5", [32])],
      ValidTok env0 x.1 x.2.1 ∧ x.2.2 ≠ [] ∧ ∀ b ∈ x.2.2, isSpaceB b = true) ∧
    (scanResults env0 4 (Init (ascii "x <=\n.5 ") false)).map (fun r => (r.tok, r.lit)) =
      [(IDENT, ascii "x"), (LEQ, []), (FLOAT, ascii ".5"), (EOF, [])] :=
  have hv : ∀ x ∈ [(IDENT, ascii "x", [32]), (LEQ, ascii "<=", [10]), (FLOAT, ascii ".5", [32])],
      ValidTok env0 x.1 x.2.1 ∧ x.2.2 ≠ [] ∧ ∀ b ∈ x.2.2, isSpaceB b = true := by
    intro x hx
    rcases List.mem_cons.mp hx with e | hx
    · subst e
      exact ⟨Or.inl ⟨rfl, by decide, Lookup_lowercase env0 _ ⟨120, by decide, by decide, by decide⟩⟩,
        by decide, by decide⟩
    rcases List.mem_cons.mp hx with e | hx
    · subst e
      exact ⟨Or.inr (Or.inr (Or.inr (Or.inr ⟨by decide, rfl⟩))), by decide, by decide⟩
    rcases List.mem_cons.mp hx with e | hx
    · subst e
      exact ⟨Or.inr (Or.inr (Or.inl ⟨rfl, [], [53], rfl, rfl, rfl, Or.inr (by decide)⟩)),
        by decide, by decide⟩
    cases hx
  ⟨hv, (round_trip env0 _ false hv).1⟩

end Itl
